import Mathlib

/-!
# Verification of the MCBEDatabase SQL engine (fmbe-manager)

A shallow embedding, in Lean 4, of the in-memory SQL engine found in the
fmbe-manager repository (the WorldSqlDatabase executor and the row-limit
combination step of its SQL parser), together with theorems settling the
frozen specification claims.

Modelling conventions, used throughout and noted again at each definition
they affect:

* JavaScript JSON values are modelled by the inductive type Jv.  Numbers are
  modelled by exact rationals; float64 rounding is out of scope.
* A JavaScript plain object is modelled as an insertion-ordered association
  list over String keys.  Property assignment replaces the value in place
  when the key exists and appends otherwise, exactly as JS enumeration
  order behaves for string keys.
* An absent property (JS undefined) is modelled by Option.none; an explicit
  JSON null is the value Jv.null.  The two are distinguished exactly where
  the source distinguishes them.
* Object.is on two primitive values is value equality (there is no NaN and
  no negative zero in the exact-rational model).  Object.is on two arrays
  or objects is reference equality in JS; the engine only ever compares
  values stored by separate parses or separate inserts, which are distinct
  references, so it is modelled as false on composite values.
* CHECK constraints are stored by the source as SQL text and parsed (with a
  cache) on first use; here they are stored directly as parsed condition
  nodes, which is the image of that parse.
-/

set_option linter.unusedVariables false

deriving instance DecidableEq for Except

namespace WorldSql

/-- A JSON value as manipulated by the engine: the JsonValue union of the
source, with numbers modelled as exact rationals. -/
inductive Jv where
  | null
  | bool (b : Bool)
  | num (q : ℚ)
  | str (s : String)
  | arr (xs : List Jv)
  | obj (fields : List (String × Jv))
  deriving Repr

/-- Structural (deep) boolean equality on Jv, used to build decidable
equality for the nested inductive. -/
def Jv.beq : Jv → Jv → Bool
  | .null, .null => true
  | .bool a, .bool b => a == b
  | .num a, .num b => a == b
  | .str a, .str b => a == b
  | .arr xs, .arr ys => go xs ys
  | .obj xs, .obj ys => goF xs ys
  | _, _ => false
where
  go : List Jv → List Jv → Bool
    | [], [] => true
    | x :: xs, y :: ys => Jv.beq x y && go xs ys
    | _, _ => false
  goF : List (String × Jv) → List (String × Jv) → Bool
    | [], [] => true
    | (k, v) :: xs, (k', v') :: ys => k == k' && Jv.beq v v' && goF xs ys
    | _, _ => false

theorem Jv.beq_go_iff (xs ys : List Jv)
    (ih : ∀ x ∈ xs, ∀ b, (Jv.beq x b = true) ↔ x = b) :
    (Jv.beq.go xs ys = true) ↔ xs = ys := by
  induction xs generalizing ys with
  | nil => cases ys <;> simp [Jv.beq.go]
  | cons x xs ihl =>
      cases ys with
      | nil => simp [Jv.beq.go]
      | cons y ys =>
          simp [Jv.beq.go, ih x (by simp) y,
            ihl ys (fun z hz => ih z (List.mem_cons_of_mem x hz))]

theorem Jv.beq_goF_iff (xs ys : List (String × Jv))
    (ih : ∀ x ∈ xs, ∀ b, (Jv.beq x.2 b = true) ↔ x.2 = b) :
    (Jv.beq.goF xs ys = true) ↔ xs = ys := by
  induction xs generalizing ys with
  | nil => cases ys <;> simp [Jv.beq.goF]
  | cons x xs ihl =>
      cases ys with
      | nil => simp [Jv.beq.goF]
      | cons y ys =>
          obtain ⟨k, v⟩ := x
          obtain ⟨k', v'⟩ := y
          simp [Jv.beq.goF, ih ⟨k, v⟩ (by simp) v',
            ihl ys (fun z hz => ih z (List.mem_cons_of_mem _ hz)), and_assoc]

theorem Jv.beq_iff : ∀ (a b : Jv), (Jv.beq a b = true) ↔ a = b
  | .null, b => by cases b <;> simp [Jv.beq]
  | .bool a, b => by cases b <;> simp [Jv.beq]
  | .num a, b => by cases b <;> simp [Jv.beq]
  | .str a, b => by cases b <;> simp [Jv.beq]
  | .arr xs, b => by
      cases b <;> simp [Jv.beq]
      exact Jv.beq_go_iff xs _ (fun x hx b => Jv.beq_iff x b)
  | .obj xs, b => by
      cases b <;> simp [Jv.beq]
      exact Jv.beq_goF_iff xs _ (fun x hx b => Jv.beq_iff x.2 b)
termination_by a => sizeOf a
decreasing_by
  · have := List.sizeOf_lt_of_mem hx
    simp
    omega
  · have h1 := List.sizeOf_lt_of_mem hx
    have h2 : sizeOf x.2 < sizeOf x := by
      obtain ⟨k, v⟩ := x
      simp
    simp
    omega

instance : DecidableEq Jv := fun a b => decidable_of_iff _ (Jv.beq_iff a b)

/-- A row: a JS object mapping column names to values, insertion ordered. -/
abbrev Row := List (String × Jv)

/-- Property read on a JS object (or any string-keyed record): the value
at the first matching key, or none when the property is absent (JS
undefined). -/
def lookupKey {α : Type} (r : List (String × α)) (k : String) : Option α :=
  match r with
  | [] => none
  | (k', v) :: rest => if k' = k then some v else lookupKey rest k

/-- The JS membership test (k in row / hasOwnProperty). -/
def containsKey {α : Type} (r : List (String × α)) (k : String) : Bool :=
  match r with
  | [] => false
  | (k', _) :: rest => k' = k || containsKey rest k

/-- JS property assignment row[k] = v: replaces in place when the key is
present, appends otherwise. -/
def setKey {α : Type} (r : List (String × α)) (k : String) (v : α) : List (String × α) :=
  match r with
  | [] => [(k, v)]
  | (k', v') :: rest => if k' = k then (k, v) :: rest else (k', v') :: setKey rest k v

theorem lookupKey_setKey_self {α : Type} (l : List (String × α)) (k : String) (v : α) :
    lookupKey (setKey l k v) k = some v := by
  induction l with
  | nil => simp [setKey, lookupKey]
  | cons x xs ih =>
      by_cases h : x.1 = k <;> simp [setKey, lookupKey, h, ih]

theorem lookupKey_setKey_ne {α : Type} (l : List (String × α)) (k k' : String) (v : α)
    (h : k ≠ k') : lookupKey (setKey l k v) k' = lookupKey l k' := by
  induction l with
  | nil => simp [setKey, lookupKey, h]
  | cons x xs ih =>
      by_cases hx : x.1 = k
      · simp [setKey, lookupKey, hx, h]
      · by_cases hx' : x.1 = k' <;> simp [setKey, lookupKey, hx, hx', ih, Ne.symm h]

theorem containsKey_eq_isSome {α : Type} (l : List (String × α)) (k : String) :
    containsKey l k = (lookupKey l k).isSome := by
  induction l with
  | nil => simp [containsKey, lookupKey]
  | cons x xs ih =>
      by_cases h : x.1 = k <;> simp [containsKey, lookupKey, h, ih]

theorem containsKey_setKey_self {α : Type} (l : List (String × α)) (k : String) (v : α) :
    containsKey (setKey l k v) k = true := by
  simp [containsKey_eq_isSome, lookupKey_setKey_self]

theorem mem_setKey {α : Type} (l : List (String × α)) (k : String) (v : α)
    (x : String × α) (h : x ∈ setKey l k v) : x = (k, v) ∨ x ∈ l := by
  induction l with
  | nil => simpa [setKey] using h
  | cons y ys ih =>
      by_cases hy : y.1 = k
      · simp only [setKey, hy, if_pos rfl] at h
        rcases List.mem_cons.mp h with h1 | h1
        · exact Or.inl h1
        · exact Or.inr (List.mem_cons_of_mem _ h1)
      · simp only [setKey, hy, if_neg hy] at h
        rcases List.mem_cons.mp h with h1 | h1
        · exact Or.inr (h1 ▸ List.mem_cons_self _ _)
        · rcases ih h1 with h2 | h2
          · exact Or.inl h2
          · exact Or.inr (List.mem_cons_of_mem _ h2)

/-- JS object spread/Object.assign: assigns every binding of the second
object onto the first, left to right. -/
def rowAssign (r : Row) (s : List (String × Jv)) : Row :=
  s.foldl (fun acc kv => setKey acc kv.1 kv.2) r

/-- JS Math.floor on a number, in the exact-rational model: the floor of
the rational, computed as integer division of numerator by denominator
(which is the mathematical floor). -/
def jsFloor (q : ℚ) : ℤ := q.num / q.den

theorem jsFloor_eq (a : ℚ) : jsFloor a = ⌊a⌋ := Rat.floor_def.symm

theorem lt_jsFloor_add_one (p : ℚ) : p < ((jsFloor p : ℤ) : ℚ) + 1 := by
  rw [jsFloor_eq]
  exact_mod_cast Int.lt_floor_add_one p

/-- JSON.stringify of a number.  The source prints the float64 decimal
form; the exact-rational model prints an exact form.  Only determinism and
injectivity of the rendering matter to the verified properties. -/
def qToString (q : ℚ) : String :=
  if q.den = 1 then toString q.num else toString q.num ++ "/" ++ toString q.den

/-- JSON.stringify of a string: quoted, with quote and backslash escaped. -/
def jsonQuote (s : String) : String :=
  "\"" ++ String.mk (s.data.foldr
    (fun c acc => if c = '"' ∨ c = '\\' then '\\' :: c :: acc else c :: acc) []) ++ "\""

/-- Lexicographic code-point order on character lists, modelling the JS
default string sort order (which is code-unit order; they differ only
beyond the basic multilingual plane). -/
def strLtB : List Char → List Char → Bool
  | [], [] => false
  | [], _ :: _ => true
  | _ :: _, [] => false
  | a :: as, b :: bs =>
      if a.toNat < b.toNat then true
      else if b.toNat < a.toNat then false
      else strLtB as bs

def keyLe (a b : String) : Bool := !strLtB b.data a.data

/-- Key order used by Object.keys(value).sort(): lexicographic string
order (insertion sort; keys of a JS object are unique). -/
def insertSortedKey (x : String × String) : List (String × String) → List (String × String)
  | [] => [x]
  | y :: ys => if keyLe x.1 y.1 then x :: y :: ys else y :: insertSortedKey x ys

def sortByKey (l : List (String × String)) : List (String × String) :=
  l.foldr insertSortedKey []

/-- The stableStringify helper of the source: a canonical serialization of
a value, with object keys sorted.  Values of an object are serialized
first (structurally), then the entries are sorted by key, which agrees
with the source because JS object keys are unique. -/
def stableStringify : Jv → String
  | .null => "null"
  | .bool b => if b then "true" else "false"
  | .num q => qToString q
  | .str s => jsonQuote s
  | .arr xs => "[" ++ String.intercalate "," (goList xs) ++ "]"
  | .obj fs =>
      "\x7b" ++ String.intercalate ","
        ((sortByKey (goFields fs)).map (fun kv => jsonQuote kv.1 ++ ":" ++ kv.2)) ++ "\x7d"
where
  goList : List Jv → List String
    | [] => []
    | x :: xs => stableStringify x :: goList xs
  goFields : List (String × Jv) → List (String × String)
    | [] => []
    | (k, v) :: fs => (k, stableStringify v) :: goFields fs

/-- The JS typeof operator on a JSON value. -/
def typeofJv : Jv → String
  | .null => "object"
  | .bool _ => "boolean"
  | .num _ => "number"
  | .str _ => "string"
  | .arr _ => "object"
  | .obj _ => "object"

/-- The jsonEqual helper of the source: deep structural equality.  The
initial JS test a === b is subsumed by structural equality: on primitives
it is value equality, and two structurally equal composites for which the
reference test fails still compare equal through stableStringify, so the
result of the function is unchanged. -/
def jsonEqual (a b : Jv) : Bool :=
  if a = b then true
  else if typeofJv a ≠ typeofJv b then false
  else
    match a, b with
    | .null, _ => false
    | _, .null => false
    | .arr _, _ => stableStringify a = stableStringify b
    | .obj _, _ => stableStringify a = stableStringify b
    | _, _ => false

/-- jsonEqual with a possibly undefined left operand, as it is called on a
resolved column value: jsonEqual(undefined, v) is false in the source
because the typeof test fails. -/
def jsonEqualU : Option Jv → Jv → Bool
  | some a, b => jsonEqual a b
  | none, _ => false

/-- Object.is on two defined values.  On primitives this is value equality
in the exact-rational model (there is no NaN and no negative zero).  On
arrays and objects JS Object.is is reference equality; every such
comparison performed by the engine is between values stored by distinct
parses or distinct inserts, hence distinct references, modelled as false. -/
def objectIsV : Jv → Jv → Bool
  | .null, .null => true
  | .bool a, .bool b => a = b
  | .num a, .num b => a = b
  | .str a, .str b => a = b
  | _, _ => false

/-- Object.is on resolved (possibly undefined) values:
Object.is(undefined, undefined) is true. -/
def objectIs : Option Jv → Option Jv → Bool
  | none, none => true
  | some a, some b => objectIsV a b
  | _, _ => false

/-- The SQL LIKE matcher.  The source compiles the pattern to a
case-insensitive regular expression; this is the equivalent direct
matcher over lowercased character lists (percent matches any run,
underscore one character, an escape character quotes the next). -/
def likeMatch (esc : Option Char) : List Char → List Char → Bool
  | [], v => v.isEmpty
  | ch :: ps, v =>
    if esc = some ch then
      match ps, v with
      | [], v => v.isEmpty
      | c :: ps', c' :: vs => c' = c && likeMatch esc ps' vs
      | _ :: _, [] => false
    else if ch = '%' then
      likeMatch esc ps v ||
        (match v with
         | [] => false
         | _ :: vs => likeMatch esc (ch :: ps) vs)
    else if ch = '_' then
      match v with
      | _ :: vs => likeMatch esc ps vs
      | [] => false
    else
      match v with
      | c' :: vs => c' = ch && likeMatch esc ps vs
      | [] => false
termination_by p v => (p.length, v.length)

/-- The matchLike helper: case-insensitivity (the i regex flag) is
modelled by lowercasing both sides, including the escape character. -/
def matchLike (value pattern : String) (esc : Option Char) : Bool :=
  likeMatch (esc.map Char.toLower) (pattern.data.map Char.toLower) (value.data.map Char.toLower)

/-- A column reference, optionally qualified by a table name or alias. -/
structure ColumnRef where
  table : Option String
  column : String
  deriving DecidableEq, Repr

/-- The WhereOp union of the source. -/
inductive WhereOp where
  | eq | ne | lt | le | gt | ge | like | isin | between | isNull | isNotNull
  deriving DecidableEq, Repr

/-- A single WHERE comparison clause.  The escape character of LIKE is a
single-character string in the source. -/
structure WhereClause where
  column : ColumnRef
  op : WhereOp
  value : Jv
  escape : Option Char
  deriving DecidableEq, Repr

/-- The condition tree (WhereNode) restricted to the subquery-free
variants; IN and EXISTS subqueries are outside the verified fragment. -/
inductive WhereNode where
  | clause (c : WhereClause)
  | and (left right : WhereNode)
  | or (left right : WhereNode)
  | not (node : WhereNode)
  deriving DecidableEq, Repr

def numOpCmp (op : WhereOp) (l r : ℚ) : Bool :=
  match op with
  | .eq => l = r
  | .ne => l ≠ r
  | .lt => l < r
  | .le => l ≤ r
  | .gt => r < l
  | .ge => r ≤ l
  | _ => false

def strOpCmp (op : WhereOp) (l r : String) : Bool :=
  match op with
  | .eq => l = r
  | .ne => l ≠ r
  | .lt => decide (l < r)
  | .le => decide (l ≤ r)
  | .gt => decide (r < l)
  | .ge => decide (r ≤ l)
  | _ => false

/-- The compare helper of the source, deciding one WHERE clause against a
resolved left value (none models JS undefined). -/
def compare (c : WhereClause) (left : Option Jv) : Bool :=
  match c.op with
  | .isin =>
      match c.value with
      | .arr vs => vs.any (fun v => jsonEqualU left v)
      | _ => false
  | .between =>
      match c.value with
      | .arr [a, b] =>
          match left, a, b with
          | some (.num l), .num x, .num y => decide (x ≤ l) && decide (l ≤ y)
          | some (.str l), .str x, .str y => decide (x ≤ l) && decide (l ≤ y)
          | _, _, _ => false
      | _ => false
  | .isNull => left = none || left = some .null
  | .isNotNull => !(left = none || left = some .null)
  | .like =>
      match left, c.value with
      | some (.str l), .str p => matchLike l p c.escape
      | _, _ => false
  | op =>
      match left, c.value with
      | some (.num l), .num r => numOpCmp op l r
      | some (.str l), .str r => strOpCmp op l r
      | _, _ =>
          match op with
          | .eq => jsonEqualU left c.value
          | .ne => !jsonEqualU left c.value
          | _ => false

/-- The resolveColumnValue helper: a qualified lookup, then the bare
column in the row, then the same two lookups in the outer row, then the
bare column again (undefined when absent). -/
def resolveColumnValue (row : Row) (ref : ColumnRef) (outer : Option Row) : Option Jv :=
  let direct := match ref.table with
    | some t => lookupKey row (t ++ "." ++ ref.column)
    | none => none
  match direct with
  | some v => some v
  | none =>
    if containsKey row ref.column then lookupKey row ref.column
    else
      match outer with
      | some o =>
          let outerDirect := match ref.table with
            | some t => lookupKey o (t ++ "." ++ ref.column)
            | none => none
          match outerDirect with
          | some v => some v
          | none =>
              if containsKey o ref.column then lookupKey o ref.column
              else lookupKey row ref.column
      | none => lookupKey row ref.column

/-- Evaluation of a condition tree against a row, with an optional outer
row for correlated references.  This is rowMatchesWhereBasic of the
source, and coincides with the executor rowMatchesWhere on the
subquery-free fragment. -/
def rowMatchesWhereNode (row : Row) (outer : Option Row) : WhereNode → Bool
  | .clause c => compare c (resolveColumnValue row c.column outer)
  | .not n => !rowMatchesWhereNode row outer n
  | .and l r => rowMatchesWhereNode row outer l && rowMatchesWhereNode row outer r
  | .or l r => rowMatchesWhereNode row outer l || rowMatchesWhereNode row outer r

def rowMatchesWhere (row : Row) (w : Option WhereNode) (outer : Option Row) : Bool :=
  match w with
  | none => true
  | some n => rowMatchesWhereNode row outer n

def strCompare (a b : String) : Int :=
  if a < b then -1 else if b < a then 1 else 0

/-- The compareForSort helper, on possibly undefined operands, modelled as
a sign (the source returns a float difference for numbers but every use
tests only the sign).  localeCompare is modelled as code-point order. -/
def compareForSort (a b : Option Jv) : Int :=
  if a = b then 0
  else if a = none ∨ a = some .null then -1
  else if b = none ∨ b = some .null then 1
  else
    match a, b with
    | some (.num x), some (.num y) => if x < y then -1 else if y < x then 1 else 0
    | some (.str x), some (.str y) => strCompare x y
    | some x, some y => strCompare (stableStringify x) (stableStringify y)
    | _, _ => 0

/-- The key under which a projected column is stored. -/
def columnKey (ref : ColumnRef) : String :=
  match ref.table with
  | some t => t ++ "." ++ ref.column
  | none => ref.column

/-- The rowKey helper: canonical serialization of a whole row. -/
def rowKey (row : Row) : String := stableStringify (.obj row)

def distinctRowsGo (seen : List String) : List Row → List Row
  | [] => []
  | r :: rest =>
      let key := rowKey r
      if key ∈ seen then distinctRowsGo seen rest
      else r :: distinctRowsGo (key :: seen) rest

/-- The distinctRows helper: keeps the first row of each canonical
serialization. -/
def distinctRows (rows : List Row) : List Row := distinctRowsGo [] rows

/-- The nullRowFromRows helper: one null entry per key occurring in the
given rows, first occurrence order. -/
def nullRowFromRows (rows : List Row) : Row :=
  rows.foldl
    (fun out row => row.foldl
      (fun out kv => if containsKey out kv.1 then out else setKey out kv.1 .null) out) []

/-- The mergeRows helper: keys of the left row win; keys of the right row
are added only when absent. -/
def mergeRows (left right : Row) : Row :=
  right.foldl (fun out kv => if containsKey out kv.1 then out else setKey out kv.1 kv.2) left

/-- The rowMatchesUniqueConstraint helper: SQL null-distinctness; a null
or absent participating value never conflicts. -/
def rowMatchesUniqueConstraint (row other : Row) (columns : List String) : Bool :=
  columns.all (fun col =>
    match lookupKey row col, lookupKey other col with
    | some a, some b => !(a = .null) && !(b = .null) && objectIsV a b
    | _, _ => false)

/-- The declared column types. -/
inductive ColumnType where
  | text | integer | real | boolean | json
  deriving DecidableEq, Repr

def ColumnType.isNumeric : ColumnType → Bool
  | .integer => true
  | .real => true
  | _ => false

/-- A column definition.  The optional default value is named dflt because
default is reserved in Lean; a default of JSON null (some Jv.null) is
distinct from no default (none), as in the source.  The check predicate is
stored as its parsed condition node (the source stores source text and
parses it, with a cache, on first use). -/
structure ColumnDef where
  name : String
  type : ColumnType
  notNull : Bool
  primaryKey : Bool
  unique : Bool
  dflt : Option Jv
  check : Option WhereNode
  deriving DecidableEq, Repr

/-- A table definition; tdef fields are as in the source TableDef. -/
structure TableDef where
  name : String
  columns : List ColumnDef
  primaryKey : Option String
  autoIncrement : Bool
  uniqueConstraints : List (List String)
  checks : List WhereNode
  deriving DecidableEq, Repr

/-- A table: definition, rows in insertion order, next autoincrement
value (a JS number, exact rational here). -/
structure TableData where
  tdef : TableDef
  rows : List Row
  autoInc : ℚ
  deriving DecidableEq, Repr

inductive TriggerTiming where
  | before | after
  deriving DecidableEq, Repr

inductive TriggerEvent where
  | insert | update | delete
  deriving DecidableEq, Repr

structure TriggerDef where
  name : String
  table : String
  timing : TriggerTiming
  event : TriggerEvent
  statement : String
  deriving DecidableEq, Repr

/-- The catalog (DatabaseSnapshotV1): version tag 1 is implicit; the
tables record is an insertion-ordered association list, as JS objects
are.  In every reachable state the triggers list is materialised (the
source defaults it to the empty list on load and import). -/
structure Snapshot where
  tables : List (String × TableData)
  triggers : List TriggerDef
  deriving DecidableEq, Repr

def emptySnapshot : Snapshot := { tables := [], triggers := [] }

def getTable (σ : Snapshot) (name : String) : Option TableData :=
  lookupKey σ.tables name

/-- JS record assignment tables[name] = td. -/
def setTable (σ : Snapshot) (k : String) (v : TableData) : Snapshot :=
  { σ with tables := setKey σ.tables k v }

theorem getTable_setTable (σ : Snapshot) (k : String) (v : TableData) (k' : String) :
    getTable (setTable σ k v) k' = if k = k' then some v else getTable σ k' := by
  by_cases h : k = k'
  · simp [getTable, setTable, h, lookupKey_setKey_self]
  · simp [getTable, setTable, h, lookupKey_setKey_ne _ _ _ _ h]

theorem getTable_setTable_self (σ : Snapshot) (k : String) (v : TableData) :
    getTable (setTable σ k v) k = some v := by
  simp [getTable_setTable]

/-- The rowCount facade helper: zero for a missing table. -/
def rowCount (σ : Snapshot) (name : String) : Nat :=
  match getTable σ name with
  | none => 0
  | some td => td.rows.length

/-- CTE-aware table resolution (getTableFromContext). -/
def getTableFromContext (σ : Snapshot) (name : String) (ctes : List (String × TableData)) :
    Option TableData :=
  match lookupKey ctes name with
  | some td => some td
  | none => getTable σ name

/-- The validateValueType helper: null and undefined pass; otherwise the
declared type is enforced (INTEGER additionally requires an integral
number, Number.isInteger). -/
def validateValueType (col : ColumnDef) (value : Option Jv) : Except String Unit :=
  match value with
  | none => .ok ()
  | some .null => .ok ()
  | some v =>
      match col.type with
      | .text =>
          match v with
          | .str _ => .ok ()
          | _ => .error ("Column " ++ col.name ++ " expects TEXT.")
      | .integer =>
          match v with
          | .num q => if q.den = 1 then .ok () else .error ("Column " ++ col.name ++ " expects INTEGER.")
          | _ => .error ("Column " ++ col.name ++ " expects INTEGER.")
      | .real =>
          match v with
          | .num _ => .ok ()
          | _ => .error ("Column " ++ col.name ++ " expects REAL.")
      | .boolean =>
          match v with
          | .bool _ => .ok ()
          | _ => .error ("Column " ++ col.name ++ " expects BOOLEAN.")
      | .json => .ok ()

/-- The first column loop of insertRow: apply the default when the value
is absent, reject a null or absent value for a NOT NULL column (the test
reads the value captured before defaulting, as the source does), then
validate the declared type of the now-present value. -/
def applyDefaultsValidate (cols : List ColumnDef) (row : Row) : Except String Row :=
  match cols with
  | [] => .ok row
  | col :: rest =>
      let current := lookupKey row col.name
      let row1 := match current, col.dflt with
        | none, some d => setKey row col.name d
        | _, _ => row
      if (current == none || current == some .null) && col.notNull then
        .error ("Column " ++ col.name ++ " is NOT NULL.")
      else
        match validateValueType col (lookupKey row1 col.name) with
        | .error e => .error e
        | .ok () => applyDefaultsValidate rest row1

/-- The pure default application, used to state claims about the row the
engine validates. -/
def applyDefaults (cols : List ColumnDef) (row : Row) : Row :=
  cols.foldl
    (fun r col =>
      match lookupKey r col.name, col.dflt with
      | none, some d => setKey r col.name d
      | _, _ => r) row

def validateColumnChecks (cols : List ColumnDef) (row : Row) : Except String Unit :=
  match cols with
  | [] => .ok ()
  | col :: rest =>
      match col.check with
      | none => validateColumnChecks rest row
      | some node =>
          if rowMatchesWhereNode row none node then validateColumnChecks rest row
          else .error ("CHECK constraint failed: " ++ col.name)

def validateTableChecks (checks : List WhereNode) (row : Row) : Except String Unit :=
  match checks with
  | [] => .ok ()
  | node :: rest =>
      if rowMatchesWhereNode row none node then validateTableChecks rest row
      else .error "CHECK constraint failed."

/-- The validateChecks helper: column-level checks in order, then
table-level checks. -/
def validateChecks (tdef : TableDef) (row : Row) : Except String Unit :=
  match validateColumnChecks tdef.columns row with
  | .error e => .error e
  | .ok () => validateTableChecks tdef.checks row

def primaryKeyColumn (tdef : TableDef) : Option ColumnDef :=
  match tdef.primaryKey with
  | none => none
  | some pk => tdef.columns.find? (fun c => c.name = pk)

/-- The second primary-key block of insertRow: require a number for a
numeric primary-key column, and raise the autoincrement counter to
floor(pk) + 1 whenever the stored key is not below it. -/
def pkBump (tdef : TableDef) (pk : String) (row : Row) (autoInc : ℚ) :
    Except String (Row × ℚ) :=
  match primaryKeyColumn tdef with
  | some pkCol =>
      if pkCol.type.isNumeric then
        match lookupKey row pk with
        | some (.num p) =>
            if autoInc ≤ p then .ok (row, ((jsFloor p : ℤ) : ℚ) + 1) else .ok (row, autoInc)
        | _ => .error ("PRIMARY KEY " ++ pk ++ " must be a number.")
      else .ok (row, autoInc)
  | none => .ok (row, autoInc)

/-- The primary-key block of insertRow: auto-generate a numeric key when
absent (consuming the autoincrement counter), reject an absent
non-numeric key, then apply the numeric validation and counter bump. -/
def assignPk (tdef : TableDef) (row : Row) (autoInc : ℚ) : Except String (Row × ℚ) :=
  match tdef.primaryKey with
  | none => .ok (row, autoInc)
  | some pk =>
      match lookupKey row pk with
      | none =>
          match primaryKeyColumn tdef with
          | some pkCol =>
              if pkCol.type.isNumeric then
                pkBump tdef pk (setKey row pk (.num autoInc)) (autoInc + 1)
              else .error ("PRIMARY KEY " ++ pk ++ " must be provided for non-numeric type.")
          | none => .error ("PRIMARY KEY " ++ pk ++ " must be provided for non-numeric type.")
      | some _ => pkBump tdef pk row autoInc

/-- One existing row conflicting with the candidate row: same primary key,
or same value in a single-column UNIQUE column, or a fully-present match
of a multi-column unique constraint (findConflictingRows body). -/
def rowConflictsWith (tdef : TableDef) (row existing : Row) : Bool :=
  (match tdef.primaryKey with
   | some pk => containsKey row pk && objectIs (lookupKey existing pk) (lookupKey row pk)
   | none => false) ||
  tdef.columns.any (fun col =>
    col.unique && containsKey row col.name &&
      objectIs (lookupKey existing col.name) (lookupKey row col.name)) ||
  tdef.uniqueConstraints.any (fun cols =>
    cols.all (fun c => containsKey row c) && rowMatchesUniqueConstraint row existing cols)

def findConflictingRows (td : TableData) (row : Row) : List Row :=
  td.rows.filter (fun existing => rowConflictsWith td.tdef row existing)

def firstUniqueColDup (cols : List ColumnDef) (rows : List Row) (row : Row) : Option String :=
  match cols with
  | [] => none
  | col :: rest =>
      if col.unique && containsKey row col.name &&
         rows.any (fun r => objectIs (lookupKey r col.name) (lookupKey row col.name)) then
        some col.name
      else firstUniqueColDup rest rows row

def firstConstraintDup (ucs : List (List String)) (rows : List Row) (row : Row) :
    Option (List String) :=
  match ucs with
  | [] => none
  | cols :: rest =>
      if cols.all (fun c => containsKey row c) &&
         rows.any (fun r => rowMatchesUniqueConstraint row r cols) then
        some cols
      else firstConstraintDup rest rows row

def plainConflictError2 (td : TableData) (row : Row) : Option String :=
  match firstUniqueColDup td.tdef.columns td.rows row with
  | some colName => some ("Duplicate UNIQUE value for " ++ colName)
  | none =>
      match firstConstraintDup td.tdef.uniqueConstraints td.rows row with
      | some _ => some "Duplicate UNIQUE constraint."
      | none => none

/-- The plain-insert conflict branch of insertRow: a duplicate primary
key error whenever the candidate row carries the primary key, else the
first duplicate single-column UNIQUE value, else the first duplicate
multi-column unique constraint.  A none result falls through to the
insertion, exactly as the source control flow does. -/
def plainConflictError (tableName : String) (td : TableData) (row : Row) : Option String :=
  match td.tdef.primaryKey with
  | some pk =>
      if containsKey row pk then some ("Duplicate primary key for table " ++ tableName)
      else plainConflictError2 td row
  | none => plainConflictError2 td row

def inferColumnDefsFromInsert (columns : List String) : List ColumnDef :=
  columns.map (fun name =>
    { name := name, type := .json, notNull := false, primaryKey := false,
      unique := false, dflt := none, check := none })

/-- The ensureTable helper: returns the existing table or creates an
empty one whose primary key and autoincrement flag are inferred from the
given column definitions. -/
def ensureTable (σ : Snapshot) (name : String) (columns : List ColumnDef) :
    Snapshot × TableData :=
  match getTable σ name with
  | some td => (σ, td)
  | none =>
      let pk := (columns.find? (fun c => c.primaryKey)).map (fun (c : ColumnDef) => c.name)
      let pkCol := match pk with
        | some p => columns.find? (fun (c : ColumnDef) => c.name = p)
        | none => none
      let autoIncrement := match pkCol with
        | some c => c.type.isNumeric
        | none => false
      let tdef : TableDef :=
        { name := name, columns := columns, primaryKey := pk,
          autoIncrement := autoIncrement, uniqueConstraints := [], checks := [] }
      let td : TableData := { tdef := tdef, rows := [], autoInc := 1 }
      (setTable σ name td, td)

/-- The row object built from the column list and values of one INSERT
(the executor rejects mismatched lengths before this point). -/
def buildRow (columns : List String) (values : List Jv) : Row :=
  (List.zip columns values).foldl (fun r kv => setKey r kv.1 kv.2) []

inductive OrAction where
  | replace | ignore
  deriving DecidableEq, Repr

/-- The insertRow method.  State is threaded explicitly: an error result
carries the snapshot as mutated up to the throw (in particular the
autoincrement bump persists across a duplicate-key error, as it does in
the source).  Trigger firing is a no-op on the trigger-free catalogs
covered by the statement fragment and is therefore omitted. -/
def insertRow (σ : Snapshot) (tableName : String) (columns : List String)
    (values : List Jv) (orAction : Option OrAction) :
    Snapshot × Except String (Option Row) :=
  let st := ensureTable σ tableName (inferColumnDefsFromInsert columns)
  let σ1 := st.1
  let td := st.2
  let row0 := buildRow columns values
  match applyDefaultsValidate td.tdef.columns row0 with
  | .error e => (σ1, .error e)
  | .ok row1 =>
      match validateChecks td.tdef row1 with
      | .error e => (σ1, .error e)
      | .ok () =>
          match assignPk td.tdef row1 td.autoInc with
          | .error e => (σ1, .error e)
          | .ok (row2, autoInc2) =>
              let conflicts := findConflictingRows td row2
              if conflicts.isEmpty then
                (setTable σ1 tableName { td with rows := td.rows ++ [row2], autoInc := autoInc2 },
                 .ok (some row2))
              else
                match orAction with
                | some .ignore =>
                    (setTable σ1 tableName { td with autoInc := autoInc2 }, .ok none)
                | some .replace =>
                    let kept := td.rows.filter (fun r => !rowConflictsWith td.tdef row2 r)
                    (setTable σ1 tableName { td with rows := kept ++ [row2], autoInc := autoInc2 },
                     .ok (some row2))
                | none =>
                    match plainConflictError tableName td row2 with
                    | some e => (setTable σ1 tableName { td with autoInc := autoInc2 }, .error e)
                    | none =>
                        (setTable σ1 tableName
                           { td with rows := td.rows ++ [row2], autoInc := autoInc2 },
                         .ok (some row2))

/-- The per-column NOT NULL and type validation of the update method. -/
def updateValidate (cols : List ColumnDef) (set : List (String × Jv)) (nextRow : Row) :
    Except String Unit :=
  match cols with
  | [] => .ok ()
  | col :: rest =>
      let value := lookupKey nextRow col.name
      if (value == none || value == some .null) && col.notNull then
        .error ("Column " ++ col.name ++ " is NOT NULL.")
      else if containsKey set col.name then
        match validateValueType col value with
        | .error e => .error e
        | .ok () => updateValidate rest set nextRow
      else updateValidate rest set nextRow

/-- The duplicate checks of the update method against every other row
(others is the rows list without the row being updated): primary key,
then single-column UNIQUE columns, then multi-column constraints. -/
def updateDupErr (tdef : TableDef) (tableName : String) (set : List (String × Jv))
    (nextRow : Row) (others : List Row) : Option String :=
  let pkErr : Option String :=
    match tdef.primaryKey with
    | some pk =>
        if containsKey set pk then
          let nextPk := lookupKey set pk
          let numBad := match primaryKeyColumn tdef with
            | some pkCol =>
                pkCol.type.isNumeric &&
                  (match nextPk with
                   | some (.num _) => false
                   | _ => true)
            | none => false
          if numBad then some ("PRIMARY KEY " ++ pk ++ " must be a number.")
          else if others.any (fun r => objectIs (lookupKey r pk) nextPk) then
            some ("Duplicate primary key for table " ++ tableName)
          else none
        else none
    | none => none
  match pkErr with
  | some e => some e
  | none =>
      match firstUniqueColDupUpd tdef.columns set nextRow others with
      | some colName => some ("Duplicate UNIQUE value for " ++ colName)
      | none =>
          match firstConstraintDupUpd tdef.uniqueConstraints set nextRow others with
          | some _ => some "Duplicate UNIQUE constraint."
          | none => none
where
  firstUniqueColDupUpd : List ColumnDef → List (String × Jv) → Row → List Row → Option String
    | [], _, _, _ => none
    | col :: rest, set, nextRow, others =>
        if col.unique && containsKey set col.name &&
           others.any (fun r => objectIs (lookupKey r col.name) (lookupKey nextRow col.name)) then
          some col.name
        else firstUniqueColDupUpd rest set nextRow others
  firstConstraintDupUpd : List (List String) → List (String × Jv) → Row → List Row → Option String
    | [], _, _, _ => none
    | cols :: rest, set, nextRow, others =>
        if cols.any (fun c => containsKey set c) &&
           cols.all (fun c => containsKey nextRow c) &&
           others.any (fun r => rowMatchesUniqueConstraint nextRow r cols) then
          some (String.intercalate ", " cols)
        else firstConstraintDupUpd rest set nextRow others

def maxReached (changed : Nat) (limit : Option Nat) : Bool :=
  match limit with
  | none => false
  | some m => m ≤ changed

/-- Result of the update row loop: the rows list as mutated so far, the
number of changed rows, the post-image rows, and the error raised, if
any (mutations made before the throw persist, as in the source). -/
structure UpdResult where
  rows : List Row
  changed : Nat
  updatedRows : List Row
  err : Option String
  deriving Repr

/-- The row loop of the update method.  processed holds the rows already
passed (updated in place where they matched); the duplicate checks
compare against every other row, that is processed ++ rest. -/
def updateLoop (tdef : TableDef) (tableName : String) (set : List (String × Jv))
    (w : Option WhereNode) (limit : Option Nat) :
    List Row → List Row → Nat → List Row → UpdResult
  | processed, [], changed, acc => ⟨processed, changed, acc, none⟩
  | processed, row :: rest, changed, acc =>
      if maxReached changed limit then ⟨processed ++ row :: rest, changed, acc, none⟩
      else if !rowMatchesWhere row w none then
        updateLoop tdef tableName set w limit (processed ++ [row]) rest changed acc
      else
        let nextRow := rowAssign row set
        match updateValidate tdef.columns set nextRow with
        | .error e => ⟨processed ++ row :: rest, changed, acc, some e⟩
        | .ok () =>
            match validateChecks tdef nextRow with
            | .error e => ⟨processed ++ row :: rest, changed, acc, some e⟩
            | .ok () =>
                match updateDupErr tdef tableName set nextRow (processed ++ rest) with
                | some e => ⟨processed ++ row :: rest, changed, acc, some e⟩
                | none =>
                    updateLoop tdef tableName set w limit
                      (processed ++ [nextRow]) rest (changed + 1) (acc ++ [nextRow])

/-- The update method: zero changes and no rows for a missing table;
otherwise the row loop, with partial mutations kept on error. -/
def updateTable (σ : Snapshot) (tableName : String) (set : List (String × Jv))
    (w : Option WhereNode) (limit : Option Nat) :
    Snapshot × Except String (Nat × List Row) :=
  match getTable σ tableName with
  | none => (σ, .ok (0, []))
  | some td =>
      let res := updateLoop td.tdef tableName set w limit [] td.rows 0 []
      let σ1 := setTable σ tableName { td with rows := res.rows }
      match res.err with
      | some e => (σ1, .error e)
      | none => (σ1, .ok (res.changed, res.updatedRows))

/-- The row loop of the delete method: rows matching the condition are
removed until the optional limit is exhausted; the rest are kept in
order. -/
def deleteLoop (w : Option WhereNode) : Option Nat → List Row → List Row × List Row
  | _, [] => ([], [])
  | remaining, row :: rest =>
      let canDelete := match remaining with
        | none => true
        | some n => decide (0 < n)
      if canDelete && rowMatchesWhere row w none then
        let res := deleteLoop w (remaining.map (fun n => n - 1)) rest
        (res.1, row :: res.2)
      else
        let res := deleteLoop w remaining rest
        (row :: res.1, res.2)

/-- The delete method: zero changes and no rows for a missing table. -/
def deleteFromTable (σ : Snapshot) (tableName : String) (w : Option WhereNode)
    (limit : Option Nat) : Snapshot × Except String (Nat × List Row) :=
  match getTable σ tableName with
  | none => (σ, .ok (0, []))
  | some td =>
      let kd := deleteLoop w limit td.rows
      (setTable σ tableName { td with rows := kd.1 }, .ok (kd.2.length, kd.2))

def firstMissingUcCol (ucs : List (List String)) (columns : List ColumnDef) : Option String :=
  match ucs with
  | [] => none
  | cols :: rest =>
      match cols.find? (fun col => !columns.any (fun c => c.name = col)) with
      | some col => some col
      | none => firstMissingUcCol rest columns

/-- The createTable method: duplicate-table and empty-column-list errors,
primary-key and unique-constraint column existence checks, autoincrement
inference from a numeric primary-key column type. -/
def createTable (σ : Snapshot) (table : String) (columns : List ColumnDef)
    (primaryKey : Option String) (ifNotExists : Bool)
    (ucs : List (List String)) (checks : List WhereNode) :
    Snapshot × Except String Unit :=
  if (getTable σ table).isSome then
    if ifNotExists then (σ, .ok ()) else (σ, .error ("Table already exists: " ++ table))
  else if columns.isEmpty then (σ, .error "CREATE TABLE requires at least one column.")
  else
    let pk := match primaryKey with
      | some p => some p
      | none => (columns.find? (fun c => c.primaryKey)).map (fun (c : ColumnDef) => c.name)
    let pkMissing := match pk with
      | some p => !columns.any (fun c => c.name = p)
      | none => false
    if pkMissing then (σ, .error "PRIMARY KEY column not found.")
    else
      match firstMissingUcCol ucs columns with
      | some col => (σ, .error ("UNIQUE column not found: " ++ col))
      | none =>
          let pkCol := match pk with
            | some p => columns.find? (fun (c : ColumnDef) => c.name = p)
            | none => none
          let autoIncrement := match pkCol with
            | some c => c.type.isNumeric
            | none => false
          let tdef : TableDef :=
            { name := table, columns := columns, primaryKey := pk,
              autoIncrement := autoIncrement, uniqueConstraints := ucs, checks := checks }
          (setTable σ table { tdef := tdef, rows := [], autoInc := 1 }, .ok ())

/-- The join-ON condition tree (JoinOnNode of the source). -/
inductive JoinOnNode where
  | clause (left right : ColumnRef)
  | and (l r : JoinOnNode)
  | or (l r : JoinOnNode)
  | not (n : JoinOnNode)
  deriving DecidableEq, Repr

def joinMatchesNode (row : Row) : JoinOnNode → Bool
  | .clause l r =>
      objectIs (resolveColumnValue row l none) (resolveColumnValue row r none)
  | .not n => !joinMatchesNode row n
  | .and l r => joinMatchesNode row l && joinMatchesNode row r
  | .or l r => joinMatchesNode row l || joinMatchesNode row r

/-- The joinMatches helper: an absent ON condition matches everything; a
clause compares the two resolved values with Object.is. -/
def joinMatches (row : Row) (onCond : Option JoinOnNode) : Bool :=
  match onCond with
  | none => true
  | some n => joinMatchesNode row n

/-! ## The SELECT pipeline

The select method, on the fragment the claims quantify over: star or a
list of column and aggregate result columns (scalar subqueries and
general expressions are outside the fragment), joins with ON or USING,
subquery-free conditions, GROUP BY, HAVING, DISTINCT, offset and limit.
ORDER BY is not exercised by any claim and is omitted. -/

structure TableRefS where
  name : String
  aliasName : Option String
  deriving DecidableEq, Repr

inductive JoinType where
  | inner | left | right | full | cross
  deriving DecidableEq, Repr

structure JoinClauseS where
  joinType : JoinType
  table : TableRefS
  onCond : Option JoinOnNode
  usingCols : Option (List String)
  deriving DecidableEq, Repr

inductive AggFunc where
  | count | sum | avg | min | max
  deriving DecidableEq, Repr

def aggName : AggFunc → String
  | .count => "COUNT"
  | .sum => "SUM"
  | .avg => "AVG"
  | .min => "MIN"
  | .max => "MAX"

inductive SelectExprS where
  | column (ref : ColumnRef)
  | aggregate (func : AggFunc) (ref : Option ColumnRef) (distinct : Bool)
  deriving DecidableEq, Repr

structure SelectColumnS where
  expr : SelectExprS
  aliasName : Option String
  deriving DecidableEq, Repr

structure SelectQueryS where
  fromTable : TableRefS
  joins : List JoinClauseS
  columns : Option (List SelectColumnS)
  whereC : Option WhereNode
  distinct : Bool
  groupBy : List ColumnRef
  having : Option WhereNode
  offset : Option Nat
  limit : Option Nat
  deriving DecidableEq, Repr

/-- The exprKey helper: the alias when given, else the column key or the
FUNC(target) rendering of an aggregate. -/
def exprKeyS (e : SelectExprS) (al : Option String) : String :=
  match al with
  | some a => a
  | none =>
      match e with
      | .column r => columnKey r
      | .aggregate f r _ =>
          aggName f ++ "(" ++
            (match r with
             | some rr => columnKey rr
             | none => "*") ++ ")"

def prefixKeys (aliases : List String) (k : String) (v : Jv) (out : Row) : Row :=
  aliases.foldl (fun o t => setKey o (t ++ "." ++ k) v) out

def rowWithPrefixesBase (aliases : List String) (source : Row) : Row :=
  source.foldl
    (fun out kv =>
      let out := prefixKeys aliases kv.1 kv.2 out
      if containsKey out kv.1 then out else setKey out kv.1 kv.2) []

def fillAliasKeys (aliases : List String) (name : String) (out : Row) : Row :=
  aliases.foldl
    (fun o t =>
      if containsKey o (t ++ "." ++ name) then o
      else setKey o (t ++ "." ++ name) Jv.null) out

def fillUndefinedCols (aliases : List String) (cols : List ColumnDef) (out : Row) : Row :=
  cols.foldl
    (fun out col =>
      let out := fillAliasKeys aliases col.name out
      if containsKey out col.name then out else setKey out col.name Jv.null) out

def rowAliases (tr : TableRefS) : List String :=
  (match tr.aliasName with
   | some a => [a]
   | none => []) ++ [tr.name]

/-- The rowWithPrefixes method: each source value is stored under every
alias-qualified key and under its bare key; with fillUndefined set, the
columns of the catalog table of that name are additionally null-filled
(used for the unmatched side of outer joins). -/
def rowWithPrefixes (σ : Snapshot) (tr : TableRefS) (source : Row)
    (fillUndefined : Bool) : Row :=
  let out := rowWithPrefixesBase (rowAliases tr) source
  if fillUndefined then
    fillUndefinedCols (rowAliases tr)
      (match getTable σ tr.name with
       | some td => td.tdef.columns
       | none => []) out
  else out

/-- The USING expansion: an AND-chain of equalities between the bare
column and the joined table's qualified column, in list order. -/
def buildUsingOn (rightAlias : String) (cols : List String) : Option JoinOnNode :=
  cols.foldl
    (fun node col =>
      let clause : JoinOnNode := .clause ⟨none, col⟩ ⟨some rightAlias, col⟩
      match node with
      | some n => some (.and n clause)
      | none => some clause) none

def joinMerge (isRight : Bool) (p s : Row) : Row :=
  if isRight then mergeRows s p else mergeRows p s

/-- Indexed candidate pairs of one primary row against the secondary
rows, keeping those whose merged row satisfies the ON condition. -/
def joinCandidates (isRight : Bool) (secondaryRows : List Row)
    (onCond : Option JoinOnNode) (p : Row) : List (Nat × Row) :=
  (secondaryRows.enum.map (fun is => (is.1, joinMerge isRight p is.2))).filter
    (fun im => joinMatches im.2 onCond)

/-- The primary loop of one join step: each primary row contributes its
matches in secondary order, or a null-filled synthesized row for LEFT,
RIGHT and FULL joins when unmatched; matched secondary indices are
collected for the FULL second pass. -/
def joinPrimaryLoop (jt : JoinType) (isRight isFull : Bool) (secondaryRows : List Row)
    (onCond : Option JoinOnNode) (emptyLeft emptyRight : Row) :
    List Row → List Row × List Nat
  | [] => ([], [])
  | p :: ps =>
      let cands := joinCandidates isRight secondaryRows onCond p
      let contrib :=
        if cands.isEmpty then
          if !isRight && (jt == JoinType.left || isFull) then [mergeRows p emptyRight]
          else if isRight && (jt == JoinType.right || isFull) then [mergeRows emptyLeft p]
          else []
        else cands.map (fun im => im.2)
      let rest := joinPrimaryLoop jt isRight isFull secondaryRows onCond emptyLeft emptyRight ps
      (contrib ++ rest.1, cands.map (fun im => im.1) ++ rest.2)

/-- The FULL OUTER second pass: unmatched secondary rows merged against
the null-filled other side. -/
def joinFullPass (isRight : Bool) (matched : List Nat) (emptyLeft emptyRight : Row)
    (secondaryRows : List Row) : List Row :=
  (secondaryRows.enum.filter (fun is => !(matched.contains is.1))).map
    (fun is => if isRight then mergeRows is.2 emptyRight else mergeRows emptyLeft is.2)

/-- One join of the fold in select: CROSS is the cartesian product;
otherwise the primary loop with RIGHT swapping sides and FULL adding the
second pass. -/
def joinStep (σ : Snapshot) (ctes : List (String × TableData)) (current : List Row)
    (join : JoinClauseS) : List Row :=
  let rightRows := match getTableFromContext σ join.table.name ctes with
    | some rt => rt.rows.map (fun r => rowWithPrefixes σ join.table r false)
    | none => []
  match join.joinType with
  | .cross => current.foldr (fun l acc => rightRows.map (fun r => mergeRows l r) ++ acc) []
  | jt =>
      let usingOn := match join.usingCols with
        | some cols => buildUsingOn (join.table.aliasName.getD join.table.name) cols
        | none => none
      let onCond := match join.onCond with
        | some o => some o
        | none => usingOn
      let isRight := jt == JoinType.right
      let isFull := jt == JoinType.full
      let primaryRows := if isRight then rightRows else current
      let secondaryRows := if isRight then current else rightRows
      let emptyLeft := nullRowFromRows current
      let emptyRight := rowWithPrefixes σ join.table [] true
      let lp := joinPrimaryLoop jt isRight isFull secondaryRows onCond emptyLeft emptyRight
        primaryRows
      if isFull then lp.1 ++ joinFullPass isRight lp.2 emptyLeft emptyRight secondaryRows
      else lp.1

/-- The joined row set of a query: the prefixed FROM rows folded through
each join (empty when the FROM table is missing; select returns before
reaching this point in that case). -/
def joinedRows (σ : Snapshot) (q : SelectQueryS) (ctes : List (String × TableData)) :
    List Row :=
  match getTableFromContext σ q.fromTable.name ctes with
  | none => []
  | some baseTable =>
      q.joins.foldl (joinStep σ ctes)
        (baseTable.rows.map (fun r => rowWithPrefixes σ q.fromTable r false))

/-- The filtered input of a query: the joined rows passing WHERE. -/
def filteredRows (σ : Snapshot) (q : SelectQueryS) (outer : Option Row)
    (ctes : List (String × TableData)) : List Row :=
  (joinedRows σ q ctes).filter (fun r => rowMatchesWhere r q.whereC outer)

/-- The projection of one result row through the select list.  A column
resolving to undefined is stored as an undefined-valued key by the
source, which is observationally absent here and modelled as absent. -/
def projectSelectRowS (row : Row) (cols : List SelectColumnS) (outer : Option Row) : Row :=
  cols.foldl
    (fun acc c =>
      match c.expr with
      | .column ref =>
          match resolveColumnValue row ref outer with
          | some v => setKey acc (exprKeyS c.expr c.aliasName) v
          | none => acc
      | .aggregate _ _ _ =>
          match lookupKey row (exprKeyS c.expr c.aliasName) with
          | some v => setKey acc (exprKeyS c.expr c.aliasName) v
          | none => acc) []

def stableStringifyU : Option Jv → String
  | none => ""
  | some v => stableStringify v

/-- The aggregateValue helper on a group of rows: COUNT of rows or of
non-null values (distinct via canonical serialization), SUM and AVG over
the numeric values (null when none), MIN and MAX through the sort
comparator starting from null. -/
def aggregateValueS (rows : List Row) (e : SelectExprS) : Option Jv :=
  match e with
  | .column _ => some Jv.null
  | .aggregate f ref distinct =>
      let values : List (Option Jv) :=
        match ref with
        | some r => rows.map (fun row => resolveColumnValue row r none)
        | none => []
      match f with
      | .count =>
          match ref with
          | none => some (Jv.num rows.length)
          | some _ =>
              if distinct then
                some (Jv.num (((values.filterMap id).filter
                  (fun v => !(v == Jv.null))).map stableStringify).dedup.length)
              else
                some (Jv.num (values.filter
                  (fun v => !(v == none) && !(v == some Jv.null))).length)
      | .sum =>
          let s := values.foldl
            (fun (acc : ℚ × Bool) v =>
              match v with
              | some (.num q) => (acc.1 + q, true)
              | _ => acc) (0, false)
          if s.2 then some (Jv.num s.1) else some Jv.null
      | .avg =>
          let s := values.foldl
            (fun (acc : ℚ × Nat) v =>
              match v with
              | some (.num q) => (acc.1 + q, acc.2 + 1)
              | _ => acc) (0, 0)
          if 0 < s.2 then some (Jv.num (s.1 / (s.2 : ℚ))) else some Jv.null
      | .min =>
          values.foldl
            (fun m v => if m == some Jv.null || compareForSort v m < 0 then v else m)
            (some Jv.null)
      | .max =>
          values.foldl
            (fun m v => if m == some Jv.null || compareForSort v m > 0 then v else m)
            (some Jv.null)

/-- The canonical group key: the stringified array of group-by values (an
undefined value contributes the empty string, as Array.prototype.join
renders undefined). -/
def buildGroupKey (vals : List (Option Jv)) : String :=
  "[" ++ String.intercalate "," (vals.map stableStringifyU) ++ "]"

/-- JS Map upsert preserving insertion order: append the row to an
existing group, or add a new group at the end. -/
def upsertGroup (gs : List (String × List Row)) (key : String) (row : Row) :
    List (String × List Row) :=
  match gs with
  | [] => [(key, [row])]
  | (k, rs) :: rest =>
      if k = key then (k, rs ++ [row]) :: rest
      else (k, rs) :: upsertGroup rest key row

/-- The select-list validation of the aggregate path: a bare column
reference must be a GROUP BY key, and is illegal with aggregates and no
grouping. -/
def validateAggColumns (cols : List SelectColumnS) (hasAggregates : Bool)
    (groupKeys : List String) : Except String Unit :=
  match cols with
  | [] => .ok ()
  | c :: rest =>
      match c.expr with
      | .column ref =>
          let key := columnKey ref
          if hasAggregates && groupKeys.isEmpty then
            .error ("Column " ++ key ++ " must be aggregated when using aggregate functions.")
          else if !groupKeys.isEmpty && !groupKeys.contains key then
            .error ("Column " ++ key ++ " must appear in GROUP BY or be aggregated.")
          else validateAggColumns rest hasAggregates groupKeys
      | _ => validateAggColumns rest hasAggregates groupKeys

/-- The aggregated row of one group: the group-by keys from the first row
(null for the synthetic empty group), then each select column (first-row
value for bare columns, aggregate value otherwise). -/
def buildAggRow (groupBy : List ColumnRef) (cols : List SelectColumnS)
    (rows : List Row) : Row :=
  let base := groupBy.foldl
    (fun acc g =>
      match rows with
      | r0 :: _ =>
          match resolveColumnValue r0 g none with
          | some v => setKey acc (columnKey g) v
          | none => acc
      | [] => setKey acc (columnKey g) Jv.null) []
  cols.foldl
    (fun acc c =>
      match c.expr with
      | .column ref =>
          let key := exprKeyS c.expr c.aliasName
          match rows with
          | r0 :: _ =>
              match resolveColumnValue r0 ref none with
              | some v => setKey acc key v
              | none => acc
          | [] => setKey acc key Jv.null
      | .aggregate _ _ _ =>
          match aggregateValueS rows c.expr with
          | some v => setKey acc (exprKeyS c.expr c.aliasName) v
          | none => acc) base

def isAggExpr : SelectExprS → Bool
  | .aggregate _ _ _ => true
  | _ => false

/-- The body of select once the FROM table is known to exist: filter,
project or aggregate, DISTINCT, offset and limit. -/
def selectFrom (σ : Snapshot) (q : SelectQueryS) (outer : Option Row)
    (ctes : List (String × TableData)) : Except String (List Row) :=
  let filtered := filteredRows σ q outer ctes
  let hasAggregates := match q.columns with
    | none => false
    | some cs => cs.any (fun c => isAggExpr c.expr)
  let hasGrouping := !q.groupBy.isEmpty
  let outE : Except String (List Row) :=
    match q.columns with
    | none => .ok filtered
    | some selectColumns =>
        if !hasAggregates && !hasGrouping then
          .ok (filtered.map (fun r => projectSelectRowS r selectColumns outer))
        else
          let groupKeys := q.groupBy.map columnKey
          match validateAggColumns selectColumns hasAggregates groupKeys with
          | .error e => .error e
          | .ok () =>
              let groups :=
                if filtered.isEmpty && hasAggregates && q.groupBy.isEmpty then
                  [("[]", ([] : List Row))]
                else filtered.foldl
                  (fun gs row => upsertGroup gs
                    (buildGroupKey (q.groupBy.map (fun g => resolveColumnValue row g none)))
                    row) []
              .ok (groups.foldr
                (fun g acc =>
                  let aggregated := buildAggRow q.groupBy selectColumns g.2
                  if rowMatchesWhere aggregated q.having outer then
                    projectSelectRowS aggregated selectColumns outer :: acc
                  else acc) [])
  match outE with
  | .error e => .error e
  | .ok outRows =>
      let o1 := if q.distinct then distinctRows outRows else outRows
      let o2 := match q.offset with
        | some off => o1.drop off
        | none => o1
      let o3 := match q.limit with
        | some lim => o2.take lim
        | none => o2
      .ok o3

/-- The select method: an empty result when the FROM table is missing
from the catalog and the CTE context, else the full pipeline. -/
def selectQ (σ : Snapshot) (q : SelectQueryS) (outer : Option Row)
    (ctes : List (String × TableData)) : Except String (List Row) :=
  match getTableFromContext σ q.fromTable.name ctes with
  | none => .ok []
  | some _ => selectFrom σ q outer ctes

/-- JS delete row[k]: removes the property. -/
def eraseKey {α : Type} (r : List (String × α)) (k : String) : List (String × α) :=
  match r with
  | [] => []
  | (k', v) :: rest => if k' = k then rest else (k', v) :: eraseKey rest k

/-- In-place rename of the first column carrying the old name (the
source finds the column object and mutates its name field). -/
def renameFirst : List ColumnDef → String → String → List ColumnDef
  | [], _, _ => []
  | c :: rest, fromName, toName =>
      if c.name = fromName then { c with name := toName } :: rest
      else c :: renameFirst rest fromName toName

/-- Array.prototype.findIndex: the first index satisfying the
predicate. -/
def findIndex (p : ColumnDef → Bool) : List ColumnDef → Option Nat
  | [] => none
  | c :: rest => if p c then some 0 else (findIndex p rest).map (fun n => n + 1)

/-- The table produced by a successful ADD COLUMN: the column appended
(becoming the primary key when so declared, with the autoincrement flag
recomputed) and every stored row backfilled with the DEFAULT, or
null. -/
def alterAddResult (table : TableData) (column : ColumnDef) : TableData :=
  let tdef2 : TableDef := { table.tdef with
    columns := table.tdef.columns ++ [column],
    primaryKey := if column.primaryKey then some column.name
      else table.tdef.primaryKey,
    autoIncrement := if column.primaryKey then column.type.isNumeric
      else table.tdef.autoIncrement }
  let rows2 := table.rows.map
    (fun row => setKey row column.name (column.dflt.getD Jv.null))
  { table with tdef := tdef2, rows := rows2 }

/-- The table produced by a successful RENAME COLUMN: the first column
of the old name renamed, the primary-key name and unique-constraint
occurrences updated, and the value moved in every row holding the old
key. -/
def alterRenameResult (table : TableData) (fromName toName : String) : TableData :=
  let tdef2 : TableDef := { table.tdef with
    columns := renameFirst table.tdef.columns fromName toName,
    primaryKey := if table.tdef.primaryKey = some fromName then some toName
      else table.tdef.primaryKey,
    uniqueConstraints := table.tdef.uniqueConstraints.map
      (fun cols => cols.map (fun c => if c = fromName then toName else c)) }
  let rows2 := table.rows.map (fun row =>
    if containsKey row fromName then
      eraseKey (setKey row toName ((lookupKey row fromName).getD Jv.null)) fromName
    else row)
  { table with tdef := tdef2, rows := rows2 }

/-- The table produced by a successful DROP COLUMN: the column removed
(clearing the primary key and autoincrement flag when it was the key),
unique constraints mentioning it dropped, and the key deleted from every
row. -/
def alterDropResult (table : TableData) (columnName : String) (idx : Nat) : TableData :=
  let tdef2 : TableDef := { table.tdef with
    columns := table.tdef.columns.eraseIdx idx,
    primaryKey := if table.tdef.primaryKey = some columnName then none
      else table.tdef.primaryKey,
    autoIncrement := if table.tdef.primaryKey = some columnName then false
      else table.tdef.autoIncrement,
    uniqueConstraints := table.tdef.uniqueConstraints.filter
      (fun cols => !cols.contains columnName) }
  let rows2 := table.rows.map (fun row => eraseKey row columnName)
  { table with tdef := tdef2, rows := rows2 }

/-- The alterTableAddColumn method: existence and constraint checks,
then the column is appended (becoming the primary key when so declared,
with the autoincrement flag recomputed), and every stored row is
backfilled with the DEFAULT value, or null. -/
def alterTableAddColumn (σ : Snapshot) (tableName : String) (column : ColumnDef) :
    Snapshot × Except String Unit :=
  match getTable σ tableName with
  | none => (σ, .error ("Table not found: " ++ tableName))
  | some table =>
      if table.tdef.columns.any (fun c => c.name = column.name) then
        (σ, .error ("Column already exists: " ++ column.name))
      else if column.primaryKey && table.tdef.primaryKey.isSome then
        (σ, .error "PRIMARY KEY already exists.")
      else if column.notNull && column.dflt == none && !table.rows.isEmpty then
        (σ, .error "NOT NULL column requires DEFAULT when table has rows.")
      else if column.unique && !(column.dflt == none) && !(column.dflt == some Jv.null) &&
          !table.rows.isEmpty then
        (σ, .error "UNIQUE column requires unique DEFAULT when table has rows.")
      else
        match (match column.dflt with
               | some d => validateValueType column (some d)
               | none => .ok ()) with
        | .error e => (σ, .error e)
        | .ok () => (setTable σ tableName (alterAddResult table column), .ok ())

/-- The alterTableRenameColumn method: renames the column object, the
primary-key name and unique-constraint occurrences, and moves the value
in every row holding the old key. -/
def alterTableRenameColumn (σ : Snapshot) (tableName fromName toName : String) :
    Snapshot × Except String Unit :=
  match getTable σ tableName with
  | none => (σ, .error ("Table not found: " ++ tableName))
  | some table =>
      if table.tdef.columns.any (fun c => c.name = toName) then
        (σ, .error ("Column already exists: " ++ toName))
      else
        match table.tdef.columns.find? (fun c => c.name = fromName) with
        | none => (σ, .error ("Column not found: " ++ fromName))
        | some _ =>
            (setTable σ tableName (alterRenameResult table fromName toName), .ok ())

/-- The alterTableDropColumn method: removes the column (clearing the
primary key and autoincrement flag when it was the key), drops unique
constraints mentioning it, and deletes the key from every row. -/
def alterTableDropColumn (σ : Snapshot) (tableName columnName : String) :
    Snapshot × Except String Unit :=
  match getTable σ tableName with
  | none => (σ, .error ("Table not found: " ++ tableName))
  | some table =>
      match findIndex (fun c => c.name = columnName) table.tdef.columns with
      | none => (σ, .error ("Column not found: " ++ columnName))
      | some idx =>
          (setTable σ tableName (alterDropResult table columnName idx), .ok ())

/-- The dropTable method: removes the table record; a missing table
raises unless IF EXISTS. -/
def dropTable (σ : Snapshot) (table : String) (ifExists : Bool) :
    Snapshot × Except String Unit :=
  match getTable σ table with
  | none =>
      if ifExists then (σ, .ok ()) else (σ, .error ("Table not found: " ++ table))
  | some _ => ({ σ with tables := eraseKey σ.tables table }, .ok ())

/-- The dropTrigger branch of execute: filters the trigger list by name
and raises when nothing matched and IF EXISTS is absent. -/
def dropTriggerS (σ : Snapshot) (name : String) (ifExists : Bool) :
    Snapshot × Except String Unit :=
  let next := σ.triggers.filter (fun t => !(t.name = name))
  if (σ.triggers.length == next.length) && !ifExists then
    (σ, .error ("Trigger not found: " ++ name))
  else ({ σ with triggers := next }, .ok ())

def jsonColumnDef (name : String) : ColumnDef :=
  { name := name, type := .json, notNull := false, primaryKey := false,
    unique := false, dflt := none, check := none }

def ctasTableDef (table : String) (columns : List ColumnDef) : TableDef :=
  { name := table, columns := columns, primaryKey := none,
    autoIncrement := false, uniqueConstraints := [], checks := [] }

/-- The createTableAsSelect method: runs the select, infers JSON-typed
columns from the first result row (or from the explicit select list when
the result is empty), and stores the result rows in a table with no
primary key. -/
def createTableAsSelect (σ : Snapshot) (table : String) (q : SelectQueryS)
    (ifNotExists : Bool) : Snapshot × Except String Unit :=
  if (getTable σ table).isSome then
    if ifNotExists then (σ, .ok ()) else (σ, .error ("Table already exists: " ++ table))
  else
    match selectQ σ q none [] with
    | .error e => (σ, .error e)
    | .ok rows =>
        match (match rows with
               | r0 :: _ => some (r0.map (fun kv => jsonColumnDef kv.1))
               | [] => q.columns.map (fun cs =>
                   cs.map (fun c => jsonColumnDef (exprKeyS c.expr c.aliasName)))) with
        | none =>
            (σ, .error "CREATE TABLE AS SELECT requires explicit columns when result is empty.")
        | some columns =>
            (setTable σ table { tdef := ctasTableDef table columns, rows := rows, autoInc := 1 },
              .ok ())

/-- The statement fragment of the executor the claims quantify over: the
catalog-mutating statement forms — plain CREATE TABLE, CREATE TABLE AS
SELECT, INSERT with VALUES (optional OR REPLACE or OR IGNORE), UPDATE
and DELETE (each with an optional row-count limit), the three ALTER
TABLE actions, DROP TABLE and DROP TRIGGER.  The remaining statement
forms are read-only and leave the catalog untouched: SELECT and SET
queries, WITH (which materialises CTEs and then runs a select-like query
over them), SHOW TABLES and DESCRIBE.  CREATE TRIGGER is the one omitted
catalog-mutating form: by itself it only appends to the trigger list,
but once a trigger exists the row statements replay its body SQL; on the
trigger-free catalogs this fragment reaches, trigger firing is a no-op,
and a trigger body consists of statements of these same forms. -/
inductive Stmt where
  | createTable (table : String) (columns : List ColumnDef) (primaryKey : Option String)
      (ifNotExists : Bool) (uniqueConstraints : List (List String)) (checks : List WhereNode)
  | insert (table : String) (columns : Option (List String)) (values : List (List Jv))
      (orAction : Option OrAction)
  | update (table : String) (set : List (String × Jv)) (whereC : Option WhereNode)
      (limit : Option Nat)
  | delete (table : String) (whereC : Option WhereNode) (limit : Option Nat)
  | alterAddColumn (table : String) (column : ColumnDef)
  | alterRenameColumn (table : String) (fromName toName : String)
  | alterDropColumn (table : String) (column : String)
  | dropTable (table : String) (ifExists : Bool)
  | createTableAs (table : String) (query : SelectQueryS) (ifNotExists : Bool)
  | dropTrigger (name : String) (ifExists : Bool)
  deriving DecidableEq, Repr

/-- Result of one statement: the change count and the affected rows
(post-image for insert and update, pre-image for delete); RETURNING
projects these same rows and an empty list projects to an empty list. -/
structure ExecResult where
  changes : Nat
  rows : List Row
  deriving DecidableEq, Repr

/-- The VALUES loop of the insert case of executeWithCtes: mismatched
lengths raise before the row is attempted; an ignored row contributes no
change. -/
def insertLoop (tableName : String) (insertColumns : List String)
    (orAction : Option OrAction) :
    Snapshot → List (List Jv) → Nat → List Row → Snapshot × Except String (Nat × List Row)
  | σ, [], changes, acc => (σ, .ok (changes, acc))
  | σ, values :: rest, changes, acc =>
      if insertColumns.length ≠ values.length then
        (σ, .error "INSERT column/value length mismatch.")
      else
        match insertRow σ tableName insertColumns values orAction with
        | (σ1, .error e) => (σ1, .error e)
        | (σ1, .ok none) => insertLoop tableName insertColumns orAction σ1 rest changes acc
        | (σ1, .ok (some row)) =>
            insertLoop tableName insertColumns orAction σ1 rest (changes + 1) (acc ++ [row])

/-- One statement of the executor (executeWithCtes restricted to the
statement fragment).  Errors carry the partially mutated snapshot, since
JS mutations persist across a throw. -/
def execStmt (σ : Snapshot) : Stmt → Snapshot × Except String ExecResult
  | .createTable t cols pk ine ucs checks =>
      match createTable σ t cols pk ine ucs checks with
      | (σ1, .ok ()) => (σ1, .ok ⟨0, []⟩)
      | (σ1, .error e) => (σ1, .error e)
  | .insert t colsOpt valuesList orAction =>
      match getTable σ t with
      | none =>
          match colsOpt with
          | none => (σ, .error "INSERT requires column list for new table.")
          | some [] => (σ, .error "INSERT requires column list for new table.")
          | some cols =>
              let st := ensureTable σ t (inferColumnDefsFromInsert cols)
              match insertLoop t cols orAction st.1 valuesList 0 [] with
              | (σ1, .ok (changes, rows)) => (σ1, .ok ⟨changes, rows⟩)
              | (σ1, .error e) => (σ1, .error e)
      | some td =>
          let insertColumns := match colsOpt with
            | some cs => cs
            | none => td.tdef.columns.map (fun c => c.name)
          match insertLoop t insertColumns orAction σ valuesList 0 [] with
          | (σ1, .ok (changes, rows)) => (σ1, .ok ⟨changes, rows⟩)
          | (σ1, .error e) => (σ1, .error e)
  | .update t set w lim =>
      match updateTable σ t set w lim with
      | (σ1, .ok (changes, rows)) => (σ1, .ok ⟨changes, rows⟩)
      | (σ1, .error e) => (σ1, .error e)
  | .delete t w lim =>
      match deleteFromTable σ t w lim with
      | (σ1, .ok (changes, rows)) => (σ1, .ok ⟨changes, rows⟩)
      | (σ1, .error e) => (σ1, .error e)
  | .alterAddColumn t col =>
      match alterTableAddColumn σ t col with
      | (σ1, .ok ()) => (σ1, .ok ⟨0, []⟩)
      | (σ1, .error e) => (σ1, .error e)
  | .alterRenameColumn t fromName toName =>
      match alterTableRenameColumn σ t fromName toName with
      | (σ1, .ok ()) => (σ1, .ok ⟨0, []⟩)
      | (σ1, .error e) => (σ1, .error e)
  | .alterDropColumn t col =>
      match alterTableDropColumn σ t col with
      | (σ1, .ok ()) => (σ1, .ok ⟨0, []⟩)
      | (σ1, .error e) => (σ1, .error e)
  | .dropTable t ife =>
      match dropTable σ t ife with
      | (σ1, .ok ()) => (σ1, .ok ⟨0, []⟩)
      | (σ1, .error e) => (σ1, .error e)
  | .createTableAs t q ine =>
      match createTableAsSelect σ t q ine with
      | (σ1, .ok ()) => (σ1, .ok ⟨0, []⟩)
      | (σ1, .error e) => (σ1, .error e)
  | .dropTrigger name ife =>
      match dropTriggerS σ name ife with
      | (σ1, .ok ()) => (σ1, .ok ⟨0, []⟩)
      | (σ1, .error e) => (σ1, .error e)

/-- Sequential execution of a statement list, stopping at the first
error; the partially mutated snapshot is kept, as in the source. -/
def runProg : Snapshot → List Stmt → Snapshot × Option String
  | σ, [] => (σ, none)
  | σ, s :: rest =>
      match execStmt σ s with
      | (σ1, .ok _) => runProg σ1 rest
      | (σ1, .error e) => (σ1, some e)

/-! ## Snapshot serialization

JSON.stringify of the snapshot produces a JSON tree; JSON.parse of that
text reproduces the tree exactly (stringify and parse are mutually
inverse on JSON-safe data, which the snapshot is).  The string layer is
therefore modelled at the tree level: encoding a snapshot to a Jv tree
models stringify, and the typed reading of that tree models what import
and the transaction rollback subsequently use of the parsed object.
Fields holding undefined are omitted by JSON.stringify, hence optional
fields contribute a key only when present. -/

def colTypeName : ColumnType → String
  | .text => "TEXT"
  | .integer => "INTEGER"
  | .real => "REAL"
  | .boolean => "BOOLEAN"
  | .json => "JSON"

def colTypeOfName (s : String) : Option ColumnType :=
  if s = "TEXT" then some .text
  else if s = "INTEGER" then some .integer
  else if s = "REAL" then some .real
  else if s = "BOOLEAN" then some .boolean
  else if s = "JSON" then some .json
  else none

def whereOpName : WhereOp → String
  | .eq => "="
  | .ne => "!="
  | .lt => "<"
  | .le => "<="
  | .gt => ">"
  | .ge => ">="
  | .like => "LIKE"
  | .isin => "IN"
  | .between => "BETWEEN"
  | .isNull => "IS_NULL"
  | .isNotNull => "IS_NOT_NULL"

def whereOpOfName (s : String) : Option WhereOp :=
  if s = "=" then some .eq
  else if s = "!=" then some .ne
  else if s = "<" then some .lt
  else if s = "<=" then some .le
  else if s = ">" then some .gt
  else if s = ">=" then some .ge
  else if s = "LIKE" then some .like
  else if s = "IN" then some .isin
  else if s = "BETWEEN" then some .between
  else if s = "IS_NULL" then some .isNull
  else if s = "IS_NOT_NULL" then some .isNotNull
  else none

def colRefToJv (r : ColumnRef) : Jv :=
  .obj ((match r.table with
         | some t => [("table", Jv.str t)]
         | none => []) ++ [("column", Jv.str r.column)])

def jvToColRef (j : Jv) : Option ColumnRef :=
  match j with
  | .obj fs =>
      match lookupKey fs "column" with
      | some (.str c) =>
          match lookupKey fs "table" with
          | none => some ⟨none, c⟩
          | some (.str t) => some ⟨some t, c⟩
          | some _ => none
      | _ => none
  | _ => none

/-- A serialized condition tree (the image of the parsed check text). -/
def whereToJv : WhereNode → Jv
  | .clause c =>
      .arr [.str "clause", colRefToJv c.column, .str (whereOpName c.op), .arr [c.value],
            (match c.escape with
             | some e => .str (String.mk [e])
             | none => .null)]
  | .and l r => .arr [.str "and", whereToJv l, whereToJv r]
  | .or l r => .arr [.str "or", whereToJv l, whereToJv r]
  | .not n => .arr [.str "not", whereToJv n]

def jvToWhere (j : Jv) : Option WhereNode :=
  match j with
  | .arr [.str "clause", cr, .str opn, .arr [v], esc] =>
      match jvToColRef cr, whereOpOfName opn with
      | some ref, some op =>
          match esc with
          | .null => some (.clause ⟨ref, op, v, none⟩)
          | .str s =>
              match s.data with
              | [e] => some (.clause ⟨ref, op, v, some e⟩)
              | _ => none
          | _ => none
      | _, _ => none
  | .arr [.str "and", l, r] =>
      match jvToWhere l, jvToWhere r with
      | some wl, some wr => some (.and wl wr)
      | _, _ => none
  | .arr [.str "or", l, r] =>
      match jvToWhere l, jvToWhere r with
      | some wl, some wr => some (.or wl wr)
      | _, _ => none
  | .arr [.str "not", n] => (jvToWhere n).map .not
  | _ => none
termination_by sizeOf j
decreasing_by all_goals (simp_wf; omega)

def colDefToJv (c : ColumnDef) : Jv :=
  .obj ([("name", Jv.str c.name), ("type", Jv.str (colTypeName c.type)),
         ("notNull", Jv.bool c.notNull), ("primaryKey", Jv.bool c.primaryKey),
         ("unique", Jv.bool c.unique)] ++
        (match c.dflt with
         | some d => [("default", d)]
         | none => []) ++
        (match c.check with
         | some w => [("check", whereToJv w)]
         | none => []))

def jvToColDef (j : Jv) : Option ColumnDef :=
  match j with
  | .obj fs =>
      match lookupKey fs "name", lookupKey fs "type", lookupKey fs "notNull",
            lookupKey fs "primaryKey", lookupKey fs "unique" with
      | some (.str name), some (.str tn), some (.bool nn), some (.bool pk), some (.bool un) =>
          match colTypeOfName tn with
          | none => none
          | some ty =>
              let dflt := lookupKey fs "default"
              match lookupKey fs "check" with
              | none => some ⟨name, ty, nn, pk, un, dflt, none⟩
              | some cj => (jvToWhere cj).map (fun w => ⟨name, ty, nn, pk, un, dflt, some w⟩)
      | _, _, _, _, _ => none
  | _ => none

def tableDefToJv (d : TableDef) : Jv :=
  .obj ([("name", Jv.str d.name), ("columns", Jv.arr (d.columns.map colDefToJv))] ++
        (match d.primaryKey with
         | some p => [("primaryKey", Jv.str p)]
         | none => []) ++
        [("autoIncrement", Jv.bool d.autoIncrement),
         ("uniqueConstraints",
          Jv.arr (d.uniqueConstraints.map (fun cols => Jv.arr (cols.map Jv.str)))),
         ("checks", Jv.arr (d.checks.map whereToJv))])

def jvToStrList (j : Jv) : Option (List String) :=
  match j with
  | .arr xs => xs.mapM (fun x =>
      match x with
      | .str s => some s
      | _ => none)
  | _ => none

def jvToTableDef (j : Jv) : Option TableDef :=
  match j with
  | .obj fs =>
      match lookupKey fs "name", lookupKey fs "columns", lookupKey fs "autoIncrement",
            lookupKey fs "uniqueConstraints", lookupKey fs "checks" with
      | some (.str name), some (.arr colsJ), some (.bool ai), some (.arr ucsJ),
        some (.arr checksJ) =>
          match colsJ.mapM jvToColDef, ucsJ.mapM jvToStrList, checksJ.mapM jvToWhere with
          | some cols, some ucs, some checks =>
              match lookupKey fs "primaryKey" with
              | none => some ⟨name, cols, none, ai, ucs, checks⟩
              | some (.str p) => some ⟨name, cols, some p, ai, ucs, checks⟩
              | some _ => none
          | _, _, _ => none
      | _, _, _, _, _ => none
  | _ => none

def tableDataToJv (td : TableData) : Jv :=
  .obj [("def", tableDefToJv td.tdef),
        ("rows", Jv.arr (td.rows.map Jv.obj)),
        ("autoInc", Jv.num td.autoInc)]

def jvToTableData (j : Jv) : Option TableData :=
  match j with
  | .obj fs =>
      match lookupKey fs "def", lookupKey fs "rows", lookupKey fs "autoInc" with
      | some dJ, some (.arr rowsJ), some (.num ai) =>
          match jvToTableDef dJ,
                rowsJ.mapM (fun r =>
                  match r with
                  | .obj row => some row
                  | _ => none) with
          | some d, some rows => some ⟨d, rows, ai⟩
          | _, _ => none
      | _, _, _ => none
  | _ => none

def triggerTimingName : TriggerTiming → String
  | .before => "BEFORE"
  | .after => "AFTER"

def triggerEventName : TriggerEvent → String
  | .insert => "INSERT"
  | .update => "UPDATE"
  | .delete => "DELETE"

def triggerToJv (t : TriggerDef) : Jv :=
  .obj [("name", Jv.str t.name), ("table", Jv.str t.table),
        ("timing", Jv.str (triggerTimingName t.timing)),
        ("event", Jv.str (triggerEventName t.event)),
        ("statement", Jv.str t.statement)]

def jvToTrigger (j : Jv) : Option TriggerDef :=
  match j with
  | .obj fs =>
      match lookupKey fs "name", lookupKey fs "table", lookupKey fs "timing",
            lookupKey fs "event", lookupKey fs "statement" with
      | some (.str n), some (.str t), some (.str ti), some (.str ev), some (.str st) =>
          let timing := if ti = "BEFORE" then some TriggerTiming.before
            else if ti = "AFTER" then some TriggerTiming.after else none
          let event := if ev = "INSERT" then some TriggerEvent.insert
            else if ev = "UPDATE" then some TriggerEvent.update
            else if ev = "DELETE" then some TriggerEvent.delete else none
          match timing, event with
          | some timing, some event => some ⟨n, t, timing, event, st⟩
          | _, _ => none
      | _, _, _, _, _ => none
  | _ => none

/-- The JSON tree JSON.stringify(snapshot) serializes: version tag 1, the
tables record, the triggers list. -/
def snapToJv (σ : Snapshot) : Jv :=
  .obj [("v", Jv.num 1),
        ("tables", Jv.obj (σ.tables.map (fun p => (p.1, tableDataToJv p.2)))),
        ("triggers", Jv.arr (σ.triggers.map triggerToJv))]

/-- The typed reading of a parsed snapshot tree, as import and load use
it: the version tag must be 1 and a missing triggers list defaults to
the empty list. -/
def jvToSnap (j : Jv) : Option Snapshot :=
  match j with
  | .obj fs =>
      match lookupKey fs "v" with
      | some (.num vv) =>
          if vv ≠ 1 then none
          else
          match lookupKey fs "tables" with
          | some (.obj tablesJ) =>
              match tablesJ.mapM (fun p => (jvToTableData p.2).map (fun td => (p.1, td))) with
              | some tables =>
                  match lookupKey fs "triggers" with
                  | none => some ⟨tables, []⟩
                  | some (.arr trigsJ) =>
                      (trigsJ.mapM jvToTrigger).map (fun trigs => ⟨tables, trigs⟩)
                  | some _ => none
              | none => none
          | _ => none
      | _ => none
  | _ => none

/-- JSON.stringify of a JSON tree: fields in insertion order (no key
sorting, unlike stableStringify). -/
def jvStringify : Jv → String
  | .null => "null"
  | .bool b => if b then "true" else "false"
  | .num q => qToString q
  | .str s => jsonQuote s
  | .arr xs => "[" ++ String.intercalate "," (goList xs) ++ "]"
  | .obj fs => "\x7b" ++ String.intercalate "," (goFields fs) ++ "\x7d"
where
  goList : List Jv → List String
    | [] => []
    | x :: xs => jvStringify x :: goList xs
  goFields : List (String × Jv) → List String
    | [] => []
    | (k, v) :: fs => (jsonQuote k ++ ":" ++ jvStringify v) :: goFields fs

/-- The export method: JSON.stringify of the snapshot. -/
def exportDb (σ : Snapshot) : String := jvStringify (snapToJv σ)

/-- The import method, modelled at the tree level: parse (exact on the
image of stringify), require version 1, default a missing triggers list,
and replace the catalog.  Any failure is the single import error. -/
def importDb (j : Jv) : Except String Snapshot :=
  match jvToSnap j with
  | some σ => .ok σ
  | none => .error "Failed to import database snapshot."

/-- The transaction method over a unit of work given as a statement list:
serialize the snapshot, run the statements, and on an error restore the
catalog by parsing the serialized snapshot (which reproduces it exactly)
and rethrow; on success keep the final state. -/
def transactionRun (σ : Snapshot) (prog : List Stmt) : Snapshot × Option String :=
  match runProg σ prog with
  | (σ1, none) => (σ1, none)
  | (_, some e) => ((jvToSnap (snapToJv σ)).getD emptySnapshot, some e)

/-! ## Serialization roundtrip -/

theorem mapM_loop_map {α β : Type} (f : β → Option α) (g : α → β) (l : List α)
    (acc : List α) (h : ∀ a ∈ l, f (g a) = some a) :
    List.mapM.loop f (l.map g) acc = some (acc.reverse ++ l) := by
  induction l generalizing acc with
  | nil => simp [List.mapM.loop]
  | cons x xs ih =>
      simp [List.mapM.loop, h x (by simp), ih _ (fun a ha => h a (by simp [ha]))]

theorem mapM_map_some {α β : Type} (f : β → Option α) (g : α → β) (l : List α)
    (h : ∀ a ∈ l, f (g a) = some a) : (l.map g).mapM f = some l := by
  simpa [List.mapM] using mapM_loop_map f g l [] h

theorem jvToColRef_roundtrip (r : ColumnRef) : jvToColRef (colRefToJv r) = some r := by
  obtain ⟨t, c⟩ := r
  cases t <;> simp [colRefToJv, jvToColRef, lookupKey]

theorem whereOp_roundtrip (op : WhereOp) : whereOpOfName (whereOpName op) = some op := by
  cases op <;> rfl

theorem jvToWhere_roundtrip : ∀ w : WhereNode, jvToWhere (whereToJv w) = some w
  | .clause c => by
      obtain ⟨ref, op, v, esc⟩ := c
      cases esc <;>
        simp [whereToJv, jvToWhere, jvToColRef_roundtrip, whereOp_roundtrip]
  | .and l r => by
      simp [whereToJv, jvToWhere, jvToWhere_roundtrip l, jvToWhere_roundtrip r]
  | .or l r => by
      simp [whereToJv, jvToWhere, jvToWhere_roundtrip l, jvToWhere_roundtrip r]
  | .not n => by
      simp [whereToJv, jvToWhere, jvToWhere_roundtrip n]

theorem colType_roundtrip (t : ColumnType) : colTypeOfName (colTypeName t) = some t := by
  cases t <;> rfl

theorem jvToColDef_roundtrip (c : ColumnDef) : jvToColDef (colDefToJv c) = some c := by
  obtain ⟨name, ty, nn, pk, un, dflt, chk⟩ := c
  cases dflt <;> cases chk <;>
    simp [colDefToJv, jvToColDef, lookupKey, colType_roundtrip, jvToWhere_roundtrip]

theorem jvToStrList_roundtrip (cols : List String) :
    jvToStrList (Jv.arr (cols.map Jv.str)) = some cols := by
  simp only [jvToStrList]
  exact mapM_map_some _ _ _ (fun a ha => rfl)

theorem jvToTableDef_roundtrip (d : TableDef) : jvToTableDef (tableDefToJv d) = some d := by
  obtain ⟨name, cols, pk, ai, ucs, checks⟩ := d
  have hcols := mapM_loop_map jvToColDef colDefToJv cols []
    (fun a ha => jvToColDef_roundtrip a)
  have hucs := mapM_loop_map jvToStrList (fun cs => Jv.arr (cs.map Jv.str)) ucs []
    (fun a ha => jvToStrList_roundtrip a)
  have hchecks := mapM_loop_map jvToWhere whereToJv checks []
    (fun a ha => jvToWhere_roundtrip a)
  cases pk <;>
    simp [tableDefToJv, jvToTableDef, lookupKey, List.mapM, hcols, hucs, hchecks]

theorem jvToTableData_roundtrip (td : TableData) : jvToTableData (tableDataToJv td) = some td := by
  obtain ⟨d, rows, ai⟩ := td
  have hrows := mapM_loop_map (fun r =>
      match r with
      | Jv.obj row => some row
      | _ => none) Jv.obj rows [] (fun a ha => rfl)
  simp [tableDataToJv, jvToTableData, lookupKey, List.mapM, jvToTableDef_roundtrip, hrows]

theorem jvToTrigger_roundtrip (t : TriggerDef) : jvToTrigger (triggerToJv t) = some t := by
  obtain ⟨n, tb, ti, ev, st⟩ := t
  cases ti <;> cases ev <;> rfl

theorem jvToSnap_roundtrip (σ : Snapshot) : jvToSnap (snapToJv σ) = some σ := by
  obtain ⟨tables, triggers⟩ := σ
  have htables := mapM_loop_map
    (fun p => (jvToTableData p.2).map (fun td => (p.1, td)))
    (fun p => (p.1, tableDataToJv p.2)) tables []
    (fun a ha => by simp [jvToTableData_roundtrip])
  have htrigs := mapM_loop_map jvToTrigger triggerToJv triggers []
    (fun a ha => jvToTrigger_roundtrip a)
  simp [snapToJv, jvToSnap, lookupKey, List.mapM, htables, htrigs]

/-! ## Claims C1 and C2: transaction rollback, export/import roundtrip -/

/-- C2: calling export and then importing the exported serialization on a
fresh instance reproduces an identical catalog: the same tables
(definitions and rows in order), the same autoincrement counters, and the
same triggers.  importDb receives the JSON tree of the exported string
(JSON.parse of the exportDb output reproduces that tree exactly), and the
result is the whole original snapshot. -/
theorem export_import_identity (σ : Snapshot) : importDb (snapToJv σ) = .ok σ := by
  simp [importDb, jvToSnap_roundtrip]

/-- C1: a transaction whose unit of work mutates the catalog and then
raises an error rethrows that error and leaves the catalog equal — in
particular equal as observed via export — to its state immediately before
the transaction (full rollback through the serialized snapshot). -/
theorem transaction_rollback (σ : Snapshot) (prog : List Stmt) (e : String)
    (h : (runProg σ prog).2 = some e) :
    transactionRun σ prog = (σ, some e) ∧
      exportDb (transactionRun σ prog).1 = exportDb σ := by
  have hres : transactionRun σ prog = (σ, some e) := by
    unfold transactionRun
    rcases hrp : runProg σ prog with ⟨σ1, err⟩
    rw [hrp] at h
    cases err with
    | none => simp at h
    | some e' =>
        simp only at h
        rw [h]
        simp [jvToSnap_roundtrip]
  exact ⟨hres, by rw [hres]⟩

def c1State : Snapshot := emptySnapshot

def c1Prog : List Stmt :=
  [ .createTable "t" [⟨"id", .integer, false, true, false, none, none⟩] none false [] [],
    .insert "t" (some ["id"]) [[.num 1]] none,
    .insert "t" (some ["id"]) [[.num 1]] none ]

unseal Rat.add in
theorem transaction_rollback_witness :
    (runProg c1State c1Prog).2 = some "Duplicate primary key for table t" ∧
      transactionRun c1State c1Prog = (c1State, some "Duplicate primary key for table t") ∧
      exportDb (transactionRun c1State c1Prog).1 = exportDb c1State :=
  ⟨by decide,
   (transaction_rollback c1State c1Prog "Duplicate primary key for table t" (by decide)).1,
   (transaction_rollback c1State c1Prog "Duplicate primary key for table t" (by decide)).2⟩

/-! ## Claim C3: constraint-violating inserts raise and keep the row count -/

theorem ensureTable_existing (σ : Snapshot) (n : String) (cols : List ColumnDef)
    (td : TableData) (h : getTable σ n = some td) : ensureTable σ n cols = (σ, td) := by
  simp [ensureTable, h]

theorem ensureTable_new_rows (σ : Snapshot) (n : String) (cols : List ColumnDef)
    (h : getTable σ n = none) : (ensureTable σ n cols).2.rows = [] := by
  simp [ensureTable, h]

theorem ensureTable_new_fst (σ : Snapshot) (n : String) (cols : List ColumnDef)
    (h : getTable σ n = none) :
    (ensureTable σ n cols).1 = setTable σ n (ensureTable σ n cols).2 := by
  simp [ensureTable, h]

theorem ensureTable_getTable (σ : Snapshot) (n : String) (cols : List ColumnDef) :
    getTable (ensureTable σ n cols).1 n = some (ensureTable σ n cols).2 := by
  cases h : getTable σ n with
  | some td => simp [ensureTable_existing σ n cols td h, h]
  | none =>
      rw [ensureTable_new_fst σ n cols h, getTable_setTable]
      simp

theorem ensureTable_rowCount (σ : Snapshot) (n : String) (cols : List ColumnDef)
    (m : String) : rowCount (ensureTable σ n cols).1 m = rowCount σ m := by
  cases h : getTable σ n with
  | some td => simp [ensureTable_existing σ n cols td h]
  | none =>
      rw [ensureTable_new_fst σ n cols h]
      by_cases hm : n = m
      · subst hm
        simp [rowCount, getTable_setTable, h, ensureTable_new_rows σ n cols h]
      · simp [rowCount, getTable_setTable, hm]

theorem rowCount_setTable_autoInc (σ : Snapshot) (t : String) (td : TableData)
    (ai : ℚ) (htd : getTable σ t = some td) (n : String) :
    rowCount (setTable σ t { td with autoInc := ai }) n = rowCount σ n := by
  by_cases hn : t = n
  · subst hn
    simp [rowCount, getTable_setTable, htd]
  · simp [rowCount, getTable_setTable, hn]

/-- An insertRow that raises leaves every row count unchanged: all throw
sites precede the row push (only the table creation of ensureTable and
the autoincrement bump can have happened, neither affecting row counts). -/
theorem insertRow_error_rowCount (σ : Snapshot) (t : String) (cols : List String)
    (vals : List Jv) (oa : Option OrAction) (σ1 : Snapshot) (e : String)
    (h : insertRow σ t cols vals oa = (σ1, .error e)) (n : String) :
    rowCount σ1 n = rowCount σ n := by
  unfold insertRow at h
  rcases hens : ensureTable σ t (inferColumnDefsFromInsert cols) with ⟨σe, td⟩
  rw [hens] at h
  have hpre : ∀ m, rowCount σe m = rowCount σ m := fun m => by
    have := ensureTable_rowCount σ t (inferColumnDefsFromInsert cols) m
    rwa [hens] at this
  have htde : getTable σe t = some td := by
    have := ensureTable_getTable σ t (inferColumnDefsFromInsert cols)
    rwa [hens] at this
  simp only at h
  cases hA : applyDefaultsValidate td.tdef.columns (buildRow cols vals) with
  | error eA =>
      rw [hA] at h
      simp only [Prod.mk.injEq] at h
      rw [← h.1]
      exact hpre n
  | ok row1 =>
      rw [hA] at h
      simp only at h
      cases hC : validateChecks td.tdef row1 with
      | error eC =>
          rw [hC] at h
          simp only [Prod.mk.injEq] at h
          rw [← h.1]
          exact hpre n
      | ok =>
          rw [hC] at h
          simp only at h
          cases hP : assignPk td.tdef row1 td.autoInc with
          | error eP =>
              rw [hP] at h
              simp only [Prod.mk.injEq] at h
              rw [← h.1]
              exact hpre n
          | ok pr =>
              obtain ⟨row2, autoInc2⟩ := pr
              rw [hP] at h
              simp only at h
              by_cases hconf : (findConflictingRows td row2).isEmpty
              · rw [if_pos hconf] at h
                simp at h
              · rw [if_neg hconf] at h
                cases oa with
                | none =>
                    simp only at h
                    cases hpe : plainConflictError t td row2 with
                    | some ep =>
                        rw [hpe] at h
                        simp only [Prod.mk.injEq] at h
                        rw [← h.1]
                        rw [rowCount_setTable_autoInc σe t td autoInc2 htde n]
                        exact hpre n
                    | none =>
                        rw [hpe] at h
                        simp at h
                | some ac => cases ac <;> simp at h

theorem applyDefaultsValidate_ok_eq (cols : List ColumnDef) (row r : Row)
    (h : applyDefaultsValidate cols row = .ok r) : r = applyDefaults cols row := by
  induction cols generalizing row with
  | nil =>
      simp only [applyDefaultsValidate, Except.ok.injEq] at h
      simp [applyDefaults, h]
  | cons col rest ih =>
      simp only [applyDefaultsValidate] at h
      split at h
      · exact absurd h (by simp)
      · split at h
        · exact absurd h (by simp)
        · rw [ih _ h]
          simp [applyDefaults]

theorem applyDefaultsValidate_ok_notNull (cols : List ColumnDef) (row r : Row)
    (hnodup : (cols.map ColumnDef.name).Nodup)
    (h : applyDefaultsValidate cols row = .ok r) :
    ∀ c ∈ cols, c.notNull = true →
      ¬(lookupKey row c.name = none ∨ lookupKey row c.name = some Jv.null) := by
  induction cols generalizing row with
  | nil => simp
  | cons col rest ih =>
      intro c hc hnn hviol
      simp only [applyDefaultsValidate] at h
      rcases List.mem_cons.mp hc with hceq | hcrest
      · subst hceq
        split at h
        · exact absurd h (by simp)
        · rename_i hcond
          apply hcond
          rcases hviol with hv | hv <;> simp [hv, hnn]
      · have hne : col.name ≠ c.name := by
          simp only [List.map_cons, List.nodup_cons] at hnodup
          intro heq
          exact hnodup.1 (heq ▸ List.mem_map_of_mem ColumnDef.name hcrest)
        split at h
        · exact absurd h (by simp)
        · split at h
          · exact absurd h (by simp)
          · have hlk : lookupKey
                (match lookupKey row col.name, col.dflt with
                 | none, some d => setKey row col.name d
                 | _, _ => row) c.name = lookupKey row c.name := by
              cases hcur : lookupKey row col.name <;> cases hd : col.dflt <;>
                simp [lookupKey_setKey_ne _ _ _ _ hne]
            exact ih _ (by simpa using hnodup.of_cons) h c hcrest hnn (by rwa [hlk])

/-- All check predicates of a table: column-level in order, then
table-level, as validateChecks visits them. -/
def allCheckNodes (tdef : TableDef) : List WhereNode :=
  (tdef.columns.filterMap (fun c => c.check)) ++ tdef.checks

theorem validateColumnChecks_ok (cols : List ColumnDef) (row : Row)
    (h : validateColumnChecks cols row = .ok ()) :
    ∀ c ∈ cols, ∀ w, c.check = some w → rowMatchesWhereNode row none w = true := by
  induction cols with
  | nil => simp
  | cons col rest ih =>
      intro c hc w hw
      simp only [validateColumnChecks] at h
      rcases List.mem_cons.mp hc with hceq | hcrest
      · subst hceq
        simp only [hw] at h
        split at h
        · assumption
        · exact absurd h (by simp)
      · cases hck : col.check with
        | none =>
            simp only [hck] at h
            exact ih h c hcrest w hw
        | some node =>
            simp only [hck] at h
            split at h
            · exact ih h c hcrest w hw
            · exact absurd h (by simp)

theorem validateTableChecks_ok (checks : List WhereNode) (row : Row)
    (h : validateTableChecks checks row = .ok ()) :
    ∀ w ∈ checks, rowMatchesWhereNode row none w = true := by
  induction checks with
  | nil => simp
  | cons node rest ih =>
      intro w hw
      simp only [validateTableChecks] at h
      split at h
      · rcases List.mem_cons.mp hw with hweq | hwrest
        · subst hweq; assumption
        · exact ih h w hwrest
      · exact absurd h (by simp)

theorem validateChecks_ok (tdef : TableDef) (row : Row)
    (h : validateChecks tdef row = .ok ()) :
    ∀ w ∈ allCheckNodes tdef, rowMatchesWhereNode row none w = true := by
  intro w hw
  unfold validateChecks at h
  cases hcol : validateColumnChecks tdef.columns row with
  | error e => rw [hcol] at h; exact absurd h (by simp)
  | ok u =>
      obtain ⟨⟩ := u
      rw [hcol] at h
      rcases List.mem_append.mp hw with hc | ht
      · obtain ⟨c, hcmem, hcw⟩ := List.mem_filterMap.mp hc
        exact validateColumnChecks_ok _ _ hcol c hcmem w hcw
      · exact validateTableChecks_ok _ _ h w ht

theorem assignPk_preserves_some (tdef : TableDef) (row : Row) (autoInc : ℚ)
    (row2 : Row) (a2 : ℚ) (k : String) (v : Jv)
    (hv : lookupKey row k = some v)
    (h : assignPk tdef row autoInc = .ok (row2, a2)) :
    lookupKey row2 k = some v := by
  have hbump : ∀ pk r a r2 b2, pkBump tdef pk r a = .ok (r2, b2) → r2 = r := by
    intro pk r a r2 b2 hb
    unfold pkBump at hb
    repeat' split at hb
    all_goals simp only [Except.ok.injEq, Prod.mk.injEq, reduceCtorEq] at hb
    all_goals exact hb.1.symm
  unfold assignPk at h
  split at h
  · simp only [Except.ok.injEq, Prod.mk.injEq] at h
    rw [← h.1]
    exact hv
  · rename_i pk hpk
    cases hlk : lookupKey row pk with
    | none =>
        simp only [hlk] at h
        split at h
        · split at h
          · have hrow2 := hbump _ _ _ _ _ h
            rw [hrow2]
            have hkne : pk ≠ k := fun he => by rw [he, hv] at hlk; cases hlk
            rw [lookupKey_setKey_ne _ _ _ _ hkne]
            exact hv
          · exact absurd h (by simp)
        · exact absurd h (by simp)
    | some w =>
        simp only [hlk] at h
        have hrow2 := hbump _ _ _ _ _ h
        rw [hrow2]
        exact hv

theorem findConflictingRows_not_empty (td : TableData) (row r0 : Row)
    (h0 : r0 ∈ td.rows) (hc : rowConflictsWith td.tdef row r0 = true) :
    (findConflictingRows td row).isEmpty = false := by
  have hmem : r0 ∈ findConflictingRows td row := List.mem_filter.mpr ⟨h0, hc⟩
  cases hfc : findConflictingRows td row with
  | nil => rw [hfc] at hmem; cases hmem
  | cons a l => simp [List.isEmpty]

theorem firstUniqueColDup_isSome (cols : List ColumnDef) (rows : List Row) (row : Row)
    (c : ColumnDef) (hc : c ∈ cols) (hu : c.unique = true)
    (hck : containsKey row c.name = true)
    (hany : rows.any (fun r => objectIs (lookupKey r c.name) (lookupKey row c.name)) = true) :
    firstUniqueColDup cols rows row ≠ none := by
  induction cols with
  | nil => cases hc
  | cons col rest ih =>
      simp only [firstUniqueColDup]
      split
      · simp
      · rename_i hcond
        rcases List.mem_cons.mp hc with hceq | hcrest
        · subst hceq
          exact absurd (by simp [hu, hck, hany]) hcond
        · exact ih hcrest

theorem plainConflictError_isSome_of_pk (t : String) (td : TableData) (row : Row)
    (pk : String) (hpk : td.tdef.primaryKey = some pk) (hck : containsKey row pk = true) :
    plainConflictError t td row ≠ none := by
  simp [plainConflictError, hpk, hck]

theorem plainConflictError_isSome_of_unique (t : String) (td : TableData) (row : Row)
    (c : ColumnDef) (hc : c ∈ td.tdef.columns) (hu : c.unique = true)
    (hck : containsKey row c.name = true)
    (hany : td.rows.any
      (fun r => objectIs (lookupKey r c.name) (lookupKey row c.name)) = true) :
    plainConflictError t td row ≠ none := by
  have h2 : plainConflictError2 td row ≠ none := by
    unfold plainConflictError2
    cases hfu : firstUniqueColDup td.tdef.columns td.rows row with
    | some cn => simp
    | none => exact absurd hfu (firstUniqueColDup_isSome _ _ _ c hc hu hck hany)
  cases hp : td.tdef.primaryKey with
  | none =>
      simp only [plainConflictError, hp]
      exact h2
  | some pk =>
      simp only [plainConflictError, hp]
      split
      · simp
      · exact h2

/-- The inserted row has a null or absent value in a NOT NULL column. -/
def notNullViolation (tdef : TableDef) (row0 : Row) : Prop :=
  ∃ c ∈ tdef.columns, c.notNull = true ∧
    (lookupKey row0 c.name = none ∨ lookupKey row0 c.name = some Jv.null)

/-- The row after defaults fails some column-level or table-level CHECK. -/
def checkViolation (tdef : TableDef) (rowA : Row) : Prop :=
  ∃ w ∈ allCheckNodes tdef, rowMatchesWhereNode rowA none w = false

/-- The row after defaults carries a primary-key value identical (in the
engine's Object.is sense) to a stored row's key. -/
def pkViolation (tdef : TableDef) (rows : List Row) (rowA : Row) : Prop :=
  ∃ pk v, tdef.primaryKey = some pk ∧ lookupKey rowA pk = some v ∧
    ∃ r0 ∈ rows, objectIs (lookupKey r0 pk) (some v) = true

/-- The row after defaults duplicates the value of some single-column
UNIQUE column of a stored row. -/
def uniqueViolation (tdef : TableDef) (rows : List Row) (rowA : Row) : Prop :=
  ∃ c ∈ tdef.columns, c.unique = true ∧
    (∃ v, lookupKey rowA c.name = some v) ∧
    ∃ r0 ∈ rows, objectIs (lookupKey r0 c.name) (lookupKey rowA c.name) = true

theorem insertRow_violation_error (σ : Snapshot) (t : String) (cols : List String)
    (vals : List Jv) (td : TableData)
    (htd : getTable σ t = some td)
    (hnodup : (td.tdef.columns.map ColumnDef.name).Nodup)
    (hviol : notNullViolation td.tdef (buildRow cols vals) ∨
             checkViolation td.tdef (applyDefaults td.tdef.columns (buildRow cols vals)) ∨
             pkViolation td.tdef td.rows (applyDefaults td.tdef.columns (buildRow cols vals)) ∨
             uniqueViolation td.tdef td.rows (applyDefaults td.tdef.columns (buildRow cols vals))) :
    ∃ e, (insertRow σ t cols vals none).2 = .error e := by
  unfold insertRow
  rw [ensureTable_existing σ t (inferColumnDefsFromInsert cols) td htd]
  simp only
  cases hA : applyDefaultsValidate td.tdef.columns (buildRow cols vals) with
  | error eA => exact ⟨eA, rfl⟩
  | ok row1 =>
      simp only
      have hrow1 : row1 = applyDefaults td.tdef.columns (buildRow cols vals) :=
        applyDefaultsValidate_ok_eq _ _ _ hA
      rcases hviol with hv | hv | hv | hv
      · obtain ⟨c, hc, hnn, hvl⟩ := hv
        exact absurd hvl (applyDefaultsValidate_ok_notNull _ _ _ hnodup hA c hc hnn)
      · cases hC : validateChecks td.tdef row1 with
        | error eC => exact ⟨eC, rfl⟩
        | ok u =>
            obtain ⟨⟩ := u
            obtain ⟨w, hw, hfail⟩ := hv
            have := validateChecks_ok td.tdef row1 hC w hw
            rw [hrow1] at this
            rw [this] at hfail
            cases hfail
      · cases hC : validateChecks td.tdef row1 with
        | error eC => exact ⟨eC, rfl⟩
        | ok u =>
            obtain ⟨⟩ := u
            simp only
            cases hP : assignPk td.tdef row1 td.autoInc with
            | error eP => exact ⟨eP, rfl⟩
            | ok pr =>
                obtain ⟨row2, autoInc2⟩ := pr
                simp only
                obtain ⟨pk, v, hpk, hvA, r0, h0, hobj⟩ := hv
                rw [← hrow1] at hvA
                have hlk2 : lookupKey row2 pk = some v :=
                  assignPk_preserves_some _ _ _ _ _ _ _ hvA hP
                have hconf : rowConflictsWith td.tdef row2 r0 = true := by
                  simp only [rowConflictsWith, hpk, Bool.or_eq_true, Bool.and_eq_true]
                  exact Or.inl (Or.inl ⟨by simp [containsKey_eq_isSome, hlk2],
                    by rw [hlk2]; exact hobj⟩)
                rw [findConflictingRows_not_empty td row2 r0 h0 hconf]
                simp only [Bool.false_eq_true, if_false]
                cases hpe : plainConflictError t td row2 with
                | some ep => exact ⟨ep, rfl⟩
                | none =>
                    exact absurd hpe (plainConflictError_isSome_of_pk t td row2 pk hpk
                      (by simp [containsKey_eq_isSome, hlk2]))
      · cases hC : validateChecks td.tdef row1 with
        | error eC => exact ⟨eC, rfl⟩
        | ok u =>
            obtain ⟨⟩ := u
            simp only
            cases hP : assignPk td.tdef row1 td.autoInc with
            | error eP => exact ⟨eP, rfl⟩
            | ok pr =>
                obtain ⟨row2, autoInc2⟩ := pr
                simp only
                obtain ⟨c, hc, hu, ⟨v, hvA⟩, r0, h0, hobj⟩ := hv
                rw [← hrow1] at hvA hobj
                have hlk2 : lookupKey row2 c.name = some v :=
                  assignPk_preserves_some _ _ _ _ _ _ _ hvA hP
                have hobj2 : objectIs (lookupKey r0 c.name) (lookupKey row2 c.name) = true := by
                  rw [hlk2, ← hvA]
                  exact hobj
                have hck2 : containsKey row2 c.name = true := by
                  simp [containsKey_eq_isSome, hlk2]
                have hconf : rowConflictsWith td.tdef row2 r0 = true := by
                  simp only [rowConflictsWith, Bool.or_eq_true, Bool.and_eq_true]
                  refine Or.inl (Or.inr ?ha)
                  refine List.any_eq_true.mpr ⟨c, hc, ?hb⟩
                  simp [hu, hck2, hobj2]
                rw [findConflictingRows_not_empty td row2 r0 h0 hconf]
                simp only [Bool.false_eq_true, if_false]
                cases hpe : plainConflictError t td row2 with
                | some ep => exact ⟨ep, rfl⟩
                | none =>
                    refine absurd hpe (plainConflictError_isSome_of_unique t td row2
                      c hc hu hck2 ?hany)
                    exact List.any_eq_true.mpr ⟨r0, h0, hobj2⟩

/-- C3: a single-row plain INSERT (no OR REPLACE / OR IGNORE) whose row
violates a NOT NULL constraint, a CHECK predicate, or a primary-key or
UNIQUE constraint of the target table raises an error, and the target
table's row count after the failed statement equals the count before it. -/
theorem insert_violation_raises (σ : Snapshot) (t : String) (cols : List String)
    (vals : List Jv) (td : TableData)
    (htd : getTable σ t = some td)
    (hnodup : (td.tdef.columns.map ColumnDef.name).Nodup)
    (hviol : notNullViolation td.tdef (buildRow cols vals) ∨
             checkViolation td.tdef (applyDefaults td.tdef.columns (buildRow cols vals)) ∨
             pkViolation td.tdef td.rows (applyDefaults td.tdef.columns (buildRow cols vals)) ∨
             uniqueViolation td.tdef td.rows (applyDefaults td.tdef.columns (buildRow cols vals))) :
    (∃ e, (execStmt σ (.insert t (some cols) [vals] none)).2 = .error e) ∧
      rowCount (execStmt σ (.insert t (some cols) [vals] none)).1 t = rowCount σ t := by
  have hmain := insertRow_violation_error σ t cols vals td htd hnodup hviol
  simp only [execStmt, htd]
  by_cases hlen : cols.length ≠ vals.length
  · constructor
    · exact ⟨"INSERT column/value length mismatch.", by simp [insertLoop, if_pos hlen]⟩
    · simp [insertLoop, if_pos hlen]
  · simp only [insertLoop, if_neg hlen]
    obtain ⟨e, he⟩ := hmain
    rcases hins : insertRow σ t cols vals none with ⟨σ1, res⟩
    rw [hins] at he
    simp only at he
    rw [he] at hins ⊢
    simp only
    constructor
    · exact ⟨e, rfl⟩
    · exact insertRow_error_rowCount σ t cols vals none σ1 e hins t

def c3TableDef : TableDef :=
  { name := "t", columns := [⟨"name", ColumnType.text, true, false, false, none, none⟩],
    primaryKey := none, autoIncrement := false, uniqueConstraints := [], checks := [] }

def c3Table : TableData := { tdef := c3TableDef, rows := [], autoInc := 1 }

def c3State : Snapshot := { tables := [("t", c3Table)], triggers := [] }

theorem insert_violation_raises_witness :
    (∃ e, (execStmt c3State (.insert "t" (some ["name"]) [[Jv.null]] none)).2 = .error e) ∧
      rowCount (execStmt c3State (.insert "t" (some ["name"]) [[Jv.null]] none)).1 "t" =
        rowCount c3State "t" :=
  insert_violation_raises c3State "t" ["name"] [Jv.null] c3Table rfl
    (by simp [c3Table, c3TableDef])
    (Or.inl (by unfold notNullViolation c3Table c3TableDef buildRow; decide))

/-! ## Claim C4: INSERT OR REPLACE and INSERT OR IGNORE on conflicts -/

theorem filter_pk_append (rows : List Row) (row2 : Row) (pk : String) (kv : Jv)
    (tdef : TableDef) (hpk : tdef.primaryKey = some pk)
    (hl : lookupKey row2 pk = some kv) (hprim : objectIsV kv kv = true)
    (hnc : ∀ r ∈ rows, rowConflictsWith tdef row2 r = false) :
    (rows ++ [row2]).filter (fun r => objectIs (lookupKey r pk) (some kv)) = [row2] := by
  have hck : containsKey row2 pk = true := by simp [containsKey_eq_isSome, hl]
  have hr : ∀ r ∈ rows, objectIs (lookupKey r pk) (some kv) = false := by
    intro r hrm
    have hfc := hnc r hrm
    simp only [rowConflictsWith, hpk, Bool.or_eq_false_iff] at hfc
    have h1 := hfc.1.1
    rw [hck, hl] at h1
    simpa using h1
  rw [List.filter_append]
  have hnil : rows.filter (fun r => objectIs (lookupKey r pk) (some kv)) = [] := by
    apply List.filter_eq_nil_iff.mpr
    intro a ha
    simp [hr a ha]
  rw [hnil]
  simp only [List.nil_append, List.filter]
  rw [hl]
  simp [objectIs, hprim]

/-- C4: for an INSERT OR REPLACE whose new row carries primary-key value
kv (a primitive value; Object.is identity on the key coincides with value
equality exactly for primitives), the table afterwards contains exactly
one row whose key is that value, namely the inserted row; for an INSERT
OR IGNORE whose row is skipped over a conflict, the stored rows are
unchanged and the statement reports zero changes. -/
theorem insert_or_replace_or_ignore (σ : Snapshot) (t : String) (cols : List String)
    (vals : List Jv) (td : TableData) (pk : String)
    (htd : getTable σ t = some td)
    (hpk : td.tdef.primaryKey = some pk)
    (σ1 : Snapshot) (r1 : Row) (kv : Jv)
    (h1 : insertRow σ t cols vals (some .replace) = (σ1, .ok (some r1)))
    (hkv : lookupKey r1 pk = some kv)
    (hprim : objectIsV kv kv = true)
    (σ2 : Snapshot)
    (h2 : insertRow σ t cols vals (some .ignore) = (σ2, .ok none))
    (hlen : cols.length = vals.length) :
    (getTable σ1 t).map
        (fun td1 => td1.rows.filter (fun r => objectIs (lookupKey r pk) (some kv)))
      = some [r1] ∧
    (getTable σ2 t).map TableData.rows = some td.rows ∧
    execStmt σ (.insert t (some cols) [vals] (some .ignore)) = (σ2, .ok ⟨0, []⟩) := by
  have hens := ensureTable_existing σ t (inferColumnDefsFromInsert cols) td htd
  refine ⟨?ha, ?hb, ?hc⟩
  case ha =>
      unfold insertRow at h1
      rw [hens] at h1
      simp only at h1
      cases hA : applyDefaultsValidate td.tdef.columns (buildRow cols vals) with
      | error eA => rw [hA] at h1; simp at h1
      | ok row1 =>
          rw [hA] at h1
          simp only at h1
          cases hC : validateChecks td.tdef row1 with
          | error eC => rw [hC] at h1; simp at h1
          | ok u =>
              obtain ⟨⟩ := u
              rw [hC] at h1
              simp only at h1
              cases hP : assignPk td.tdef row1 td.autoInc with
              | error eP => rw [hP] at h1; simp at h1
              | ok pr =>
                  obtain ⟨row2, autoInc2⟩ := pr
                  rw [hP] at h1
                  simp only at h1
                  by_cases hconf : (findConflictingRows td row2).isEmpty
                  · rw [if_pos hconf] at h1
                    simp only [Prod.mk.injEq, Except.ok.injEq, Option.some.injEq] at h1
                    obtain ⟨hσ1, hr1⟩ := h1
                    subst hr1
                    have hnc : ∀ r ∈ td.rows, rowConflictsWith td.tdef row2 r = false := by
                      intro r hrm
                      have hfc : findConflictingRows td row2 = [] := by
                        rwa [List.isEmpty_iff] at hconf
                      by_contra hcc
                      have hmem : r ∈ findConflictingRows td row2 :=
                        List.mem_filter.mpr ⟨hrm, by
                          cases hx : rowConflictsWith td.tdef row2 r
                          · exact absurd hx hcc
                          · rfl⟩
                      rw [hfc] at hmem
                      cases hmem
                    rw [← hσ1, getTable_setTable_self]
                    simp [filter_pk_append td.rows row2 pk kv td.tdef hpk hkv hprim hnc]
                  · rw [if_neg hconf] at h1
                    simp only [Prod.mk.injEq, Except.ok.injEq, Option.some.injEq] at h1
                    obtain ⟨hσ1, hr1⟩ := h1
                    subst hr1
                    have hnc : ∀ r ∈ td.rows.filter (fun r => !rowConflictsWith td.tdef row2 r),
                        rowConflictsWith td.tdef row2 r = false := by
                      intro r hrm
                      have := (List.mem_filter.mp hrm).2
                      simpa using this
                    rw [← hσ1, getTable_setTable_self]
                    simp [filter_pk_append _ row2 pk kv td.tdef hpk hkv hprim hnc]
  case hb =>
      unfold insertRow at h2
      rw [hens] at h2
      simp only at h2
      cases hA : applyDefaultsValidate td.tdef.columns (buildRow cols vals) with
      | error eA => rw [hA] at h2; simp at h2
      | ok row1 =>
          rw [hA] at h2
          simp only at h2
          cases hC : validateChecks td.tdef row1 with
          | error eC => rw [hC] at h2; simp at h2
          | ok u =>
              obtain ⟨⟩ := u
              rw [hC] at h2
              simp only at h2
              cases hP : assignPk td.tdef row1 td.autoInc with
              | error eP => rw [hP] at h2; simp at h2
              | ok pr =>
                  obtain ⟨row2, autoInc2⟩ := pr
                  rw [hP] at h2
                  simp only at h2
                  by_cases hconf : (findConflictingRows td row2).isEmpty
                  · rw [if_pos hconf] at h2
                    simp at h2
                  · rw [if_neg hconf] at h2
                    simp only [Prod.mk.injEq] at h2
                    rw [← h2.1, getTable_setTable]
                    simp
  case hc =>
      simp only [execStmt, htd]
      simp only [insertLoop,
        if_neg (show ¬cols.length ≠ vals.length from by simp [hlen]), h2]

def c4TableDef : TableDef :=
  { name := "t",
    columns := [⟨"id", ColumnType.integer, false, true, false, none, none⟩,
                ⟨"v", ColumnType.text, false, false, false, none, none⟩],
    primaryKey := some "id", autoIncrement := true, uniqueConstraints := [], checks := [] }

def c4Row : Row := [("id", Jv.num 1), ("v", Jv.str "a")]

def c4Table : TableData := { tdef := c4TableDef, rows := [c4Row], autoInc := 2 }

def c4State : Snapshot := { tables := [("t", c4Table)], triggers := [] }

def c4NewRow : Row := [("id", Jv.num 1), ("v", Jv.str "b")]

def c4StateReplaced : Snapshot :=
  { tables := [("t", { tdef := c4TableDef, rows := [c4NewRow], autoInc := 2 })],
    triggers := [] }

theorem insert_or_replace_or_ignore_witness :
    ((getTable c4StateReplaced "t").map
        (fun td1 => td1.rows.filter (fun r => objectIs (lookupKey r "id") (some (Jv.num 1))))
      = some [c4NewRow]) ∧
    ((getTable c4State "t").map TableData.rows = some c4Table.rows) ∧
    execStmt c4State (.insert "t" (some ["id", "v"]) [[Jv.num 1, Jv.str "b"]] (some .ignore))
      = (c4State, .ok ⟨0, []⟩) :=
  insert_or_replace_or_ignore c4State "t" ["id", "v"] [Jv.num 1, Jv.str "b"] c4Table "id"
    (by decide) (by decide) c4StateReplaced c4NewRow (Jv.num 1)
    (by decide) (by decide) (by decide) c4State (by decide) (by decide)

/-! ## Claim C9: LIMIT, TOP and FETCH are mutually exclusive -/

/-- The row-count clause combination step at the end of SELECT parsing
(parseSelectAfterSelect): the LIMIT count, then the FETCH FIRST/NEXT
count, then the TOP count are merged; FETCH combined with LIMIT, and TOP
combined with either, raise parse errors.  A clause occurs in the
statement text exactly when the corresponding count is some: each of
parseLimitOffset, parseFetchLimit and the TOP branch consumes its keyword
and always yields a count when the keyword occurs. -/
def resolveRowLimit (limitFromLimit fetchLimit topLimit : Option Nat) :
    Except String (Option Nat) :=
  match fetchLimit with
  | some f =>
      if limitFromLimit.isSome then .error "FETCH cannot be combined with LIMIT."
      else
        match topLimit with
        | some _ => .error "TOP cannot be combined with LIMIT/FETCH."
        | none => .ok (some f)
  | none =>
      match topLimit with
      | some tl =>
          if limitFromLimit.isSome then .error "TOP cannot be combined with LIMIT/FETCH."
          else .ok (some tl)
      | none => .ok limitFromLimit

/-- The number of row-count clauses present among LIMIT, FETCH, TOP. -/
def countPresent (l f t : Option Nat) : Nat :=
  (if l.isSome then 1 else 0) + (if f.isSome then 1 else 0) + (if t.isSome then 1 else 0)

/-- C9: the SELECT parser raises a parse error in its row-limit
combination step exactly when more than one of the LIMIT, TOP and FETCH
FIRST/NEXT row-count clauses is present; with at most one present it
succeeds. -/
theorem rowLimit_exclusive (l f t : Option Nat) :
    (∃ e, resolveRowLimit l f t = .error e) ↔ 2 ≤ countPresent l f t := by
  cases l <;> cases f <;> cases t <;> simp [resolveRowLimit, countPresent]

/-! ## Claim C5: equality in the four comparison contexts -/


def Jv.isPrimitive : Jv → Bool
  | .arr _ => false
  | .obj _ => false
  | _ => true

/-- C5 counterexample: the claim that equality is deep structural in all
four contexts fails for join-ON matching.  The nested arrays both equal
to the array holding 1 are deep-equal (jsonEqual, and the = operator via
compare), yet the join predicate x = y over a merged row holding them as
two separately stored values does not match, because joinMatches uses
Object.is, which on two separately constructed arrays is reference
inequality. -/
theorem join_equality_not_structural :
    jsonEqual (Jv.arr [Jv.num 1]) (Jv.arr [Jv.num 1]) = true ∧
    compare ⟨⟨none, "x"⟩, .eq, Jv.arr [Jv.num 1], none⟩ (some (Jv.arr [Jv.num 1])) = true ∧
    joinMatches [("a.x", Jv.arr [Jv.num 1]), ("b.y", Jv.arr [Jv.num 1])]
      (some (.clause ⟨some "a", "x"⟩ ⟨some "b", "y"⟩)) = false := by
  decide

/-- C5 amended: equality for the = operator, IN membership and DISTINCT
de-duplication is deep structural equality on canonical forms; join-ON
matching instead uses Object.is identity, which agrees with structural
equality exactly on primitive values (null, boolean, number, string). -/
theorem equality_contexts (a b : Jv) (vs : List Jv) (r1 r2 : Row) :
    (compare ⟨⟨none, "c"⟩, .eq, b, none⟩ (some a) = jsonEqual a b) ∧
    (compare ⟨⟨none, "c"⟩, .isin, Jv.arr vs, none⟩ (some a)
      = vs.any (fun v => jsonEqual a v)) ∧
    (jsonEqual (Jv.obj r1) (Jv.obj r2) = true → distinctRows [r1, r2] = [r1]) ∧
    (a.isPrimitive = true → objectIsV a b = jsonEqual a b) := by
  refine ⟨?heq, ?hin, ?hdist, ?hprim⟩
  case heq =>
      cases a <;> cases b <;>
        simp only [compare, jsonEqual, jsonEqualU, numOpCmp, strOpCmp, typeofJv] <;>
        first
          | rfl
          | (split <;> simp_all)
  case hin => rfl
  case hdist =>
      intro hj
      have hkey : rowKey r2 = rowKey r1 := by
        unfold jsonEqual at hj
        split at hj
        · rename_i heqv
          injection heqv with h12
          rw [h12]
        · split at hj
          · cases hj
          · simpa [rowKey, eq_comm] using hj
      simp [distinctRows, distinctRowsGo, hkey]
  case hprim =>
      intro hp
      cases a <;> cases b <;> simp_all [Jv.isPrimitive, objectIsV, jsonEqual, typeofJv]

theorem equality_contexts_witness :
    distinctRows [[("k", Jv.num 1), ("l", Jv.num 2)], [("l", Jv.num 2), ("k", Jv.num 1)]]
        = [[("k", Jv.num 1), ("l", Jv.num 2)]] ∧
      objectIsV (Jv.num 1) (Jv.num 1) = jsonEqual (Jv.num 1) (Jv.num 1) :=
  ⟨(equality_contexts (Jv.num 1) (Jv.num 1) []
      [("k", Jv.num 1), ("l", Jv.num 2)] [("l", Jv.num 2), ("k", Jv.num 1)]).2.2.1
      (by decide),
   (equality_contexts (Jv.num 1) (Jv.num 1) []
      [("k", Jv.num 1), ("l", Jv.num 2)] [("l", Jv.num 2), ("k", Jv.num 1)]).2.2.2
      (by decide)⟩


/-- C10: an UPDATE or DELETE naming a table absent from the catalog
raises no error and reports zero changes with an empty row set, and a
SELECT whose FROM table is absent from both the catalog and the CTE
context returns an empty row set without error. -/
theorem missing_table_noop (σ : Snapshot) (t : String) (set : List (String × Jv))
    (w wd : Option WhereNode) (lim limd : Option Nat) (q : SelectQueryS)
    (ctes : List (String × TableData))
    (ht : getTable σ t = none)
    (hq : getTableFromContext σ q.fromTable.name ctes = none) :
    execStmt σ (.update t set w lim) = (σ, .ok ⟨0, []⟩) ∧
      execStmt σ (.delete t wd limd) = (σ, .ok ⟨0, []⟩) ∧
      selectQ σ q none ctes = .ok [] := by
  refine ⟨?_, ?_, ?_⟩
  · simp [execStmt, updateTable, ht]
  · simp [execStmt, deleteFromTable, ht]
  · simp [selectQ, hq]

def c10Query : SelectQueryS :=
  { fromTable := ⟨"missing", none⟩, joins := [], columns := none, whereC := none,
    distinct := false, groupBy := [], having := none, offset := none, limit := none }

theorem missing_table_noop_witness :
    execStmt emptySnapshot (.update "missing" [] none none) = (emptySnapshot, .ok ⟨0, []⟩) ∧
      execStmt emptySnapshot (.delete "missing" none none) = (emptySnapshot, .ok ⟨0, []⟩) ∧
      selectQ emptySnapshot c10Query none [] = .ok [] :=
  missing_table_noop emptySnapshot "missing" [] none none none none c10Query []
    (by decide) (by decide)

/-! ## Lemmas about merged and null-filled join rows -/

theorem containsKey_setKey_ne {α : Type} (l : List (String × α)) (k k' : String) (v : α)
    (h : k ≠ k') : containsKey (setKey l k v) k' = containsKey l k' := by
  simp [containsKey_eq_isSome, lookupKey_setKey_ne l k k' v h]

theorem containsKey_setKey_mono {α : Type} (l : List (String × α)) (k k' : String) (v : α)
    (h : containsKey l k = true) : containsKey (setKey l k' v) k = true := by
  by_cases hk : k' = k
  · subst hk; exact containsKey_setKey_self l k' v
  · rw [containsKey_setKey_ne l k' k v hk]; exact h

/-- A lookup into a merged row reads the left row when its key is
present there, and the right row otherwise. -/
theorem lookupKey_mergeRows (b a : Row) (k : String) :
    lookupKey (mergeRows a b) k =
      if containsKey a k = true then lookupKey a k else lookupKey b k := by
  induction b generalizing a with
  | nil =>
      by_cases h : containsKey a k = true
      · simp [mergeRows, h]
      · rw [if_neg h]
        simp only [mergeRows, List.foldl_nil, lookupKey]
        have hf : containsKey a k = false := by simpa using h
        rw [containsKey_eq_isSome] at hf
        exact Option.not_isSome_iff_eq_none.mp (by simp [hf])
  | cons kv bs ih =>
      have hstep : mergeRows a (kv :: bs) =
          mergeRows (if containsKey a kv.1 then a else setKey a kv.1 kv.2) bs := rfl
      rw [hstep]
      by_cases hc1 : containsKey a kv.1 = true
      · rw [if_pos hc1, ih]
        by_cases hk : containsKey a k = true
        · simp [hk]
        · have hne : kv.1 ≠ k := by
            intro he; rw [he] at hc1; exact hk hc1
          simp [hk, lookupKey, hne]
      · rw [if_neg hc1, ih]
        by_cases hk : kv.1 = k
        · subst hk
          have hf : containsKey a kv.1 = false := by simpa using hc1
          rw [containsKey_setKey_self, hf]
          simp [lookupKey_setKey_self, lookupKey]
        · rw [containsKey_setKey_ne a kv.1 k kv.2 hk,
            lookupKey_setKey_ne a kv.1 k kv.2 hk]
          by_cases hak : containsKey a k = true <;> simp [hak, lookupKey, hk]

theorem allNull_setKey (l : Row) (k : String)
    (h : ∀ k' v, lookupKey l k' = some v → v = Jv.null) :
    ∀ k' v, lookupKey (setKey l k Jv.null) k' = some v → v = Jv.null := by
  intro k' v hv
  by_cases hk : k = k'
  · subst hk; rw [lookupKey_setKey_self] at hv
    injection hv with h1; exact h1.symm
  · rw [lookupKey_setKey_ne l k k' _ hk] at hv; exact h k' v hv

theorem allNull_fillAliasKeys (aliases : List String) (name : String) :
    ∀ (out : Row), (∀ k v, lookupKey out k = some v → v = Jv.null) →
      ∀ k v, lookupKey (fillAliasKeys aliases name out) k = some v → v = Jv.null := by
  induction aliases with
  | nil => intro out h; exact h
  | cons t ts ih =>
      intro out h
      have hstep : fillAliasKeys (t :: ts) name out =
          fillAliasKeys ts name
            (if containsKey out (t ++ "." ++ name) then out
             else setKey out (t ++ "." ++ name) Jv.null) := rfl
      rw [hstep]
      by_cases hc : containsKey out (t ++ "." ++ name) = true
      · rw [if_pos hc]; exact ih out h
      · rw [if_neg hc]; exact ih _ (allNull_setKey out _ h)

theorem allNull_fillUndefinedCols (aliases : List String) (cols : List ColumnDef) :
    ∀ (out : Row), (∀ k v, lookupKey out k = some v → v = Jv.null) →
      ∀ k v, lookupKey (fillUndefinedCols aliases cols out) k = some v → v = Jv.null := by
  induction cols with
  | nil => intro out h; exact h
  | cons c cs ih =>
      intro out h
      have hstep : fillUndefinedCols aliases (c :: cs) out =
          fillUndefinedCols aliases cs
            (if containsKey (fillAliasKeys aliases c.name out) c.name then
              fillAliasKeys aliases c.name out
             else setKey (fillAliasKeys aliases c.name out) c.name Jv.null) := rfl
      rw [hstep]
      have h1 := allNull_fillAliasKeys aliases c.name out h
      by_cases hc : containsKey (fillAliasKeys aliases c.name out) c.name = true
      · rw [if_pos hc]; exact ih _ h1
      · rw [if_neg hc]; exact ih _ (allNull_setKey _ _ h1)

theorem containsKey_fillAliasKeys_mono (name : String) (k : String) :
    ∀ (aliases : List String) (out : Row), containsKey out k = true →
      containsKey (fillAliasKeys aliases name out) k = true := by
  intro aliases
  induction aliases with
  | nil => intro out h; exact h
  | cons t ts ih =>
      intro out h
      have hstep : fillAliasKeys (t :: ts) name out =
          fillAliasKeys ts name
            (if containsKey out (t ++ "." ++ name) then out
             else setKey out (t ++ "." ++ name) Jv.null) := rfl
      rw [hstep]
      by_cases hc : containsKey out (t ++ "." ++ name) = true
      · rw [if_pos hc]; exact ih out h
      · rw [if_neg hc]; exact ih _ (containsKey_setKey_mono out k _ _ h)

theorem containsKey_fillAliasKeys_present (name : String) (t : String) :
    ∀ (aliases : List String) (out : Row), t ∈ aliases →
      containsKey (fillAliasKeys aliases name out) (t ++ "." ++ name) = true := by
  intro aliases
  induction aliases with
  | nil => intro out ht; cases ht
  | cons t0 ts ih =>
      intro out ht
      have hstep : fillAliasKeys (t0 :: ts) name out =
          fillAliasKeys ts name
            (if containsKey out (t0 ++ "." ++ name) then out
             else setKey out (t0 ++ "." ++ name) Jv.null) := rfl
      rw [hstep]
      rcases List.mem_cons.mp ht with h1 | h1
      · subst h1
        by_cases hc : containsKey out (t ++ "." ++ name) = true
        · rw [if_pos hc]; exact containsKey_fillAliasKeys_mono name _ ts out hc
        · rw [if_neg hc]
          exact containsKey_fillAliasKeys_mono name _ ts _ (containsKey_setKey_self out _ _)
      · by_cases hc : containsKey out (t0 ++ "." ++ name) = true
        · rw [if_pos hc]; exact ih out h1
        · rw [if_neg hc]; exact ih _ h1

theorem containsKey_fillUndefinedCols_mono (aliases : List String) (k : String) :
    ∀ (cols : List ColumnDef) (out : Row), containsKey out k = true →
      containsKey (fillUndefinedCols aliases cols out) k = true := by
  intro cols
  induction cols with
  | nil => intro out h; exact h
  | cons c cs ih =>
      intro out h
      have hstep : fillUndefinedCols aliases (c :: cs) out =
          fillUndefinedCols aliases cs
            (if containsKey (fillAliasKeys aliases c.name out) c.name then
              fillAliasKeys aliases c.name out
             else setKey (fillAliasKeys aliases c.name out) c.name Jv.null) := rfl
      rw [hstep]
      have h1 := containsKey_fillAliasKeys_mono c.name k aliases out h
      by_cases hc : containsKey (fillAliasKeys aliases c.name out) c.name = true
      · rw [if_pos hc]; exact ih _ h1
      · rw [if_neg hc]; exact ih _ (containsKey_setKey_mono _ k _ _ h1)

theorem containsKey_fillUndefinedCols_present (aliases : List String) (t : String)
    (ht : t ∈ aliases) (c : ColumnDef) :
    ∀ (cols : List ColumnDef) (out : Row), c ∈ cols →
      containsKey (fillUndefinedCols aliases cols out) (t ++ "." ++ c.name) = true := by
  intro cols
  induction cols with
  | nil => intro out hc; cases hc
  | cons c0 cs ih =>
      intro out hc
      have hstep : fillUndefinedCols aliases (c0 :: cs) out =
          fillUndefinedCols aliases cs
            (if containsKey (fillAliasKeys aliases c0.name out) c0.name then
              fillAliasKeys aliases c0.name out
             else setKey (fillAliasKeys aliases c0.name out) c0.name Jv.null) := rfl
      rw [hstep]
      rcases List.mem_cons.mp hc with h1 | h1
      · subst h1
        have hp := containsKey_fillAliasKeys_present c.name t aliases out ht
        by_cases hcc : containsKey (fillAliasKeys aliases c.name out) c.name = true
        · rw [if_pos hcc]
          exact containsKey_fillUndefinedCols_mono aliases _ cs _ hp
        · rw [if_neg hcc]
          exact containsKey_fillUndefinedCols_mono aliases _ cs _
            (containsKey_setKey_mono _ _ _ _ hp)
      · by_cases hcc : containsKey (fillAliasKeys aliases c0.name out) c0.name = true
        · rw [if_pos hcc]; exact ih _ h1
        · rw [if_neg hcc]; exact ih _ h1

theorem lookupKey_fillUndefinedCols_null (aliases : List String) (cols : List ColumnDef)
    (out : Row) (hnull : ∀ k v, lookupKey out k = some v → v = Jv.null)
    (c : ColumnDef) (hc : c ∈ cols) (t : String) (ht : t ∈ aliases) :
    lookupKey (fillUndefinedCols aliases cols out) (t ++ "." ++ c.name) = some Jv.null := by
  have hpres := containsKey_fillUndefinedCols_present aliases t ht c cols out hc
  have hall := allNull_fillUndefinedCols aliases cols out hnull
  rw [containsKey_eq_isSome] at hpres
  cases hv : lookupKey (fillUndefinedCols aliases cols out) (t ++ "." ++ c.name) with
  | none => rw [hv] at hpres; simp at hpres
  | some v => rw [hall _ v hv]

/-- The null-filled right side of an unmatched LEFT JOIN row holds null
at every alias-qualified column of the right table. -/
theorem emptyRight_lookup_null (σ : Snapshot) (rn : String) (rt : TableData)
    (hr : getTable σ rn = some rt) (c : ColumnDef) (hc : c ∈ rt.tdef.columns) :
    lookupKey (rowWithPrefixes σ ⟨rn, none⟩ [] true) (rn ++ "." ++ c.name)
      = some Jv.null := by
  have hbase : rowWithPrefixes σ ⟨rn, none⟩ [] true =
      fillUndefinedCols [rn] rt.tdef.columns [] := by
    simp [rowWithPrefixes, rowAliases, rowWithPrefixesBase, hr]
  rw [hbase]
  exact lookupKey_fillUndefinedCols_null [rn] rt.tdef.columns []
    (fun k v hv => by simp [lookupKey] at hv) c hc rn (List.mem_singleton.mpr rfl)

/-! ## The join of an empty secondary side -/

theorem joinPrimaryLoop_empty_secondary (jt : JoinType) (isFull : Bool)
    (onCond : Option JoinOnNode) (el er : Row) (ps : List Row) :
    joinPrimaryLoop jt false isFull [] onCond el er ps =
      (if jt == JoinType.left || isFull then ps.map (fun p => mergeRows p er) else [],
        []) := by
  induction ps with
  | nil => cases h : (jt == JoinType.left || isFull) <;> simp [joinPrimaryLoop, h]
  | cons p ps ih =>
      simp only [joinPrimaryLoop, joinCandidates, List.enum_nil, List.map_nil,
        List.filter_nil, List.isEmpty_nil, ih]
      cases h : (jt == JoinType.left || isFull) <;> simp [h]

theorem joinStep_empty_right (σ : Snapshot) (rn : String) (rt : TableData)
    (hr : getTable σ rn = some rt) (hre : rt.rows = [])
    (onCond : Option JoinOnNode) (usingCols : Option (List String)) (current : List Row) :
    joinStep σ [] current ⟨JoinType.left, ⟨rn, none⟩, onCond, usingCols⟩ =
        current.map (fun p => mergeRows p (rowWithPrefixes σ ⟨rn, none⟩ [] true)) ∧
      joinStep σ [] current ⟨JoinType.inner, ⟨rn, none⟩, onCond, usingCols⟩ = [] := by
  have e1 : (JoinType.left == JoinType.right) = false := rfl
  have e2 : (JoinType.left == JoinType.full) = false := rfl
  have e3 : (JoinType.inner == JoinType.right) = false := rfl
  have e4 : (JoinType.inner == JoinType.full) = false := rfl
  have e5 : (JoinType.left == JoinType.left) = true := rfl
  have e6 : (JoinType.inner == JoinType.left) = false := rfl
  constructor
  · simp only [joinStep, getTableFromContext, lookupKey, hr, hre, List.map_nil, e1, e2,
      Bool.false_eq_true, if_false]
    rw [joinPrimaryLoop_empty_secondary]
    simp [e5]
  · simp only [joinStep, getTableFromContext, lookupKey, hr, hre, List.map_nil, e3, e4,
      Bool.false_eq_true, if_false]
    rw [joinPrimaryLoop_empty_secondary]
    simp [e6]

/-- A query of the C8 shape: SELECT * FROM ln jt JOIN rn, with no WHERE,
grouping, DISTINCT, offset or limit. -/
def c8Query (ln rn : String) (jt : JoinType) (onCond : Option JoinOnNode)
    (usingCols : Option (List String)) : SelectQueryS :=
  { fromTable := ⟨ln, none⟩,
    joins := [⟨jt, ⟨rn, none⟩, onCond, usingCols⟩],
    columns := none, whereC := none, distinct := false, groupBy := [],
    having := none, offset := none, limit := none }

theorem selectQ_c8Query (σ : Snapshot) (ln rn : String) (lt : TableData)
    (jt : JoinType) (onCond : Option JoinOnNode) (usingCols : Option (List String))
    (hl : getTable σ ln = some lt) :
    selectQ σ (c8Query ln rn jt onCond usingCols) none [] =
      .ok (joinedRows σ (c8Query ln rn jt onCond usingCols) []) := by
  have hctx : getTableFromContext σ ln [] = some lt := by
    simp [getTableFromContext, lookupKey, hl]
  simp only [selectQ, c8Query, hctx]
  simp only [selectFrom, filteredRows, c8Query, rowMatchesWhere, List.filter_true]
  simp [joinedRows, c8Query, hctx]

/-- C8: a LEFT JOIN against an existing right table with zero rows keeps
one result row per left row, and in each such row every right-side
qualified column is present and null (given that left rows carry no keys
colliding with the right qualification); an INNER JOIN of the same setup
returns zero rows. -/
theorem left_join_empty_right (σ : Snapshot) (ln rn : String) (lt rt : TableData)
    (onCond : Option JoinOnNode) (usingCols : Option (List String))
    (hl : getTable σ ln = some lt) (hr : getTable σ rn = some rt) (hre : rt.rows = [])
    (hnc : ∀ r ∈ lt.rows, ∀ c ∈ rt.tdef.columns,
      containsKey (rowWithPrefixes σ ⟨ln, none⟩ r false) (rn ++ "." ++ c.name) = false) :
    (∃ out, selectQ σ (c8Query ln rn .left onCond usingCols) none [] = .ok out ∧
        out.length = lt.rows.length ∧
        ∀ row ∈ out, ∀ c ∈ rt.tdef.columns,
          lookupKey row (rn ++ "." ++ c.name) = some Jv.null) ∧
      selectQ σ (c8Query ln rn .inner onCond usingCols) none [] = .ok [] := by
  have hctx : getTableFromContext σ ln [] = some lt := by
    simp [getTableFromContext, lookupKey, hl]
  have hjs := joinStep_empty_right σ rn rt hr hre onCond usingCols
    (lt.rows.map (fun r => rowWithPrefixes σ ⟨ln, none⟩ r false))
  have hjl : joinedRows σ (c8Query ln rn .left onCond usingCols) [] =
      lt.rows.map (fun r => mergeRows (rowWithPrefixes σ ⟨ln, none⟩ r false)
        (rowWithPrefixes σ ⟨rn, none⟩ [] true)) := by
    simp only [joinedRows, c8Query, hctx, List.foldl_cons, List.foldl_nil]
    rw [hjs.1, List.map_map]
    rfl
  have hji : joinedRows σ (c8Query ln rn .inner onCond usingCols) [] = [] := by
    simp only [joinedRows, c8Query, hctx, List.foldl_cons, List.foldl_nil]
    exact hjs.2
  refine ⟨⟨_, selectQ_c8Query σ ln rn lt .left onCond usingCols hl, ?_, ?_⟩, ?_⟩
  · rw [hjl]; simp
  · rw [hjl]
    intro row hrow c hc
    rcases List.mem_map.mp hrow with ⟨r, hrmem, hrow2⟩
    rw [← hrow2, lookupKey_mergeRows]
    rw [hnc r hrmem c hc]
    simp only [Bool.false_eq_true, if_false]
    exact emptyRight_lookup_null σ rn rt hr c hc
  · rw [selectQ_c8Query σ ln rn lt .inner onCond usingCols hl, hji]

def c8ColA : ColumnDef :=
  { name := "a", type := .integer, notNull := false, primaryKey := false,
    unique := false, dflt := none, check := none }

def c8ColB : ColumnDef :=
  { name := "b", type := .integer, notNull := false, primaryKey := false,
    unique := false, dflt := none, check := none }

def c8LDef : TableDef :=
  { name := "l", columns := [c8ColA], primaryKey := none,
    autoIncrement := false, uniqueConstraints := [], checks := [] }

def c8RDef : TableDef :=
  { name := "r", columns := [c8ColB], primaryKey := none,
    autoIncrement := false, uniqueConstraints := [], checks := [] }

def c8LTable : TableData :=
  { tdef := c8LDef, rows := [[("a", Jv.num 1)], [("a", Jv.num 2)]], autoInc := 1 }

def c8RTable : TableData :=
  { tdef := c8RDef, rows := [], autoInc := 1 }

def c8State : Snapshot := { tables := [("l", c8LTable), ("r", c8RTable)], triggers := [] }

def c8On : JoinOnNode := .clause ⟨none, "a"⟩ ⟨some "r", "b"⟩

theorem left_join_empty_right_witness :
    (∃ out, selectQ c8State (c8Query "l" "r" .left (some c8On) none) none [] = .ok out ∧
        out.length = c8LTable.rows.length ∧
        ∀ row ∈ out, ∀ c ∈ c8RTable.tdef.columns,
          lookupKey row ("r" ++ "." ++ c.name) = some Jv.null) ∧
      selectQ c8State (c8Query "l" "r" .inner (some c8On) none) none [] = .ok [] :=
  left_join_empty_right c8State "l" "r" c8LTable c8RTable (some c8On) none
    (by decide) (by decide) (by decide) (by decide)

/-! ## Aggregates over an empty filtered input -/

/-- The value every aggregate function yields on a group of zero rows:
COUNT gives 0, SUM, AVG, MIN and MAX give null. -/
def emptyAggResult : AggFunc → Jv
  | .count => Jv.num 0
  | _ => Jv.null

def aggEmptyVal (e : SelectExprS) : Jv :=
  match e with
  | .aggregate f _ _ => emptyAggResult f
  | .column _ => Jv.null

theorem aggregateValueS_nil (e : SelectExprS) :
    aggregateValueS [] e = some (aggEmptyVal e) := by
  rcases e with ref | ⟨f, ref, d⟩
  · rfl
  · cases f <;> cases ref <;> cases d <;>
      simp [aggregateValueS, aggEmptyVal, emptyAggResult]

theorem distinctRows_singleton (r : Row) : distinctRows [r] = [r] := by
  simp [distinctRows, distinctRowsGo]

theorem validateAggColumns_all_agg (hasAgg : Bool) (gk : List String) :
    ∀ (cols : List SelectColumnS), (∀ c ∈ cols, isAggExpr c.expr = true) →
      validateAggColumns cols hasAgg gk = .ok () := by
  intro cols
  induction cols with
  | nil => intro h; rfl
  | cons c cs ih =>
      intro h
      have hc := h c (List.mem_cons_self c cs)
      rcases c with ⟨e, al⟩
      cases e with
      | column ref => simp [isAggExpr] at hc
      | aggregate f ref d =>
          simp only [validateAggColumns]
          exact ih (fun x hx => h x (List.mem_cons_of_mem _ hx))

theorem lookupKey_foldl_setKey_notin {β : Type} (f : β → String) (g : β → Jv) :
    ∀ (l : List β) (acc : Row) (k : String), (∀ x ∈ l, f x ≠ k) →
      lookupKey (l.foldl (fun r x => setKey r (f x) (g x)) acc) k = lookupKey acc k := by
  intro l
  induction l with
  | nil => intro acc k h; rfl
  | cons x xs ih =>
      intro acc k h
      simp only [List.foldl_cons]
      rw [ih _ k (fun y hy => h y (List.mem_cons_of_mem x hy)),
        lookupKey_setKey_ne acc (f x) k (g x) (h x (List.mem_cons_self x xs))]

/-- A left fold of key assignments with pairwise distinct keys stores
each element's value under its own key. -/
theorem lookupKey_foldl_setKey {β : Type} (f : β → String) (g : β → Jv) :
    ∀ (l : List β) (acc : Row) (c : β), c ∈ l → (l.map f).Nodup →
      lookupKey (l.foldl (fun r x => setKey r (f x) (g x)) acc) (f c) = some (g c) := by
  intro l
  induction l with
  | nil => intro acc c hc _; cases hc
  | cons x xs ih =>
      intro acc c hc hnd
      rw [List.map_cons] at hnd
      have hpair := List.nodup_cons.mp hnd
      simp only [List.foldl_cons]
      rcases List.mem_cons.mp hc with h1 | h1
      · subst h1
        have hnotin : ∀ y ∈ xs, f y ≠ f c := by
          intro y hy he
          exact hpair.1 (he ▸ List.mem_map_of_mem f hy)
        rw [lookupKey_foldl_setKey_notin f g xs _ (f c) hnotin, lookupKey_setKey_self]
      · exact ih _ c h1 hpair.2

theorem buildAggRow_all_agg (cols : List SelectColumnS)
    (hagg : ∀ c ∈ cols, isAggExpr c.expr = true) :
    buildAggRow [] cols [] =
      cols.foldl
        (fun acc c => setKey acc (exprKeyS c.expr c.aliasName) (aggEmptyVal c.expr)) [] := by
  simp only [buildAggRow, List.foldl_nil]
  refine List.foldl_ext _ _ _ ?_
  intro acc c hc
  rcases c with ⟨e, al⟩
  cases e with
  | column ref => simp [aggEmptyVal]
  | aggregate f ref d => simp [aggregateValueS_nil, aggEmptyVal]

theorem project_all_agg (cols : List SelectColumnS)
    (hagg : ∀ c ∈ cols, isAggExpr c.expr = true)
    (hnd : (cols.map (fun c => exprKeyS c.expr c.aliasName)).Nodup) :
    ∀ c ∈ cols,
      lookupKey (projectSelectRowS (buildAggRow [] cols []) cols none)
        (exprKeyS c.expr c.aliasName) = some (aggEmptyVal c.expr) := by
  have hA : ∀ c ∈ cols,
      lookupKey (buildAggRow [] cols []) (exprKeyS c.expr c.aliasName)
        = some (aggEmptyVal c.expr) := by
    intro c hc
    rw [buildAggRow_all_agg cols hagg]
    exact lookupKey_foldl_setKey (fun c => exprKeyS c.expr c.aliasName)
      (fun c => aggEmptyVal c.expr) cols [] c hc hnd
  have hP : projectSelectRowS (buildAggRow [] cols []) cols none =
      cols.foldl
        (fun acc c => setKey acc (exprKeyS c.expr c.aliasName) (aggEmptyVal c.expr)) [] := by
    simp only [projectSelectRowS]
    refine List.foldl_ext _ _ _ ?_
    intro acc x hx
    rcases x with ⟨e, al⟩
    cases e with
    | column ref => exact absurd (hagg ⟨.column ref, al⟩ hx) (by simp [isAggExpr])
    | aggregate f ref d => simp [hA ⟨.aggregate f ref d, al⟩ hx]
  intro c hc
  rw [hP]
  exact lookupKey_foldl_setKey (fun c => exprKeyS c.expr c.aliasName)
    (fun c => aggEmptyVal c.expr) cols [] c hc hnd

/-- C7: an aggregate SELECT with no GROUP BY whose filtered input is
empty yields exactly one row; in it COUNT (with or without a target
column) is 0 and every SUM, AVG, MIN and MAX is null (given pairwise
distinct projection keys so each result column is observable). -/
theorem aggregate_empty_one_row (σ : Snapshot) (q : SelectQueryS)
    (ctes : List (String × TableData)) (cols : List SelectColumnS) (td : TableData)
    (hbase : getTableFromContext σ q.fromTable.name ctes = some td)
    (hcols : q.columns = some cols) (hne : cols ≠ [])
    (hagg : ∀ c ∈ cols, isAggExpr c.expr = true)
    (hgb : q.groupBy = []) (hhav : q.having = none)
    (hoff : q.offset = none) (hlim : q.limit = none)
    (hfilt : filteredRows σ q none ctes = [])
    (hnd : (cols.map (fun c => exprKeyS c.expr c.aliasName)).Nodup) :
    ∃ r, selectQ σ q none ctes = .ok [r] ∧
      ∀ c ∈ cols, ∀ f ref d, c.expr = .aggregate f ref d →
        lookupKey r (exprKeyS c.expr c.aliasName) = some (emptyAggResult f) := by
  have hhasAgg : (cols.any (fun c => isAggExpr c.expr)) = true := by
    cases cols with
    | nil => exact absurd rfl hne
    | cons c cs => simp [List.any_cons, hagg c (List.mem_cons_self c cs)]
  have hval := validateAggColumns_all_agg true [] cols hagg
  refine ⟨projectSelectRowS (buildAggRow [] cols []) cols none, ?_, ?_⟩
  · have hstep : selectFrom σ q none ctes =
        .ok (if q.distinct then
          distinctRows [projectSelectRowS (buildAggRow [] cols []) cols none]
          else [projectSelectRowS (buildAggRow [] cols []) cols none]) := by
      simp only [selectFrom, hcols, hfilt, hgb, hhav, hoff, hlim]
      simp [hhasAgg, hval, rowMatchesWhere]
    simp only [selectQ, hbase]
    rw [hstep]
    cases hd : q.distinct
    · simp
    · simp [distinctRows_singleton]
  · intro c hc f ref d hexp
    have := project_all_agg cols hagg hnd c hc
    rw [this]
    simp [aggEmptyVal, hexp]

def c7Col : ColumnDef :=
  { name := "a", type := .integer, notNull := false, primaryKey := false,
    unique := false, dflt := none, check := none }

def c7Def : TableDef :=
  { name := "t", columns := [c7Col], primaryKey := none,
    autoIncrement := false, uniqueConstraints := [], checks := [] }

def c7Table : TableData := { tdef := c7Def, rows := [], autoInc := 1 }

def c7State : Snapshot := { tables := [("t", c7Table)], triggers := [] }

def c7Cols : List SelectColumnS :=
  [⟨.aggregate .count none false, some "n"⟩,
   ⟨.aggregate .sum (some ⟨none, "a"⟩) false, some "s"⟩,
   ⟨.aggregate .avg (some ⟨none, "a"⟩) false, some "v"⟩]

def c7Query : SelectQueryS :=
  { fromTable := ⟨"t", none⟩, joins := [], columns := some c7Cols, whereC := none,
    distinct := false, groupBy := [], having := none, offset := none, limit := none }

theorem aggregate_empty_one_row_witness :
    ∃ r, selectQ c7State c7Query none [] = .ok [r] ∧
      ∀ c ∈ c7Cols, ∀ f ref d, c.expr = .aggregate f ref d →
        lookupKey r (exprKeyS c.expr c.aliasName) = some (emptyAggResult f) :=
  aggregate_empty_one_row c7State c7Query [] c7Cols c7Table
    (by decide) (by decide) (by decide) (by decide) (by decide) (by decide)
    (by decide) (by decide) (by decide) (by decide)

/-! ## Reachable catalogs and the primary-key invariants -/

/-- The SET map of an update is a string-keyed JS record in the source,
so its keys are pairwise distinct; statement well-formedness records
exactly this about the association-list rendering. -/
def stmtWf : Stmt → Prop
  | .update _ set _ _ => (set.map Prod.fst).Nodup
  | _ => True

/-- Catalog states reachable from the empty catalog: each step executes
one well-formed statement and keeps the resulting state whether or not
the statement raised (mutations made before a throw persist). -/
inductive Reaches : Snapshot → Prop where
  | init : Reaches emptySnapshot
  | step (σ : Snapshot) (s : Stmt) (h : Reaches σ) (hw : stmtWf s) :
      Reaches (execStmt σ s).1

/-- ADD COLUMN with PRIMARY KEY on a table that already holds rows
backfills one shared key value (the DEFAULT, or null) into every row;
this predicate excludes exactly those statements (a pk-adding ALTER on
an empty or missing table is harmless). -/
def stmtDistinctSafe (σ : Snapshot) : Stmt → Prop
  | .alterAddColumn t col =>
      col.primaryKey = true → ∀ td, getTable σ t = some td → td.rows = []
  | _ => True

/-- Reachability without primary-key backfills: the scope on which the
stored keys stay pairwise distinct. -/
inductive ReachesDistinct : Snapshot → Prop where
  | init : ReachesDistinct emptySnapshot
  | step (σ : Snapshot) (s : Stmt) (h : ReachesDistinct σ) (hw : stmtWf s)
      (hd : stmtDistinctSafe σ s) : ReachesDistinct (execStmt σ s).1

/-- An update assigning the primary-key column of its target table can
raise a stored key to an arbitrary number without touching the
autoincrement counter; the safe fragment excludes exactly those
statements. -/
def stmtPkSafe (σ : Snapshot) : Stmt → Prop
  | .update t set _ _ =>
      ∀ td pk, getTable σ t = some td → td.tdef.primaryKey = some pk →
        containsKey set pk = false
  | _ => True

/-- Reachability without primary-key backfills and without pk-assigning
updates: the scope on which the autoincrement counter additionally stays
above every stored key. -/
inductive ReachesSafe : Snapshot → Prop where
  | init : ReachesSafe emptySnapshot
  | step (σ : Snapshot) (s : Stmt) (h : ReachesSafe σ) (hw : stmtWf s)
      (hd : stmtDistinctSafe σ s) (hs : stmtPkSafe σ s) : ReachesSafe (execStmt σ s).1

/-- Distinctness of two stored primary keys in the sense the engine
enforces it: the Object.is comparison of the looked-up values is
false. -/
def pkDistinct (pk : String) (a b : Row) : Prop :=
  objectIs (lookupKey a pk) (lookupKey b pk) = false

/-- Well-formedness of the catalog record: table names are pairwise
distinct, as the keys of the JS tables object are. -/
def dbWf (σ : Snapshot) : Prop := (σ.tables.map Prod.fst).Nodup

/-- Invariant 0: a declared primary key names one of the table's
columns. -/
def tableInv0 (td : TableData) : Prop :=
  ∀ pk, td.tdef.primaryKey = some pk → ∃ c ∈ td.tdef.columns, c.name = pk

/-- Invariant 1: under a declared primary key, every stored row carries
the key and the stored key values are pairwise distinct. -/
def tableInv1 (td : TableData) : Prop :=
  ∀ pk, td.tdef.primaryKey = some pk →
    (∀ r ∈ td.rows, containsKey r pk = true) ∧
      td.rows.Pairwise (pkDistinct pk)

/-- Invariant 2: under a numeric primary-key column, every stored key is
a number strictly below the autoincrement counter. -/
def tableInv2 (td : TableData) : Prop :=
  ∀ pk pkCol, td.tdef.primaryKey = some pk →
    primaryKeyColumn td.tdef = some pkCol → pkCol.type.isNumeric = true →
    ∀ r ∈ td.rows, ∃ p : ℚ, lookupKey r pk = some (.num p) ∧ p < td.autoInc

def dbInv0 (σ : Snapshot) : Prop :=
  ∀ name td, getTable σ name = some td → tableInv0 td

def dbInv1 (σ : Snapshot) : Prop :=
  ∀ name td, getTable σ name = some td → tableInv1 td

def dbInv2 (σ : Snapshot) : Prop :=
  ∀ name td, getTable σ name = some td → tableInv2 td

theorem objectIsV_symm (a b : Jv) : objectIsV a b = objectIsV b a := by
  cases a <;> cases b <;> simp [objectIsV, eq_comm]

theorem objectIs_symm (a b : Option Jv) : objectIs a b = objectIs b a := by
  cases a <;> cases b <;> simp [objectIs, objectIsV_symm]

theorem containsKey_iff_mem_map {α : Type} (l : List (String × α)) (k : String) :
    containsKey l k = true ↔ k ∈ l.map Prod.fst := by
  induction l with
  | nil => simp [containsKey]
  | cons x xs ih =>
      simp only [containsKey, Bool.or_eq_true, decide_eq_true_eq, ih, List.map_cons,
        List.mem_cons]
      constructor
      · rintro (h | h)
        · exact Or.inl h.symm
        · exact Or.inr h
      · rintro (h | h)
        · exact Or.inl h.symm
        · exact Or.inr h

theorem rowAssign_contains_mono (s : List (String × Jv)) :
    ∀ (r : Row) (k : String), containsKey r k = true →
      containsKey (rowAssign r s) k = true := by
  induction s with
  | nil => intro r k h; exact h
  | cons kv s ih =>
      intro r k h
      exact ih (setKey r kv.1 kv.2) k (containsKey_setKey_mono r k kv.1 kv.2 h)

theorem rowAssign_contains_of_set (s : List (String × Jv)) :
    ∀ (r : Row) (k : String), containsKey s k = true →
      containsKey (rowAssign r s) k = true := by
  induction s with
  | nil => intro r k h; cases h
  | cons kv s ih =>
      intro r k h
      by_cases hk : kv.1 = k
      · subst hk
        exact rowAssign_contains_mono s _ kv.1 (containsKey_setKey_self r kv.1 kv.2)
      · have h2 : containsKey s k = true := by
          simpa [containsKey, hk] using h
        exact ih _ k h2

theorem rowAssign_lookup_notin (s : List (String × Jv)) :
    ∀ (r : Row) (k : String), containsKey s k = false →
      lookupKey (rowAssign r s) k = lookupKey r k := by
  induction s with
  | nil => intro r k _; rfl
  | cons kv s ih =>
      intro r k h
      have hk : kv.1 ≠ k := by
        intro he
        simp [containsKey, he] at h
      have h2 : containsKey s k = false := by
        simpa [containsKey, hk] using h
      have := ih (setKey r kv.1 kv.2) k h2
      rw [rowAssign, List.foldl_cons, ← rowAssign, this,
        lookupKey_setKey_ne r kv.1 k kv.2 hk]

theorem rowAssign_lookup_of_set (s : List (String × Jv)) :
    ∀ (r : Row) (k : String), containsKey s k = true → (s.map Prod.fst).Nodup →
      lookupKey (rowAssign r s) k = lookupKey s k := by
  induction s with
  | nil => intro r k h _; cases h
  | cons kv s ih =>
      intro r k h hnd
      rw [List.map_cons] at hnd
      have hpair := List.nodup_cons.mp hnd
      by_cases hk : kv.1 = k
      · subst hk
        have hs : containsKey s kv.1 = false := by
          cases hcs : containsKey s kv.1 with
          | false => rfl
          | true =>
              exact absurd ((containsKey_iff_mem_map s kv.1).mp hcs) hpair.1
        rw [rowAssign, List.foldl_cons, ← rowAssign,
          rowAssign_lookup_notin s _ kv.1 hs, lookupKey_setKey_self]
        simp [lookupKey]
      · have h2 : containsKey s k = true := by
          simpa [containsKey, hk] using h
        rw [rowAssign, List.foldl_cons, ← rowAssign, ih _ k h2 hpair.2]
        simp [lookupKey, hk]

/-! ### Property deletion, key uniqueness, and column search -/

theorem lookupKey_mem {α : Type} (l : List (String × α)) (k : String) (v : α)
    (h : lookupKey l k = some v) : (k, v) ∈ l := by
  induction l with
  | nil => cases h
  | cons x xs ih =>
      by_cases hx : x.1 = k
      · rw [lookupKey, if_pos hx] at h
        injection h with h1
        have hkv : (k, v) = x := by
          rw [← hx, ← h1]
        rw [hkv]
        exact List.mem_cons_self x xs

      · rw [lookupKey, if_neg hx] at h
        exact List.mem_cons_of_mem x (ih h)

theorem lookupKey_of_mem_nodup {α : Type} (l : List (String × α)) (k : String) (v : α)
    (hnd : (l.map Prod.fst).Nodup) (h : (k, v) ∈ l) : lookupKey l k = some v := by
  induction l with
  | nil => cases h
  | cons x xs ih =>
      rw [List.map_cons] at hnd
      have hpair := List.nodup_cons.mp hnd
      rcases List.mem_cons.mp h with h1 | h1
      · rw [← h1, lookupKey, if_pos rfl]
      · have hx : x.1 ≠ k := by
          intro he
          have hmem : k ∈ xs.map Prod.fst :=
            List.mem_map_of_mem Prod.fst h1
          rw [← he] at hmem
          exact hpair.1 hmem
        rw [lookupKey, if_neg hx]
        exact ih hpair.2 h1


theorem lookupKey_eraseKey_ne {α : Type} (l : List (String × α)) (k' k : String)
    (h : k ≠ k') : lookupKey (eraseKey l k') k = lookupKey l k := by
  induction l with
  | nil => rfl
  | cons x xs ih =>
      by_cases hx : x.1 = k'
      · rw [eraseKey, if_pos hx, lookupKey, if_neg (by rw [hx]; exact fun he => h he.symm)]
      · by_cases hk : x.1 = k
        · rw [eraseKey, if_neg hx, lookupKey, if_pos hk, lookupKey, if_pos hk]
        · rw [eraseKey, if_neg hx, lookupKey, if_neg hk, lookupKey, if_neg hk, ih]

theorem containsKey_eraseKey_ne {α : Type} (l : List (String × α)) (k' k : String)
    (h : k ≠ k') : containsKey (eraseKey l k') k = containsKey l k := by
  rw [containsKey_eq_isSome, containsKey_eq_isSome, lookupKey_eraseKey_ne l k' k h]

theorem lookupKey_eraseKey_self_nodup {α : Type} (l : List (String × α)) (k : String)
    (hnd : (l.map Prod.fst).Nodup) : lookupKey (eraseKey l k) k = none := by
  induction l with
  | nil => rfl
  | cons x xs ih =>
      rw [List.map_cons] at hnd
      have hpair := List.nodup_cons.mp hnd
      by_cases hx : x.1 = k
      · rw [eraseKey, if_pos hx]
        cases hl : lookupKey xs k with
        | none => rfl
        | some v =>
            exact absurd (hx ▸ (List.mem_map_of_mem Prod.fst (lookupKey_mem xs k v hl)))
              hpair.1
      · rw [eraseKey, if_neg hx, lookupKey, if_neg hx, ih hpair.2]

theorem lookupKey_eraseKey_some {α : Type} (l : List (String × α)) (k' k : String) (v : α)
    (hnd : (l.map Prod.fst).Nodup) (h : lookupKey (eraseKey l k') k = some v) :
    lookupKey l k = some v := by
  by_cases hk : k = k'
  · rw [hk, lookupKey_eraseKey_self_nodup l k' hnd] at h
    cases h
  · rw [lookupKey_eraseKey_ne l k' k hk] at h
    exact h

theorem map_fst_setKey {α : Type} (l : List (String × α)) (k : String) (v : α) :
    (setKey l k v).map Prod.fst =
      if containsKey l k = true then l.map Prod.fst else l.map Prod.fst ++ [k] := by
  induction l with
  | nil => simp [setKey, containsKey]
  | cons x xs ih =>
      by_cases hx : x.1 = k
      · simp [setKey, containsKey, hx]
      · simp only [setKey, if_neg hx, containsKey, List.map_cons, ih]
        by_cases hc : containsKey xs k = true <;> simp [hc, hx]

theorem nodup_keys_setKey {α : Type} (l : List (String × α)) (k : String) (v : α)
    (h : (l.map Prod.fst).Nodup) : ((setKey l k v).map Prod.fst).Nodup := by
  rw [map_fst_setKey]
  by_cases hc : containsKey l k = true
  · rw [if_pos hc]; exact h
  · rw [if_neg hc]
    have hnm : k ∉ l.map Prod.fst := by
      intro hm
      exact hc ((containsKey_iff_mem_map l k).mpr hm)
    refine List.nodup_append.mpr ⟨h, List.nodup_singleton k, ?_⟩
    intro a ha hk
    rw [List.mem_singleton.mp hk] at ha
    exact hnm ha

theorem map_fst_eraseKey_sublist {α : Type} (l : List (String × α)) (k : String) :
    ((eraseKey l k).map Prod.fst).Sublist (l.map Prod.fst) := by
  induction l with
  | nil => simp [eraseKey]
  | cons x xs ih =>
      by_cases hx : x.1 = k
      · rw [eraseKey, if_pos hx, List.map_cons]
        exact List.Sublist.cons x.1 (List.Sublist.refl _)
      · rw [eraseKey, if_neg hx, List.map_cons, List.map_cons]
        exact List.Sublist.cons₂ x.1 ih

theorem nodup_keys_eraseKey {α : Type} (l : List (String × α)) (k : String)
    (h : (l.map Prod.fst).Nodup) : ((eraseKey l k).map Prod.fst).Nodup :=
  List.Nodup.sublist (map_fst_eraseKey_sublist l k) h

theorem find?_append_left {α : Type} (p : α → Bool) (l1 l2 : List α) (c : α)
    (h : l1.find? p = some c) : (l1 ++ l2).find? p = some c := by
  induction l1 with
  | nil => cases h
  | cons x xs ih =>
      by_cases hx : p x = true
      · rw [List.find?_cons_of_pos _ hx] at h
        rw [List.cons_append, List.find?_cons_of_pos _ hx]
        exact h
      · rw [List.find?_cons_of_neg _ (by simpa using hx)] at h
        rw [List.cons_append, List.find?_cons_of_neg _ (by simpa using hx)]
        exact ih h

theorem exists_find?_of_mem {α : Type} (p : α → Bool) (l : List α) (c : α)
    (hc : c ∈ l) (hp : p c = true) : ∃ c0, l.find? p = some c0 := by
  induction l with
  | nil => cases hc
  | cons x xs ih =>
      by_cases hx : p x = true
      · exact ⟨x, List.find?_cons_of_pos _ hx⟩
      · rw [List.find?_cons_of_neg _ (by simpa using hx)]
        rcases List.mem_cons.mp hc with h1 | h1
        · rw [h1] at hp; exact absurd hp hx
        · exact ih h1

theorem renameFirst_find?_to (cols : List ColumnDef) (fromName toName : String) (cf : ColumnDef)
    (hf : cols.find? (fun c => c.name = fromName) = some cf)
    (hto : cols.any (fun c => c.name = toName) = false) :
    (renameFirst cols fromName toName).find? (fun c => c.name = toName)
      = some { cf with name := toName } := by
  induction cols with
  | nil => cases hf
  | cons c0 rest ih =>
      have hany := hto
      rw [List.any_cons] at hany
      rcases Bool.or_eq_false_iff.mp hany with ⟨h0, hrest⟩
      by_cases hc0 : c0.name = fromName
      · rw [List.find?_cons_of_pos _ (by simpa using hc0)] at hf
        injection hf with hf1
        rw [renameFirst, if_pos hc0, hf1]
        exact List.find?_cons_of_pos _ (by simp)
      · rw [List.find?_cons_of_neg _ (by simpa using hc0)] at hf
        rw [renameFirst, if_neg hc0]
        rw [List.find?_cons_of_neg _ (by simpa using h0)]
        exact ih hf hrest

theorem renameFirst_find?_other (cols : List ColumnDef) (fromName toName pk : String)
    (h1 : pk ≠ fromName) (h2 : pk ≠ toName) :
    (renameFirst cols fromName toName).find? (fun c => c.name = pk)
      = cols.find? (fun c => c.name = pk) := by
  induction cols with
  | nil => rfl
  | cons c0 rest ih =>
      by_cases hc0 : c0.name = fromName
      · rw [renameFirst, if_pos hc0]
        rw [List.find?_cons_of_neg _ (by simp; exact fun he => h2 he.symm)]
        rw [List.find?_cons_of_neg _ (by simp [hc0]; exact fun he => h1 he.symm)]
      · rw [renameFirst, if_neg hc0]
        by_cases hp : c0.name = pk
        · rw [List.find?_cons_of_pos _ (by simpa using hp),
            List.find?_cons_of_pos _ (by simpa using hp)]
        · rw [List.find?_cons_of_neg _ (by simpa using hp),
            List.find?_cons_of_neg _ (by simpa using hp)]
          exact ih

theorem exists_renameFirst_of_ne (cols : List ColumnDef) (fromName toName pk : String)
    (h1 : pk ≠ fromName) (h : ∃ c ∈ cols, c.name = pk) :
    ∃ c ∈ renameFirst cols fromName toName, c.name = pk := by
  induction cols with
  | nil => rcases h with ⟨c, hc, _⟩; cases hc
  | cons c0 rest ih =>
      rcases h with ⟨c, hc, hname⟩
      by_cases hc0 : c0.name = fromName
      · rw [renameFirst, if_pos hc0]
        rcases List.mem_cons.mp hc with he | he
        · rw [he] at hname
          rw [hname] at hc0
          exact absurd hc0 h1
        · exact ⟨c, List.mem_cons_of_mem _ he, hname⟩
      · rw [renameFirst, if_neg hc0]
        rcases List.mem_cons.mp hc with he | he
        · exact ⟨c0, List.mem_cons_self _ _, by rw [← he]; exact hname⟩
        · rcases ih ⟨c, he, hname⟩ with ⟨c2, hc2, hn2⟩
          exact ⟨c2, List.mem_cons_of_mem _ hc2, hn2⟩

theorem exists_mem_eraseIdx_of_ne (q : ColumnDef → Bool) (pk : String)
    (hq : ∀ c, q c = true → c.name ≠ pk) :
    ∀ (cols : List ColumnDef) (idx : Nat), findIndex q cols = some idx →
      (∃ c ∈ cols, c.name = pk) → ∃ c ∈ cols.eraseIdx idx, c.name = pk := by
  intro cols
  induction cols with
  | nil => intro idx h; cases h
  | cons c0 rest ih =>
      intro idx h hex
      rcases hex with ⟨c, hc, hname⟩
      by_cases h0 : q c0 = true
      · rw [findIndex, if_pos h0] at h
        injection h with h1
        rw [← h1]
        rcases List.mem_cons.mp hc with he | he
        · rw [he] at hname
          exact absurd hname (hq c0 h0)
        · exact ⟨c, by simpa [List.eraseIdx] using he, hname⟩
      · rw [findIndex, if_neg h0] at h
        cases hr : findIndex q rest with
        | none => rw [hr] at h; cases h
        | some j =>
            rw [hr] at h
            injection h with h1
            rw [← h1]
            rcases List.mem_cons.mp hc with he | he
            · exact ⟨c0, by simp [List.eraseIdx], by rw [← he]; exact hname⟩
            · rcases ih j hr ⟨c, he, hname⟩ with ⟨c2, hc2, hn2⟩
              exact ⟨c2, by simpa [List.eraseIdx] using List.mem_cons_of_mem c0 hc2, hn2⟩

theorem find?_eraseIdx_comm (p q : ColumnDef → Bool)
    (hpq : ∀ c, q c = true → p c = false) :
    ∀ (cols : List ColumnDef) (idx : Nat), findIndex q cols = some idx →
      (cols.eraseIdx idx).find? p = cols.find? p := by
  intro cols
  induction cols with
  | nil => intro idx h; cases h
  | cons c0 rest ih =>
      intro idx h
      by_cases h0 : q c0 = true
      · rw [findIndex, if_pos h0] at h
        injection h with h1
        rw [← h1]
        rw [List.find?_cons_of_neg _ (by simp [hpq c0 h0])]
        rfl
      · rw [findIndex, if_neg h0] at h
        cases hr : findIndex q rest with
        | none => rw [hr] at h; cases h
        | some j =>
            rw [hr] at h
            injection h with h1
            rw [← h1]
            by_cases hp : p c0 = true
            · rw [show (c0 :: rest).eraseIdx (j + 1) = c0 :: rest.eraseIdx j from rfl]
              rw [List.find?_cons_of_pos _ hp, List.find?_cons_of_pos _ hp]
            · rw [show (c0 :: rest).eraseIdx (j + 1) = c0 :: rest.eraseIdx j from rfl]
              rw [List.find?_cons_of_neg _ (by simpa using hp),
                List.find?_cons_of_neg _ (by simpa using hp)]
              exact ih j hr

/-! ### The primary-key assignment of insertRow -/

theorem pkBump_ok_row (tdef : TableDef) (pk : String) (row : Row) (ai : ℚ)
    (r2 : Row) (a2 : ℚ) (h : pkBump tdef pk row ai = .ok (r2, a2)) : r2 = row := by
  unfold pkBump at h
  cases hc : primaryKeyColumn tdef with
  | none => rw [hc] at h; injection h with h1; injection h1; simp_all
  | some pkCol =>
      rw [hc] at h
      simp only at h
      by_cases hn : pkCol.type.isNumeric = true
      · rw [if_pos hn] at h
        cases hl : lookupKey row pk with
        | none => rw [hl] at h; cases h
        | some v =>
            rw [hl] at h
            cases v <;> simp_all
            split at h <;> simp_all
      · rw [if_neg hn] at h; injection h with h1; injection h1; simp_all

theorem pkBump_ok_mono (tdef : TableDef) (pk : String) (row : Row) (ai : ℚ)
    (r2 : Row) (a2 : ℚ) (h : pkBump tdef pk row ai = .ok (r2, a2)) : ai ≤ a2 := by
  unfold pkBump at h
  cases hc : primaryKeyColumn tdef with
  | none => rw [hc] at h; injection h with h1; injection h1; simp_all
  | some pkCol =>
      rw [hc] at h
      simp only at h
      by_cases hn : pkCol.type.isNumeric = true
      · rw [if_pos hn] at h
        cases hl : lookupKey row pk with
        | none => rw [hl] at h; cases h
        | some v =>
            rw [hl] at h
            cases v <;> try cases h
            rename_i p
            simp only at h
            by_cases hle : ai ≤ p
            · rw [if_pos hle] at h
              injection h with h1
              injection h1 with h2 h3
              rw [← h3]
              have hq := lt_jsFloor_add_one p
              linarith
            · rw [if_neg hle] at h
              injection h with h1; injection h1; simp_all
      · rw [if_neg hn] at h; injection h with h1; injection h1; simp_all

theorem assignPk_ok_mono (tdef : TableDef) (row : Row) (ai : ℚ)
    (r2 : Row) (a2 : ℚ) (h : assignPk tdef row ai = .ok (r2, a2)) : ai ≤ a2 := by
  unfold assignPk at h
  cases hp : tdef.primaryKey with
  | none => rw [hp] at h; injection h with h1; injection h1; simp_all
  | some pk =>
      rw [hp] at h
      simp only at h
      cases hl : lookupKey row pk with
      | some v => rw [hl] at h; exact pkBump_ok_mono tdef pk row ai r2 a2 h
      | none =>
          rw [hl] at h
          simp only at h
          cases hc : primaryKeyColumn tdef with
          | none => rw [hc] at h; cases h
          | some pkCol =>
              rw [hc] at h
              simp only at h
              by_cases hn : pkCol.type.isNumeric = true
              · rw [if_pos hn] at h
                have := pkBump_ok_mono tdef pk _ (ai + 1) r2 a2 h
                linarith
              · rw [if_neg hn] at h; cases h

theorem assignPk_ok_contains (tdef : TableDef) (row : Row) (ai : ℚ)
    (r2 : Row) (a2 : ℚ) (pk : String) (hpk : tdef.primaryKey = some pk)
    (h : assignPk tdef row ai = .ok (r2, a2)) : containsKey r2 pk = true := by
  unfold assignPk at h
  rw [hpk] at h
  simp only at h
  cases hl : lookupKey row pk with
  | some v =>
      rw [hl] at h
      rw [pkBump_ok_row tdef pk row ai r2 a2 h, containsKey_eq_isSome, hl]
      rfl
  | none =>
      rw [hl] at h
      simp only at h
      cases hc : primaryKeyColumn tdef with
      | none => rw [hc] at h; cases h
      | some pkCol =>
          rw [hc] at h
          simp only at h
          by_cases hn : pkCol.type.isNumeric = true
          · rw [if_pos hn] at h
            rw [pkBump_ok_row tdef pk _ (ai + 1) r2 a2 h]
            exact containsKey_setKey_self row pk _
          · rw [if_neg hn] at h; cases h

theorem assignPk_ok_pkval (tdef : TableDef) (row : Row) (ai : ℚ)
    (r2 : Row) (a2 : ℚ) (pk pkCol) (hpk : tdef.primaryKey = some pk)
    (hcol : primaryKeyColumn tdef = some pkCol) (hnum : pkCol.type.isNumeric = true)
    (h : assignPk tdef row ai = .ok (r2, a2)) :
    ∃ p : ℚ, lookupKey r2 pk = some (.num p) ∧ p < a2 := by
  unfold assignPk at h
  rw [hpk] at h
  simp only at h
  cases hl : lookupKey row pk with
  | some v =>
      rw [hl] at h
      unfold pkBump at h
      rw [hcol] at h
      simp only at h
      rw [if_pos hnum, hl] at h
      cases v <;> try cases h
      rename_i p
      simp only at h
      refine ⟨p, ?_, ?_⟩
      · have hr := h
        by_cases hle : ai ≤ p
        · rw [if_pos hle] at hr
          injection hr with h1; injection h1 with h2 h3
          rw [← h2]; exact hl
        · rw [if_neg hle] at hr
          injection hr with h1; injection h1 with h2 h3
          rw [← h2]; exact hl
      · by_cases hle : ai ≤ p
        · rw [if_pos hle] at h
          injection h with h1; injection h1 with h2 h3
          rw [← h3]; exact lt_jsFloor_add_one p
        · rw [if_neg hle] at h
          injection h with h1; injection h1 with h2 h3
          rw [← h3]; exact lt_of_not_le hle
  | none =>
      rw [hl] at h
      simp only at h
      rw [hcol] at h
      simp only at h
      rw [if_pos hnum] at h
      unfold pkBump at h
      rw [hcol] at h
      simp only at h
      rw [if_pos hnum, lookupKey_setKey_self] at h
      simp only at h
      have hni : ¬ (ai + 1 ≤ ai) := by linarith
      rw [if_neg hni] at h
      injection h with h1; injection h1 with h2 h3
      refine ⟨ai, ?_, ?_⟩
      · rw [← h2]; exact lookupKey_setKey_self row pk _
      · rw [← h3]; linarith

/-! ### Invariant preservation through insertRow -/

theorem dbInv_setTable (P : TableData → Prop) (σ : Snapshot) (t : String) (td : TableData)
    (h : ∀ name td0, getTable σ name = some td0 → P td0) (hP : P td) :
    ∀ name td0, getTable (setTable σ t td) name = some td0 → P td0 := by
  intro name td0 hg
  rw [getTable_setTable] at hg
  by_cases ht : t = name
  · rw [if_pos ht] at hg; injection hg with h1; rw [← h1]; exact hP
  · rw [if_neg ht] at hg; exact h name td0 hg

theorem inferColumnDefs_no_pk (cols : List String) :
    (inferColumnDefsFromInsert cols).find? (fun c => c.primaryKey) = none := by
  rw [List.find?_eq_none]
  intro x hx
  rcases List.mem_map.mp hx with ⟨n, hn, he⟩
  rw [← he]
  simp

theorem ensureTable_shape (σ : Snapshot) (n : String) (cols : List ColumnDef)
    (σe : Snapshot) (td : TableData) (hens : ensureTable σ n cols = (σe, td)) :
    (σe = σ ∧ getTable σ n = some td) ∨
    (σe = setTable σ n td ∧ td.rows = [] ∧ td.autoInc = 1 ∧
      td.tdef.primaryKey = (cols.find? (fun c => c.primaryKey)).map
        (fun (c : ColumnDef) => c.name)) := by
  unfold ensureTable at hens
  cases hg : getTable σ n with
  | some td0 =>
      rw [hg] at hens
      injection hens with h1 h2
      exact Or.inl ⟨h1.symm, congrArg some h2⟩
  | none =>
      rw [hg] at hens
      simp only at hens
      injection hens with h1 h2
      subst h2
      exact Or.inr ⟨h1.symm, rfl, rfl, rfl⟩

theorem not_conflict_not_is (tdef : TableDef) (row2 r : Row) (pk : String)
    (hpk : tdef.primaryKey = some pk) (hck : containsKey row2 pk = true)
    (h : rowConflictsWith tdef row2 r = false) :
    objectIs (lookupKey r pk) (lookupKey row2 pk) = false := by
  unfold rowConflictsWith at h
  rw [hpk] at h
  simp only [hck, Bool.true_and, Bool.or_eq_false_iff] at h
  exact h.1.1

theorem conflicts_nil_not_is (td : TableData) (row2 : Row) (pk : String)
    (hpk : td.tdef.primaryKey = some pk) (hck : containsKey row2 pk = true)
    (hc : findConflictingRows td row2 = []) :
    ∀ r ∈ td.rows, objectIs (lookupKey r pk) (lookupKey row2 pk) = false := by
  intro r hr
  by_cases hcw : rowConflictsWith td.tdef row2 r = true
  · have hmem : r ∈ findConflictingRows td row2 := List.mem_filter.mpr ⟨hr, hcw⟩
    rw [hc] at hmem
    cases hmem
  · exact not_conflict_not_is td.tdef row2 r pk hpk hck (by simpa using hcw)

theorem plainConflictError_none_no_pk (t : String) (td : TableData) (row : Row)
    (pk : String) (hpk : td.tdef.primaryKey = some pk)
    (hck : containsKey row pk = true) : plainConflictError t td row ≠ none := by
  unfold plainConflictError
  rw [hpk]
  simp [hck]

/-- The possible outcomes of insertRow on its ensured table: the state
of a pre-insertion throw, a push of the new row (no conflicts, or the
plain fall-through), the ignore or duplicate-error state (counter bump
only), or the replace state (conflicting rows filtered out, new row
pushed). -/
theorem insertRow_shape (σ : Snapshot) (t : String) (cols : List String) (vals : List Jv)
    (oa : Option OrAction) (σe : Snapshot) (td : TableData)
    (hens : ensureTable σ t (inferColumnDefsFromInsert cols) = (σe, td)) :
    (insertRow σ t cols vals oa).1 = σe ∨
    (∃ row1 row2 a2, assignPk td.tdef row1 td.autoInc = .ok (row2, a2) ∧
      ((insertRow σ t cols vals oa).1 =
          setTable σe t { td with rows := td.rows ++ [row2], autoInc := a2 } ∧
        (findConflictingRows td row2 = [] ∨ plainConflictError t td row2 = none) ∨
       (insertRow σ t cols vals oa).1 = setTable σe t { td with autoInc := a2 } ∨
       (insertRow σ t cols vals oa).1 =
         setTable σe t { td with
           rows := td.rows.filter (fun r => !rowConflictsWith td.tdef row2 r) ++ [row2],
           autoInc := a2 })) := by
  simp only [insertRow, hens]
  cases hA : applyDefaultsValidate td.tdef.columns (buildRow cols vals) with
  | error e => exact Or.inl rfl
  | ok row1 =>
      simp only
      cases hV : validateChecks td.tdef row1 with
      | error e => exact Or.inl rfl
      | ok u =>
          cases u
          simp only
          cases hP : assignPk td.tdef row1 td.autoInc with
          | error e => exact Or.inl rfl
          | ok pr =>
              rcases pr with ⟨row2, a2⟩
              simp only
              by_cases hc : (findConflictingRows td row2).isEmpty = true
              · rw [if_pos hc]
                refine Or.inr ⟨row1, row2, a2, hP, Or.inl ⟨rfl, Or.inl ?_⟩⟩
                cases hfc : findConflictingRows td row2 with
                | nil => rfl
                | cons a l => rw [hfc] at hc; simp [List.isEmpty] at hc
              · rw [if_neg hc]
                cases oa with
                | none =>
                    simp only
                    cases hPC : plainConflictError t td row2 with
                    | some e =>
                        exact Or.inr ⟨row1, row2, a2, hP, Or.inr (Or.inl rfl)⟩
                    | none =>
                        exact Or.inr ⟨row1, row2, a2, hP, Or.inl ⟨rfl, Or.inr hPC⟩⟩
                | some ac =>
                    cases ac with
                    | ignore => exact Or.inr ⟨row1, row2, a2, hP, Or.inr (Or.inl rfl)⟩
                    | replace => exact Or.inr ⟨row1, row2, a2, hP, Or.inr (Or.inr rfl)⟩

theorem insertRow_dbInv1 (σ : Snapshot) (t : String) (cols : List String) (vals : List Jv)
    (oa : Option OrAction) (h : dbInv1 σ) : dbInv1 (insertRow σ t cols vals oa).1 := by
  rcases hens : ensureTable σ t (inferColumnDefsFromInsert cols) with ⟨σe, td⟩
  have hshape := ensureTable_shape σ t _ σe td hens
  have htd1 : tableInv1 td := by
    rcases hshape with ⟨he, hg⟩ | ⟨he, hrows, hai, hpk⟩
    · exact h t td hg
    · intro pk hpkx
      rw [hrows]
      exact ⟨fun r hr => absurd hr (List.not_mem_nil r), List.Pairwise.nil⟩
  have hInvE : dbInv1 σe := by
    rcases hshape with ⟨he, hg⟩ | ⟨he, hrows, hai, hpk⟩
    · rw [he]; exact h
    · rw [he]; exact dbInv_setTable tableInv1 σ t td h htd1
  rcases insertRow_shape σ t cols vals oa σe td hens with hres | ⟨row1, row2, a2, hP, hvar⟩
  · rw [hres]; exact hInvE
  · have hcontains : ∀ pk, td.tdef.primaryKey = some pk → containsKey row2 pk = true :=
      fun pk hpk => assignPk_ok_contains td.tdef row1 td.autoInc row2 a2 pk hpk hP
    rcases hvar with ⟨hres, hconf⟩ | hres | hres
    · rw [hres]
      refine dbInv_setTable tableInv1 σe t _ hInvE ?_
      intro pk hpk
      rcases htd1 pk hpk with ⟨hpres, hpair⟩
      have hck := hcontains pk hpk
      have hcross : ∀ r ∈ td.rows, objectIs (lookupKey r pk) (lookupKey row2 pk) = false := by
        rcases hconf with hnil | hnone
        · exact conflicts_nil_not_is td row2 pk hpk hck hnil
        · exact absurd hnone (plainConflictError_none_no_pk t td row2 pk hpk hck)
      constructor
      · intro r hr
        rcases List.mem_append.mp hr with h1 | h1
        · exact hpres r h1
        · rw [List.mem_singleton.mp h1]; exact hck
      · refine List.pairwise_append.mpr ⟨hpair, ?_, ?_⟩
        · exact List.Pairwise.cons (fun b hb => absurd hb (List.not_mem_nil b))
            List.Pairwise.nil
        · intro a ha b hb
          rw [List.mem_singleton.mp hb]
          exact hcross a ha
    · rw [hres]
      refine dbInv_setTable tableInv1 σe t _ hInvE ?_
      intro pk hpk
      exact htd1 pk hpk
    · rw [hres]
      refine dbInv_setTable tableInv1 σe t _ hInvE ?_
      intro pk hpk
      rcases htd1 pk hpk with ⟨hpres, hpair⟩
      have hck := hcontains pk hpk
      constructor
      · intro r hr
        rcases List.mem_append.mp hr with h1 | h1
        · exact hpres r (List.mem_of_mem_filter h1)
        · rw [List.mem_singleton.mp h1]; exact hck
      · refine List.pairwise_append.mpr
          ⟨List.Pairwise.sublist (List.filter_sublist td.rows) hpair, ?_, ?_⟩
        · exact List.Pairwise.cons (fun b hb => absurd hb (List.not_mem_nil b))
            List.Pairwise.nil
        · intro a ha b hb
          rw [List.mem_singleton.mp hb]
          have hmf := List.mem_filter.mp ha
          have hcw : rowConflictsWith td.tdef row2 a = false := by simpa using hmf.2
          exact not_conflict_not_is td.tdef row2 a pk hpk hck hcw

theorem insertRow_dbInv2 (σ : Snapshot) (t : String) (cols : List String) (vals : List Jv)
    (oa : Option OrAction) (h : dbInv2 σ) : dbInv2 (insertRow σ t cols vals oa).1 := by
  rcases hens : ensureTable σ t (inferColumnDefsFromInsert cols) with ⟨σe, td⟩
  have hshape := ensureTable_shape σ t _ σe td hens
  have htd2 : tableInv2 td := by
    rcases hshape with ⟨he, hg⟩ | ⟨he, hrows, hai, hpk⟩
    · exact h t td hg
    · intro pk pkCol hpkx hcol hnum r hr
      rw [hrows] at hr
      cases hr
  have hInvE : dbInv2 σe := by
    rcases hshape with ⟨he, hg⟩ | ⟨he, hrows, hai, hpk⟩
    · rw [he]; exact h
    · rw [he]; exact dbInv_setTable tableInv2 σ t td h htd2
  rcases insertRow_shape σ t cols vals oa σe td hens with hres | ⟨row1, row2, a2, hP, hvar⟩
  · rw [hres]; exact hInvE
  · have hmono := assignPk_ok_mono td.tdef row1 td.autoInc row2 a2 hP
    rcases hvar with ⟨hres, hconf⟩ | hres | hres
    · rw [hres]
      refine dbInv_setTable tableInv2 σe t _ hInvE ?_
      intro pk pkCol hpk hcol hnum r hr
      rcases List.mem_append.mp hr with h1 | h1
      · rcases htd2 pk pkCol hpk hcol hnum r h1 with ⟨p, hlp, hplt⟩
        exact ⟨p, hlp, lt_of_lt_of_le hplt hmono⟩
      · rw [List.mem_singleton.mp h1]
        exact assignPk_ok_pkval td.tdef row1 td.autoInc row2 a2 pk pkCol hpk hcol hnum hP
    · rw [hres]
      refine dbInv_setTable tableInv2 σe t _ hInvE ?_
      intro pk pkCol hpk hcol hnum r hr
      rcases htd2 pk pkCol hpk hcol hnum r hr with ⟨p, hlp, hplt⟩
      exact ⟨p, hlp, lt_of_lt_of_le hplt hmono⟩
    · rw [hres]
      refine dbInv_setTable tableInv2 σe t _ hInvE ?_
      intro pk pkCol hpk hcol hnum r hr
      rcases List.mem_append.mp hr with h1 | h1
      · rcases htd2 pk pkCol hpk hcol hnum r (List.mem_of_mem_filter h1) with ⟨p, hlp, hplt⟩
        exact ⟨p, hlp, lt_of_lt_of_le hplt hmono⟩
      · rw [List.mem_singleton.mp h1]
        exact assignPk_ok_pkval td.tdef row1 td.autoInc row2 a2 pk pkCol hpk hcol hnum hP

/-! ### Invariant preservation through update, delete and create -/

theorem updateDupErr_none_pk (tdef : TableDef) (t : String) (set : List (String × Jv))
    (nextRow : Row) (others : List Row) (pk : String)
    (hpk : tdef.primaryKey = some pk) (hcs : containsKey set pk = true)
    (h : updateDupErr tdef t set nextRow others = none) :
    ∀ r ∈ others, objectIs (lookupKey r pk) (lookupKey set pk) = false := by
  intro r hr
  cases hany : others.any (fun x => objectIs (lookupKey x pk) (lookupKey set pk)) with
  | false =>
      have h2 := List.any_eq_false.mp hany r hr
      simpa using h2
  | true =>
      exfalso
      unfold updateDupErr at h
      rw [hpk] at h
      simp only [hcs, hany, if_true] at h
      split at h
      · simp_all
      · rename_i heq
        split at heq <;> simp_all

theorem pairwise_middle_congr (pk : String) (l1 l2 : List Row) (a a' : Row)
    (hla : lookupKey a' pk = lookupKey a pk)
    (h : (l1 ++ a :: l2).Pairwise (pkDistinct pk)) :
    (l1 ++ a' :: l2).Pairwise (pkDistinct pk) := by
  rw [List.pairwise_append] at h
  rcases h with ⟨h1, h2, h12⟩
  rcases List.pairwise_cons.mp h2 with ⟨h2a, h2b⟩
  refine List.pairwise_append.mpr ⟨h1, List.pairwise_cons.mpr ⟨?_, h2b⟩, ?_⟩
  · intro b hb
    show objectIs (lookupKey a' pk) (lookupKey b pk) = false
    rw [hla]
    exact h2a b hb
  · intro x hx y hy
    rcases List.mem_cons.mp hy with h3 | h3
    · subst h3
      show objectIs (lookupKey x pk) (lookupKey y pk) = false
      rw [hla]
      exact h12 x hx a (List.mem_cons_self a l2)
    · exact h12 x hx y (List.mem_cons_of_mem a h3)

theorem updateLoop_inv1 (tdef : TableDef) (t : String) (set : List (String × Jv))
    (w : Option WhereNode) (lim : Option Nat) (pk : String)
    (hpk : tdef.primaryKey = some pk) (hnd : (set.map Prod.fst).Nodup) :
    ∀ (rest processed : List Row) (changed : Nat) (acc : List Row),
      (∀ r ∈ processed ++ rest, containsKey r pk = true) →
      (processed ++ rest).Pairwise (pkDistinct pk) →
      (∀ r ∈ (updateLoop tdef t set w lim processed rest changed acc).rows,
          containsKey r pk = true) ∧
        (updateLoop tdef t set w lim processed rest changed acc).rows.Pairwise
          (pkDistinct pk) := by
  intro rest
  induction rest with
  | nil =>
      intro processed changed acc hpres hpair
      exact ⟨fun r hr => hpres r (by simpa using hr), by simpa using hpair⟩
  | cons row rest ih =>
      intro processed changed acc hpres hpair
      simp only [updateLoop]
      by_cases hmax : maxReached changed lim = true
      · rw [if_pos hmax]
        exact ⟨hpres, hpair⟩
      · rw [if_neg hmax]
        by_cases hm : (!rowMatchesWhere row w none) = true
        · rw [if_pos hm]
          have heq : (processed ++ [row]) ++ rest = processed ++ row :: rest := by simp
          exact ih (processed ++ [row]) changed acc
            (by rw [heq]; exact hpres) (by rw [heq]; exact hpair)
        · rw [if_neg hm]
          cases hV : updateValidate tdef.columns set (rowAssign row set) with
          | error e => exact ⟨hpres, hpair⟩
          | ok u =>
              cases u
              cases hC : validateChecks tdef (rowAssign row set) with
              | error e => exact ⟨hpres, hpair⟩
              | ok u2 =>
                  cases u2
                  cases hD : updateDupErr tdef t set (rowAssign row set)
                      (processed ++ rest) with
                  | some e => exact ⟨hpres, hpair⟩
                  | none =>
                      have heq : (processed ++ [rowAssign row set]) ++ rest
                          = processed ++ rowAssign row set :: rest := by simp
                      refine ih (processed ++ [rowAssign row set]) (changed + 1)
                        (acc ++ [rowAssign row set]) ?_ ?_
                      · rw [heq]
                        intro r hr
                        rcases List.mem_append.mp hr with h1 | h1
                        · exact hpres r (List.mem_append.mpr (Or.inl h1))
                        · rcases List.mem_cons.mp h1 with h2 | h2
                          · subst h2
                            by_cases hcs : containsKey set pk = true
                            · exact rowAssign_contains_of_set set row pk hcs
                            · exact rowAssign_contains_mono set row pk
                                (hpres row (List.mem_append.mpr
                                  (Or.inr (List.mem_cons_self row rest))))
                          · exact hpres r (List.mem_append.mpr
                              (Or.inr (List.mem_cons_of_mem row h2)))
                      · rw [heq]
                        by_cases hcs : containsKey set pk = true
                        · have hlnext : lookupKey (rowAssign row set) pk = lookupKey set pk :=
                            rowAssign_lookup_of_set set row pk hcs hnd
                          have hothers := updateDupErr_none_pk tdef t set
                            (rowAssign row set) (processed ++ rest) pk hpk hcs hD
                          rw [List.pairwise_append] at hpair
                          rcases hpair with ⟨hp1, hp2, hp12⟩
                          rcases List.pairwise_cons.mp hp2 with ⟨hp2a, hp2b⟩
                          refine List.pairwise_append.mpr
                            ⟨hp1, List.pairwise_cons.mpr ⟨?_, hp2b⟩, ?_⟩
                          · intro b hb
                            show objectIs (lookupKey (rowAssign row set) pk)
                              (lookupKey b pk) = false
                            rw [hlnext, objectIs_symm]
                            exact hothers b (List.mem_append.mpr (Or.inr hb))
                          · intro x hx y hy
                            rcases List.mem_cons.mp hy with h3 | h3
                            · subst h3
                              show objectIs (lookupKey x pk)
                                (lookupKey (rowAssign row set) pk) = false
                              rw [hlnext]
                              exact hothers x (List.mem_append.mpr (Or.inl hx))
                            · exact hp12 x hx y (List.mem_cons_of_mem row h3)
                        · have hcsf : containsKey set pk = false := by simpa using hcs
                          exact pairwise_middle_congr pk processed rest row
                            (rowAssign row set)
                            (rowAssign_lookup_notin set row pk hcsf) hpair

theorem updateLoop_rows_lookup (tdef : TableDef) (t : String) (set : List (String × Jv))
    (w : Option WhereNode) (lim : Option Nat) (pk : String)
    (hcs : containsKey set pk = false) :
    ∀ (rest processed : List Row) (changed : Nat) (acc : List Row),
      ∀ r ∈ (updateLoop tdef t set w lim processed rest changed acc).rows,
        ∃ r0 ∈ processed ++ rest, lookupKey r pk = lookupKey r0 pk := by
  intro rest
  induction rest with
  | nil =>
      intro processed changed acc r hr
      exact ⟨r, by simpa using hr, rfl⟩
  | cons row rest ih =>
      intro processed changed acc r hr
      simp only [updateLoop] at hr
      by_cases hmax : maxReached changed lim = true
      · rw [if_pos hmax] at hr
        exact ⟨r, hr, rfl⟩
      · rw [if_neg hmax] at hr
        by_cases hm : (!rowMatchesWhere row w none) = true
        · rw [if_pos hm] at hr
          rcases ih (processed ++ [row]) changed acc r hr with ⟨r0, hr0, hle⟩
          exact ⟨r0, by simpa using hr0, hle⟩
        · rw [if_neg hm] at hr
          cases hV : updateValidate tdef.columns set (rowAssign row set) with
          | error e => rw [hV] at hr; exact ⟨r, hr, rfl⟩
          | ok u =>
              cases u
              rw [hV] at hr
              cases hC : validateChecks tdef (rowAssign row set) with
              | error e => rw [hC] at hr; exact ⟨r, hr, rfl⟩
              | ok u2 =>
                  cases u2
                  rw [hC] at hr
                  cases hD : updateDupErr tdef t set (rowAssign row set)
                      (processed ++ rest) with
                  | some e => rw [hD] at hr; exact ⟨r, hr, rfl⟩
                  | none =>
                      rw [hD] at hr
                      rcases ih (processed ++ [rowAssign row set]) (changed + 1)
                          (acc ++ [rowAssign row set]) r hr with ⟨r0, hr0, hle⟩
                      have heq : (processed ++ [rowAssign row set]) ++ rest
                          = processed ++ rowAssign row set :: rest := by simp
                      rw [heq] at hr0
                      rcases List.mem_append.mp hr0 with h1 | h1
                      · exact ⟨r0, List.mem_append.mpr (Or.inl h1), hle⟩
                      · rcases List.mem_cons.mp h1 with h2 | h2
                        · subst h2
                          refine ⟨row, List.mem_append.mpr
                            (Or.inr (List.mem_cons_self row rest)), ?_⟩
                          rw [hle, rowAssign_lookup_notin set row pk hcs]
                        · exact ⟨r0, List.mem_append.mpr
                            (Or.inr (List.mem_cons_of_mem row h2)), hle⟩

theorem updateTable_dbInv1 (σ : Snapshot) (t : String) (set : List (String × Jv))
    (w : Option WhereNode) (lim : Option Nat) (hnd : (set.map Prod.fst).Nodup)
    (h : dbInv1 σ) : dbInv1 (updateTable σ t set w lim).1 := by
  simp only [updateTable]
  cases hg : getTable σ t with
  | none => exact h
  | some td =>
      simp only
      have hinv1 : tableInv1
          { td with rows := (updateLoop td.tdef t set w lim [] td.rows 0 []).rows } := by
        intro pk hpk
        rcases h t td hg pk hpk with ⟨hpres, hpair⟩
        exact updateLoop_inv1 td.tdef t set w lim pk hpk hnd td.rows [] 0 []
          (by simpa using hpres) (by simpa using hpair)
      cases he : (updateLoop td.tdef t set w lim [] td.rows 0 []).err with
      | some e => exact dbInv_setTable tableInv1 σ t _ h hinv1
      | none => exact dbInv_setTable tableInv1 σ t _ h hinv1

theorem updateTable_dbInv2 (σ : Snapshot) (t : String) (set : List (String × Jv))
    (w : Option WhereNode) (lim : Option Nat)
    (hsafe : ∀ td pk, getTable σ t = some td → td.tdef.primaryKey = some pk →
      containsKey set pk = false)
    (h : dbInv2 σ) : dbInv2 (updateTable σ t set w lim).1 := by
  simp only [updateTable]
  cases hg : getTable σ t with
  | none => exact h
  | some td =>
      simp only
      have hinv2 : tableInv2
          { td with rows := (updateLoop td.tdef t set w lim [] td.rows 0 []).rows } := by
        intro pk pkCol hpk hcol hnum r hr
        have hcs := hsafe td pk hg hpk
        rcases updateLoop_rows_lookup td.tdef t set w lim pk hcs td.rows [] 0 [] r hr
          with ⟨r0, hr0, hle⟩
        rcases h t td hg pk pkCol hpk hcol hnum r0 (by simpa using hr0) with ⟨p, hlp, hplt⟩
        exact ⟨p, hle.trans hlp, hplt⟩
      cases he : (updateLoop td.tdef t set w lim [] td.rows 0 []).err with
      | some e => exact dbInv_setTable tableInv2 σ t _ h hinv2
      | none => exact dbInv_setTable tableInv2 σ t _ h hinv2

theorem deleteLoop_sublist (w : Option WhereNode) :
    ∀ (rows : List Row) (lim : Option Nat), (deleteLoop w lim rows).1.Sublist rows := by
  intro rows
  induction rows with
  | nil => intro lim; simp [deleteLoop]
  | cons row rest ih =>
      intro lim
      simp only [deleteLoop]
      by_cases hc : ((match lim with
          | none => true
          | some n => decide (0 < n)) && rowMatchesWhere row w none) = true
      · rw [if_pos hc]
        exact List.Sublist.cons row (ih (lim.map (fun n => n - 1)))
      · rw [if_neg hc]
        exact List.Sublist.cons₂ row (ih lim)

theorem deleteFromTable_dbInv1 (σ : Snapshot) (t : String) (w : Option WhereNode)
    (lim : Option Nat) (h : dbInv1 σ) : dbInv1 (deleteFromTable σ t w lim).1 := by
  simp only [deleteFromTable]
  cases hg : getTable σ t with
  | none => exact h
  | some td =>
      refine dbInv_setTable tableInv1 σ t _ h ?_
      intro pk hpk
      rcases h t td hg pk hpk with ⟨hpres, hpair⟩
      have hsub := deleteLoop_sublist w td.rows lim
      exact ⟨fun r hr => hpres r (hsub.subset hr),
        List.Pairwise.sublist hsub hpair⟩

theorem deleteFromTable_dbInv2 (σ : Snapshot) (t : String) (w : Option WhereNode)
    (lim : Option Nat) (h : dbInv2 σ) : dbInv2 (deleteFromTable σ t w lim).1 := by
  simp only [deleteFromTable]
  cases hg : getTable σ t with
  | none => exact h
  | some td =>
      refine dbInv_setTable tableInv2 σ t _ h ?_
      intro pk pkCol hpk hcol hnum r hr
      exact h t td hg pk pkCol hpk hcol hnum r
        ((deleteLoop_sublist w td.rows lim).subset hr)

theorem createTable_dbInv1 (σ : Snapshot) (t : String) (cols : List ColumnDef)
    (pko : Option String) (ine : Bool) (ucs : List (List String))
    (checks : List WhereNode) (h : dbInv1 σ) :
    dbInv1 (createTable σ t cols pko ine ucs checks).1 := by
  simp only [createTable]
  split
  · split
    · exact h
    · exact h
  · split
    · exact h
    · split
      · exact h
      · split
        · exact h
        · exact dbInv_setTable tableInv1 σ t _ h
            (fun pk hpk => ⟨fun r hr => absurd hr (List.not_mem_nil r),
              List.Pairwise.nil⟩)

theorem createTable_dbInv2 (σ : Snapshot) (t : String) (cols : List ColumnDef)
    (pko : Option String) (ine : Bool) (ucs : List (List String))
    (checks : List WhereNode) (h : dbInv2 σ) :
    dbInv2 (createTable σ t cols pko ine ucs checks).1 := by
  simp only [createTable]
  split
  · split
    · exact h
    · exact h
  · split
    · exact h
    · split
      · exact h
      · split
        · exact h
        · exact dbInv_setTable tableInv2 σ t _ h
            (fun pk pkCol hpk hcol hnum r hr => absurd hr (List.not_mem_nil r))

theorem ensureTable_dbInv1 (σ : Snapshot) (n : String) (cols : List String)
    (h : dbInv1 σ) : dbInv1 (ensureTable σ n (inferColumnDefsFromInsert cols)).1 := by
  rcases hens : ensureTable σ n (inferColumnDefsFromInsert cols) with ⟨σe, td⟩
  rcases ensureTable_shape σ n _ σe td hens with ⟨he, _⟩ | ⟨he, hrows, _, _⟩
  · rw [he]; exact h
  · show dbInv1 σe
    rw [he]
    exact dbInv_setTable tableInv1 σ n td h
      (fun pk hpk => ⟨fun r hr => absurd (hrows ▸ hr) (List.not_mem_nil r), by
        rw [hrows]; exact List.Pairwise.nil⟩)

theorem ensureTable_dbInv2 (σ : Snapshot) (n : String) (cols : List String)
    (h : dbInv2 σ) : dbInv2 (ensureTable σ n (inferColumnDefsFromInsert cols)).1 := by
  rcases hens : ensureTable σ n (inferColumnDefsFromInsert cols) with ⟨σe, td⟩
  rcases ensureTable_shape σ n _ σe td hens with ⟨he, _⟩ | ⟨he, hrows, _, _⟩
  · rw [he]; exact h
  · show dbInv2 σe
    rw [he]
    exact dbInv_setTable tableInv2 σ n td h
      (fun pk pkCol hpk hcol hnum r hr => absurd (hrows ▸ hr) (List.not_mem_nil r))

/-! ### Invariant preservation through the DDL statements -/

theorem alterAddResult_pk (table : TableData) (col : ColumnDef) :
    (alterAddResult table col).tdef.primaryKey =
      if col.primaryKey = true then some col.name else table.tdef.primaryKey := rfl

theorem alterAddResult_cols (table : TableData) (col : ColumnDef) :
    (alterAddResult table col).tdef.columns = table.tdef.columns ++ [col] := rfl

theorem alterAddResult_rows (table : TableData) (col : ColumnDef) :
    (alterAddResult table col).rows =
      table.rows.map (fun row => setKey row col.name (col.dflt.getD Jv.null)) := rfl

theorem alterAddResult_autoInc (table : TableData) (col : ColumnDef) :
    (alterAddResult table col).autoInc = table.autoInc := rfl

theorem alterRenameResult_pk (table : TableData) (fromName toName : String) :
    (alterRenameResult table fromName toName).tdef.primaryKey =
      if table.tdef.primaryKey = some fromName then some toName
      else table.tdef.primaryKey := rfl

theorem alterRenameResult_cols (table : TableData) (fromName toName : String) :
    (alterRenameResult table fromName toName).tdef.columns =
      renameFirst table.tdef.columns fromName toName := rfl

theorem alterRenameResult_rows (table : TableData) (fromName toName : String) :
    (alterRenameResult table fromName toName).rows = table.rows.map (fun row =>
      if containsKey row fromName then
        eraseKey (setKey row toName ((lookupKey row fromName).getD Jv.null)) fromName
      else row) := rfl

theorem alterRenameResult_autoInc (table : TableData) (fromName toName : String) :
    (alterRenameResult table fromName toName).autoInc = table.autoInc := rfl

theorem alterDropResult_pk (table : TableData) (columnName : String) (idx : Nat) :
    (alterDropResult table columnName idx).tdef.primaryKey =
      if table.tdef.primaryKey = some columnName then none
      else table.tdef.primaryKey := rfl

theorem alterDropResult_cols (table : TableData) (columnName : String) (idx : Nat) :
    (alterDropResult table columnName idx).tdef.columns =
      table.tdef.columns.eraseIdx idx := rfl

theorem alterDropResult_rows (table : TableData) (columnName : String) (idx : Nat) :
    (alterDropResult table columnName idx).rows =
      table.rows.map (fun row => eraseKey row columnName) := rfl

theorem alterDropResult_autoInc (table : TableData) (columnName : String) (idx : Nat) :
    (alterDropResult table columnName idx).autoInc = table.autoInc := rfl

theorem primaryKeyColumn_eq (tdef : TableDef) (pk : String)
    (hpk : tdef.primaryKey = some pk) :
    primaryKeyColumn tdef = tdef.columns.find? (fun c => c.name = pk) := by
  unfold primaryKeyColumn
  rw [hpk]

/-- A successful ADD COLUMN found its table, with a fresh column name and
no pre-existing primary key when the new column declares one. -/
theorem alterTableAddColumn_shape (σ : Snapshot) (t : String) (col : ColumnDef) :
    (alterTableAddColumn σ t col).1 = σ ∨
    ∃ table, getTable σ t = some table ∧
      table.tdef.columns.any (fun c => c.name = col.name) = false ∧
      (col.primaryKey && table.tdef.primaryKey.isSome) = false ∧
      (alterTableAddColumn σ t col).1 = setTable σ t (alterAddResult table col) := by
  unfold alterTableAddColumn
  cases hg : getTable σ t with
  | none => exact Or.inl rfl
  | some table =>
      simp only
      by_cases h1 : table.tdef.columns.any (fun c => c.name = col.name) = true
      · rw [if_pos h1]; exact Or.inl rfl
      · rw [if_neg h1]
        by_cases h2 : (col.primaryKey && table.tdef.primaryKey.isSome) = true
        · rw [if_pos h2]; exact Or.inl rfl
        · rw [if_neg h2]
          by_cases h3 : (col.notNull && col.dflt == none && !table.rows.isEmpty) = true
          · rw [if_pos h3]; exact Or.inl rfl
          · rw [if_neg h3]
            by_cases h4 : (col.unique && !(col.dflt == none) && !(col.dflt == some Jv.null) &&
                !table.rows.isEmpty) = true
            · rw [if_pos h4]; exact Or.inl rfl
            · rw [if_neg h4]
              cases hd : col.dflt with
              | none =>
                  simp only
                  exact Or.inr ⟨table, rfl, by simpa using h1, by simpa using h2, rfl⟩
              | some d =>
                  simp only
                  cases hv : validateValueType col (some d) with
                  | error e => exact Or.inl rfl
                  | ok u =>
                      cases u
                      exact Or.inr ⟨table, rfl, by simpa using h1, by simpa using h2, rfl⟩

/-- A successful RENAME COLUMN found its table and the source column,
with no column already carrying the target name. -/
theorem alterTableRenameColumn_shape (σ : Snapshot) (t fromName toName : String) :
    (alterTableRenameColumn σ t fromName toName).1 = σ ∨
    ∃ table cf, getTable σ t = some table ∧
      table.tdef.columns.any (fun c => c.name = toName) = false ∧
      table.tdef.columns.find? (fun c => c.name = fromName) = some cf ∧
      (alterTableRenameColumn σ t fromName toName).1 =
        setTable σ t (alterRenameResult table fromName toName) := by
  unfold alterTableRenameColumn
  cases hg : getTable σ t with
  | none => exact Or.inl rfl
  | some table =>
      simp only
      by_cases h1 : table.tdef.columns.any (fun c => c.name = toName) = true
      · rw [if_pos h1]; exact Or.inl rfl
      · rw [if_neg h1]
        cases hf : table.tdef.columns.find? (fun c => c.name = fromName) with
        | none => exact Or.inl rfl
        | some cf =>
            exact Or.inr ⟨table, cf, rfl, by simpa using h1, hf, rfl⟩

/-- A successful DROP COLUMN found its table and the column's index. -/
theorem alterTableDropColumn_shape (σ : Snapshot) (t colName : String) :
    (alterTableDropColumn σ t colName).1 = σ ∨
    ∃ table idx, getTable σ t = some table ∧
      findIndex (fun c => c.name = colName) table.tdef.columns = some idx ∧
      (alterTableDropColumn σ t colName).1 =
        setTable σ t (alterDropResult table colName idx) := by
  unfold alterTableDropColumn
  cases hg : getTable σ t with
  | none => exact Or.inl rfl
  | some table =>
      simp only
      cases hf : findIndex (fun c => c.name = colName) table.tdef.columns with
      | none => exact Or.inl rfl
      | some idx => exact Or.inr ⟨table, idx, rfl, hf, rfl⟩

/-- DROP TABLE either leaves the catalog alone or deletes the table's
record. -/
theorem dropTable_shape (σ : Snapshot) (t : String) (ife : Bool) :
    (dropTable σ t ife).1 = σ ∨
    (dropTable σ t ife).1 = { σ with tables := eraseKey σ.tables t } := by
  unfold dropTable
  cases hg : getTable σ t with
  | none => cases ife <;> simp
  | some td => exact Or.inr rfl

/-- A successful CREATE TABLE AS SELECT stores the result rows under a
catalog-inferred column list with no primary key. -/
theorem createTableAsSelect_shape (σ : Snapshot) (t : String) (q : SelectQueryS)
    (ine : Bool) :
    (createTableAsSelect σ t q ine).1 = σ ∨
    ∃ cols rows, (createTableAsSelect σ t q ine).1 =
      setTable σ t { tdef := ctasTableDef t cols, rows := rows, autoInc := 1 } := by
  unfold createTableAsSelect
  by_cases h1 : (getTable σ t).isSome = true
  · rw [if_pos h1]
    cases ine <;> simp
  · rw [if_neg h1]
    cases hs : selectQ σ q none [] with
    | error e => exact Or.inl rfl
    | ok rows =>
        simp only
        cases rows with
        | cons r0 rest => exact Or.inr ⟨_, _, rfl⟩
        | nil =>
            cases hq : q.columns with
            | none => exact Or.inl rfl
            | some cs => exact Or.inr ⟨_, _, rfl⟩

/-- DROP TRIGGER never touches the tables record. -/
theorem dropTriggerS_tables (σ : Snapshot) (name : String) (ife : Bool) :
    ((dropTriggerS σ name ife).1).tables = σ.tables := by
  simp only [dropTriggerS]
  split <;> rfl

/-- CREATE TABLE either leaves the catalog alone or writes an empty
table whose declared primary key (explicit or column-inferred) names one
of its columns. -/
theorem createTable_shape (σ : Snapshot) (t : String) (cols : List ColumnDef)
    (pko : Option String) (ine : Bool) (ucs : List (List String))
    (checks : List WhereNode) :
    (createTable σ t cols pko ine ucs checks).1 = σ ∨
    ∃ td, (createTable σ t cols pko ine ucs checks).1 = setTable σ t td ∧
      td.rows = [] ∧ td.autoInc = 1 ∧ td.tdef.columns = cols ∧
      (∀ p, td.tdef.primaryKey = some p → ∃ c ∈ cols, c.name = p) := by
  simp only [createTable]
  by_cases h1 : (getTable σ t).isSome = true
  · rw [if_pos h1]
    cases ine <;> simp
  · rw [if_neg h1]
    by_cases h2 : cols.isEmpty = true
    · rw [if_pos h2]; exact Or.inl rfl
    · rw [if_neg h2]
      cases pko with
      | some p =>
          simp only
          by_cases h3 : (!cols.any (fun c => c.name = p)) = true
          · rw [if_pos h3]; exact Or.inl rfl
          · rw [if_neg h3]
            cases hu : firstMissingUcCol ucs cols with
            | some col => exact Or.inl rfl
            | none =>
                refine Or.inr ⟨_, rfl, rfl, rfl, rfl, ?_⟩
                intro p0 hp0
                injection hp0 with hp1
                rw [← hp1]
                have hany : cols.any (fun c => c.name = p) = true := by
                  cases hca : cols.any (fun c => c.name = p) with
                  | true => rfl
                  | false => rw [hca] at h3; simp at h3
                rcases List.any_eq_true.mp hany with ⟨c, hc, hcc⟩
                exact ⟨c, hc, by simpa using hcc⟩
      | none =>
          simp only
          cases hf : cols.find? (fun c => c.primaryKey) with
          | none =>
              simp only [Option.map]
              cases hu : firstMissingUcCol ucs cols with
              | some col => exact Or.inl rfl
              | none =>
                  refine Or.inr ⟨_, rfl, rfl, rfl, rfl, ?_⟩
                  intro p0 hp0
                  simp at hp0
          | some c0 =>
              simp only [Option.map]
              by_cases h3 : (!cols.any (fun c => c.name = c0.name)) = true
              · rw [if_pos h3]; exact Or.inl rfl
              · rw [if_neg h3]
                cases hu : firstMissingUcCol ucs cols with
                | some col => exact Or.inl rfl
                | none =>
                    refine Or.inr ⟨_, rfl, rfl, rfl, rfl, ?_⟩
                    intro p0 hp0
                    injection hp0 with hp1
                    rw [← hp1]
                    exact ⟨c0, List.mem_of_find?_eq_some hf, rfl⟩

/-- A name absent from the column list differs from a primary key that
names a column. -/
theorem pk_ne_of_fresh (table : TableData) (pk nm : String)
    (h0 : tableInv0 table) (hp : table.tdef.primaryKey = some pk)
    (hfresh : table.tdef.columns.any (fun c => c.name = nm) = false) : nm ≠ pk := by
  rcases h0 pk hp with ⟨c, hc, hcn⟩
  intro he
  have hany : table.tdef.columns.any (fun c => c.name = nm) = true :=
    List.any_eq_true.mpr ⟨c, hc, by simp [hcn, he]⟩
  rw [hfresh] at hany
  cases hany

theorem alterAddResult_inv0 (table : TableData) (col : ColumnDef)
    (h0 : tableInv0 table) : tableInv0 (alterAddResult table col) := by
  intro pk hp
  rw [alterAddResult_pk] at hp
  rw [alterAddResult_cols]
  by_cases hcp : col.primaryKey = true
  · rw [if_pos hcp] at hp
    injection hp with hp1
    exact ⟨col, List.mem_append.mpr (Or.inr (List.mem_singleton.mpr rfl)), hp1⟩
  · rw [if_neg hcp] at hp
    rcases h0 pk hp with ⟨c, hc, hcn⟩
    exact ⟨c, List.mem_append.mpr (Or.inl hc), hcn⟩

theorem alterAddResult_inv1 (table : TableData) (col : ColumnDef)
    (h0 : tableInv0 table) (h1 : tableInv1 table)
    (hfresh : table.tdef.columns.any (fun c => c.name = col.name) = false)
    (hsafe : col.primaryKey = true → table.rows = []) :
    tableInv1 (alterAddResult table col) := by
  intro pk hp
  rw [alterAddResult_pk] at hp
  rw [alterAddResult_rows]
  by_cases hcp : col.primaryKey = true
  · rw [hsafe hcp]
    exact ⟨fun r hr => absurd hr (List.not_mem_nil r), List.Pairwise.nil⟩
  · rw [if_neg hcp] at hp
    have hne : col.name ≠ pk := pk_ne_of_fresh table pk col.name h0 hp hfresh
    rcases h1 pk hp with ⟨hpres, hpair⟩
    constructor
    · intro r hr
      rcases List.mem_map.mp hr with ⟨r0, hr0, he⟩
      rw [← he]
      exact containsKey_setKey_mono r0 pk col.name _ (hpres r0 hr0)
    · refine List.pairwise_map.mpr (List.Pairwise.imp ?_ hpair)
      intro a b hab
      show objectIs (lookupKey (setKey a col.name (col.dflt.getD Jv.null)) pk)
        (lookupKey (setKey b col.name (col.dflt.getD Jv.null)) pk) = false
      rw [lookupKey_setKey_ne a col.name pk _ hne, lookupKey_setKey_ne b col.name pk _ hne]
      exact hab

theorem alterAddResult_inv2 (table : TableData) (col : ColumnDef)
    (h0 : tableInv0 table) (h2 : tableInv2 table)
    (hfresh : table.tdef.columns.any (fun c => c.name = col.name) = false)
    (hsafe : col.primaryKey = true → table.rows = []) :
    tableInv2 (alterAddResult table col) := by
  intro pk pkCol hp hcol hnum r hr
  rw [alterAddResult_rows] at hr
  rw [alterAddResult_autoInc]
  rw [alterAddResult_pk] at hp
  by_cases hcp : col.primaryKey = true
  · rw [hsafe hcp] at hr
    exact absurd hr (List.not_mem_nil r)
  · rw [if_neg hcp] at hp
    have hne : col.name ≠ pk := pk_ne_of_fresh table pk col.name h0 hp hfresh
    rcases h0 pk hp with ⟨cw, hcw, hcwn⟩
    rcases exists_find?_of_mem (fun c => c.name = pk) table.tdef.columns cw hcw
      (by simpa using hcwn) with ⟨c0, hc0⟩
    have happ := find?_append_left (fun c => c.name = pk) table.tdef.columns [col] c0 hc0
    have hpk2 : (alterAddResult table col).tdef.primaryKey = some pk := by
      rw [alterAddResult_pk, if_neg hcp]; exact hp
    rw [primaryKeyColumn_eq _ pk hpk2, alterAddResult_cols] at hcol
    have hc0pk : c0 = pkCol := by
      have hee := happ.symm.trans hcol
      injection hee
    have hcolOld : primaryKeyColumn table.tdef = some pkCol := by
      rw [primaryKeyColumn_eq _ pk hp, hc0, hc0pk]
    rcases List.mem_map.mp hr with ⟨r0, hr0, he⟩
    rcases h2 pk pkCol hp hcolOld hnum r0 hr0 with ⟨p, hlp, hplt⟩
    refine ⟨p, ?_, hplt⟩
    rw [← he]
    show lookupKey (setKey r0 col.name (col.dflt.getD Jv.null)) pk = some (Jv.num p)
    rw [lookupKey_setKey_ne r0 col.name pk _ hne]
    exact hlp

theorem alterRenameResult_inv0 (table : TableData) (cf : ColumnDef)
    (fromName toName : String) (h0 : tableInv0 table)
    (hto : table.tdef.columns.any (fun c => c.name = toName) = false)
    (hfind : table.tdef.columns.find? (fun c => c.name = fromName) = some cf) :
    tableInv0 (alterRenameResult table fromName toName) := by
  intro pk hp
  rw [alterRenameResult_pk] at hp
  rw [alterRenameResult_cols]
  by_cases hold : table.tdef.primaryKey = some fromName
  · rw [if_pos hold] at hp
    injection hp with hp1
    have hrt := renameFirst_find?_to table.tdef.columns fromName toName cf hfind hto
    exact ⟨_, List.mem_of_find?_eq_some hrt, by rw [← hp1]⟩
  · rw [if_neg hold] at hp
    have hnef : pk ≠ fromName := fun he => hold (by rw [← he]; exact hp)
    exact exists_renameFirst_of_ne table.tdef.columns fromName toName pk hnef (h0 pk hp)

theorem alterRenameResult_inv1 (table : TableData) (cf : ColumnDef)
    (fromName toName : String) (h0 : tableInv0 table) (h1 : tableInv1 table)
    (hto : table.tdef.columns.any (fun c => c.name = toName) = false)
    (hfind : table.tdef.columns.find? (fun c => c.name = fromName) = some cf) :
    tableInv1 (alterRenameResult table fromName toName) := by
  have hcfname : cf.name = fromName := by
    have hps := List.find?_some hfind
    simpa using hps
  have hft : fromName ≠ toName := by
    intro he
    have hany : table.tdef.columns.any (fun c => c.name = toName) = true :=
      List.any_eq_true.mpr ⟨cf, List.mem_of_find?_eq_some hfind, by simp [hcfname, he]⟩
    rw [hto] at hany
    cases hany
  intro pk hp
  rw [alterRenameResult_pk] at hp
  rw [alterRenameResult_rows]
  by_cases hold : table.tdef.primaryKey = some fromName
  · rw [if_pos hold] at hp
    injection hp with hp1
    rcases h1 fromName hold with ⟨hpres, hpair⟩
    subst hp1
    constructor
    · intro r hr
      rcases List.mem_map.mp hr with ⟨r0, hr0, he⟩
      rw [← he]
      show containsKey (if containsKey r0 fromName = true then
          eraseKey (setKey r0 toName ((lookupKey r0 fromName).getD Jv.null)) fromName
        else r0) toName = true
      rw [if_pos (hpres r0 hr0)]
      rw [containsKey_eraseKey_ne _ fromName toName (fun he2 => hft he2.symm)]
      exact containsKey_setKey_self r0 toName _
    · refine List.pairwise_map.mpr (List.Pairwise.imp_of_mem ?_ hpair)
      intro a b ha hb hab
      show objectIs
        (lookupKey (if containsKey a fromName = true then
            eraseKey (setKey a toName ((lookupKey a fromName).getD Jv.null)) fromName
          else a) toName)
        (lookupKey (if containsKey b fromName = true then
            eraseKey (setKey b toName ((lookupKey b fromName).getD Jv.null)) fromName
          else b) toName) = false
      rw [if_pos (hpres a ha), if_pos (hpres b hb)]
      rw [lookupKey_eraseKey_ne (setKey a toName ((lookupKey a fromName).getD Jv.null))
        fromName toName (fun he2 => hft he2.symm)]
      rw [lookupKey_eraseKey_ne (setKey b toName ((lookupKey b fromName).getD Jv.null))
        fromName toName (fun he2 => hft he2.symm)]
      rw [lookupKey_setKey_self a toName, lookupKey_setKey_self b toName]
      have hca := hpres a ha
      have hcb := hpres b hb
      rw [containsKey_eq_isSome] at hca hcb
      cases hwa : lookupKey a fromName with
      | none => rw [hwa] at hca; cases hca
      | some wa =>
          cases hwb : lookupKey b fromName with
          | none => rw [hwb] at hcb; cases hcb
          | some wb =>
              have hab2 : objectIs (lookupKey a fromName) (lookupKey b fromName) = false :=
                hab
              rw [hwa, hwb] at hab2
              simp only [Option.getD_some]
              exact hab2
  · rw [if_neg hold] at hp
    have hnef : pk ≠ fromName := fun he => hold (by rw [← he]; exact hp)
    have hnet : pk ≠ toName := Ne.symm (pk_ne_of_fresh table pk toName h0 hp hto)
    have hkey : ∀ r0 : Row, lookupKey (if containsKey r0 fromName = true then
        eraseKey (setKey r0 toName ((lookupKey r0 fromName).getD Jv.null)) fromName
      else r0) pk = lookupKey r0 pk := by
      intro r0
      by_cases hcf : containsKey r0 fromName = true
      · rw [if_pos hcf]
        rw [lookupKey_eraseKey_ne (setKey r0 toName ((lookupKey r0 fromName).getD Jv.null))
          fromName pk hnef]
        rw [lookupKey_setKey_ne r0 toName pk _ (Ne.symm hnet)]
      · rw [if_neg hcf]
    rcases h1 pk hp with ⟨hpres, hpair⟩
    constructor
    · intro r hr
      rcases List.mem_map.mp hr with ⟨r0, hr0, he⟩
      rw [← he]
      show containsKey (if containsKey r0 fromName = true then
          eraseKey (setKey r0 toName ((lookupKey r0 fromName).getD Jv.null)) fromName
        else r0) pk = true
      rw [containsKey_eq_isSome, hkey r0, ← containsKey_eq_isSome]
      exact hpres r0 hr0
    · refine List.pairwise_map.mpr (List.Pairwise.imp ?_ hpair)
      intro a b hab
      show objectIs
        (lookupKey (if containsKey a fromName = true then
            eraseKey (setKey a toName ((lookupKey a fromName).getD Jv.null)) fromName
          else a) pk)
        (lookupKey (if containsKey b fromName = true then
            eraseKey (setKey b toName ((lookupKey b fromName).getD Jv.null)) fromName
          else b) pk) = false
      rw [hkey a, hkey b]
      exact hab

theorem alterRenameResult_inv2 (table : TableData) (cf : ColumnDef)
    (fromName toName : String) (h0 : tableInv0 table) (h2 : tableInv2 table)
    (hto : table.tdef.columns.any (fun c => c.name = toName) = false)
    (hfind : table.tdef.columns.find? (fun c => c.name = fromName) = some cf) :
    tableInv2 (alterRenameResult table fromName toName) := by
  have hcfname : cf.name = fromName := by
    have hps := List.find?_some hfind
    simpa using hps
  have hft : fromName ≠ toName := by
    intro he
    have hany : table.tdef.columns.any (fun c => c.name = toName) = true :=
      List.any_eq_true.mpr ⟨cf, List.mem_of_find?_eq_some hfind, by simp [hcfname, he]⟩
    rw [hto] at hany
    cases hany
  intro pk pkCol hp hcol hnum r hr
  rw [alterRenameResult_pk] at hp
  rw [alterRenameResult_rows] at hr
  rw [alterRenameResult_autoInc]
  by_cases hold : table.tdef.primaryKey = some fromName
  · rw [if_pos hold] at hp
    injection hp with hp1
    subst hp1
    have hpk2 : (alterRenameResult table fromName toName).tdef.primaryKey = some toName := by
      rw [alterRenameResult_pk, if_pos hold]
    rw [primaryKeyColumn_eq _ toName hpk2, alterRenameResult_cols] at hcol
    have hrt := renameFirst_find?_to table.tdef.columns fromName toName cf hfind hto
    have hpkCol : pkCol = { cf with name := toName } :=
      Option.some.inj (hcol.symm.trans hrt)
    have hnum2 : cf.type.isNumeric = true := by
      rw [hpkCol] at hnum
      exact hnum
    have hcolOld : primaryKeyColumn table.tdef = some cf := by
      rw [primaryKeyColumn_eq _ fromName hold]
      exact hfind
    rcases List.mem_map.mp hr with ⟨r0, hr0, he⟩
    rcases h2 fromName cf hold hcolOld hnum2 r0 hr0 with ⟨p, hlp, hplt⟩
    refine ⟨p, ?_, hplt⟩
    rw [← he]
    show lookupKey (if containsKey r0 fromName = true then
        eraseKey (setKey r0 toName ((lookupKey r0 fromName).getD Jv.null)) fromName
      else r0) toName = some (Jv.num p)
    have hcr : containsKey r0 fromName = true := by
      rw [containsKey_eq_isSome, hlp]; rfl
    rw [if_pos hcr]
    rw [lookupKey_eraseKey_ne (setKey r0 toName ((lookupKey r0 fromName).getD Jv.null))
      fromName toName (fun he2 => hft he2.symm)]
    rw [lookupKey_setKey_self r0 toName, hlp, Option.getD_some]
  · rw [if_neg hold] at hp
    have hnef : pk ≠ fromName := fun he => hold (by rw [← he]; exact hp)
    have hnet : pk ≠ toName := Ne.symm (pk_ne_of_fresh table pk toName h0 hp hto)
    have hpk2 : (alterRenameResult table fromName toName).tdef.primaryKey = some pk := by
      rw [alterRenameResult_pk, if_neg hold]; exact hp
    rw [primaryKeyColumn_eq _ pk hpk2, alterRenameResult_cols,
      renameFirst_find?_other table.tdef.columns fromName toName pk hnef hnet] at hcol
    have hcolOld : primaryKeyColumn table.tdef = some pkCol := by
      rw [primaryKeyColumn_eq _ pk hp]; exact hcol
    have hkey : ∀ r0 : Row, lookupKey (if containsKey r0 fromName = true then
        eraseKey (setKey r0 toName ((lookupKey r0 fromName).getD Jv.null)) fromName
      else r0) pk = lookupKey r0 pk := by
      intro r0
      by_cases hcf : containsKey r0 fromName = true
      · rw [if_pos hcf]
        rw [lookupKey_eraseKey_ne (setKey r0 toName ((lookupKey r0 fromName).getD Jv.null))
          fromName pk hnef]
        rw [lookupKey_setKey_ne r0 toName pk _ (Ne.symm hnet)]
      · rw [if_neg hcf]
    rcases List.mem_map.mp hr with ⟨r0, hr0, he⟩
    rcases h2 pk pkCol hp hcolOld hnum r0 hr0 with ⟨p, hlp, hplt⟩
    refine ⟨p, ?_, hplt⟩
    rw [← he]
    show lookupKey (if containsKey r0 fromName = true then
        eraseKey (setKey r0 toName ((lookupKey r0 fromName).getD Jv.null)) fromName
      else r0) pk = some (Jv.num p)
    rw [hkey r0]
    exact hlp

theorem alterDropResult_inv0 (table : TableData) (columnName : String) (idx : Nat)
    (h0 : tableInv0 table)
    (hfind : findIndex (fun c => c.name = columnName) table.tdef.columns = some idx) :
    tableInv0 (alterDropResult table columnName idx) := by
  intro pk hp
  rw [alterDropResult_pk] at hp
  rw [alterDropResult_cols]
  by_cases hold : table.tdef.primaryKey = some columnName
  · rw [if_pos hold] at hp
    cases hp
  · rw [if_neg hold] at hp
    have hne : pk ≠ columnName := fun he => hold (by rw [← he]; exact hp)
    exact exists_mem_eraseIdx_of_ne (fun c => c.name = columnName) pk
      (fun c hc he => hne (he.symm.trans (show c.name = columnName by simpa using hc)))
      table.tdef.columns idx hfind (h0 pk hp)

theorem alterDropResult_inv1 (table : TableData) (columnName : String) (idx : Nat)
    (h1 : tableInv1 table) : tableInv1 (alterDropResult table columnName idx) := by
  intro pk hp
  rw [alterDropResult_pk] at hp
  rw [alterDropResult_rows]
  by_cases hold : table.tdef.primaryKey = some columnName
  · rw [if_pos hold] at hp
    cases hp
  · rw [if_neg hold] at hp
    have hne : pk ≠ columnName := fun he => hold (by rw [← he]; exact hp)
    rcases h1 pk hp with ⟨hpres, hpair⟩
    constructor
    · intro r hr
      rcases List.mem_map.mp hr with ⟨r0, hr0, he⟩
      rw [← he]
      show containsKey (eraseKey r0 columnName) pk = true
      rw [containsKey_eraseKey_ne r0 columnName pk hne]
      exact hpres r0 hr0
    · refine List.pairwise_map.mpr (List.Pairwise.imp ?_ hpair)
      intro a b hab
      show objectIs (lookupKey (eraseKey a columnName) pk)
        (lookupKey (eraseKey b columnName) pk) = false
      rw [lookupKey_eraseKey_ne a columnName pk hne,
        lookupKey_eraseKey_ne b columnName pk hne]
      exact hab

theorem alterDropResult_inv2 (table : TableData) (columnName : String) (idx : Nat)
    (h2 : tableInv2 table)
    (hfind : findIndex (fun c => c.name = columnName) table.tdef.columns = some idx) :
    tableInv2 (alterDropResult table columnName idx) := by
  intro pk pkCol hp hcol hnum r hr
  rw [alterDropResult_pk] at hp
  rw [alterDropResult_rows] at hr
  rw [alterDropResult_autoInc]
  by_cases hold : table.tdef.primaryKey = some columnName
  · rw [if_pos hold] at hp
    cases hp
  · rw [if_neg hold] at hp
    have hne : pk ≠ columnName := fun he => hold (by rw [← he]; exact hp)
    have hpk2 : (alterDropResult table columnName idx).tdef.primaryKey = some pk := by
      rw [alterDropResult_pk, if_neg hold]; exact hp
    rw [primaryKeyColumn_eq _ pk hpk2, alterDropResult_cols] at hcol
    rw [find?_eraseIdx_comm (fun c => c.name = pk) (fun c => c.name = columnName)
      (fun c hc => by
        have hcc : c.name = columnName := by simpa using hc
        simp only [hcc, decide_eq_false_iff_not]
        exact fun he => hne he.symm)
      table.tdef.columns idx hfind] at hcol
    have hcolOld : primaryKeyColumn table.tdef = some pkCol := by
      rw [primaryKeyColumn_eq _ pk hp]; exact hcol
    rcases List.mem_map.mp hr with ⟨r0, hr0, he⟩
    rcases h2 pk pkCol hp hcolOld hnum r0 hr0 with ⟨p, hlp, hplt⟩
    refine ⟨p, ?_, hplt⟩
    rw [← he]
    show lookupKey (eraseKey r0 columnName) pk = some (Jv.num p)
    rw [lookupKey_eraseKey_ne r0 columnName pk hne]
    exact hlp

theorem ctas_inv0 (t : String) (cols : List ColumnDef) (rows : List Row) :
    tableInv0 { tdef := ctasTableDef t cols, rows := rows, autoInc := 1 } := by
  intro pk hp
  simp [ctasTableDef] at hp

theorem ctas_inv1 (t : String) (cols : List ColumnDef) (rows : List Row) :
    tableInv1 { tdef := ctasTableDef t cols, rows := rows, autoInc := 1 } := by
  intro pk hp
  simp [ctasTableDef] at hp

theorem ctas_inv2 (t : String) (cols : List ColumnDef) (rows : List Row) :
    tableInv2 { tdef := ctasTableDef t cols, rows := rows, autoInc := 1 } := by
  intro pk pkCol hp hcol hnum r hr
  simp [ctasTableDef] at hp

theorem getTable_dropTriggerS (σ : Snapshot) (n : String) (ife : Bool) (name : String) :
    getTable (dropTriggerS σ n ife).1 name = getTable σ name := by
  unfold getTable
  rw [dropTriggerS_tables]

/-- Deleting a table keeps every remaining table record intact, so any
per-table property survives. -/
theorem dropTable_dbInvP (P : TableData → Prop) (σ : Snapshot) (t : String) (ife : Bool)
    (hwf : dbWf σ) (h : ∀ name td, getTable σ name = some td → P td) :
    ∀ name td, getTable (dropTable σ t ife).1 name = some td → P td := by
  rcases dropTable_shape σ t ife with hres | hres
  · rw [hres]; exact h
  · rw [hres]
    intro name td hg
    exact h name td (lookupKey_eraseKey_some σ.tables t name td hwf hg)

theorem createTableAsSelect_dbInvP (P : TableData → Prop) (σ : Snapshot) (t : String)
    (q : SelectQueryS) (ine : Bool)
    (h : ∀ name td, getTable σ name = some td → P td)
    (hP : ∀ cols rows, P { tdef := ctasTableDef t cols, rows := rows, autoInc := 1 }) :
    ∀ name td, getTable (createTableAsSelect σ t q ine).1 name = some td → P td := by
  rcases createTableAsSelect_shape σ t q ine with hres | ⟨cols, rows, hres⟩
  · rw [hres]; exact h
  · rw [hres]
    exact dbInv_setTable P σ t _ h (hP cols rows)

theorem dropTriggerS_dbInvP (P : TableData → Prop) (σ : Snapshot) (n : String) (ife : Bool)
    (h : ∀ name td, getTable σ name = some td → P td) :
    ∀ name td, getTable (dropTriggerS σ n ife).1 name = some td → P td := by
  intro name td hg
  rw [getTable_dropTriggerS] at hg
  exact h name td hg

/-! ### Distinctness of the table names -/

theorem setTable_dbWf (σ : Snapshot) (t : String) (td : TableData) (h : dbWf σ) :
    dbWf (setTable σ t td) := nodup_keys_setKey σ.tables t td h

theorem ensureTable_dbWf (σ : Snapshot) (n : String) (cols : List String)
    (h : dbWf σ) : dbWf (ensureTable σ n (inferColumnDefsFromInsert cols)).1 := by
  rcases hens : ensureTable σ n (inferColumnDefsFromInsert cols) with ⟨σe, td⟩
  rcases ensureTable_shape σ n _ σe td hens with ⟨he, _⟩ | ⟨he, _, _, _⟩
  · show dbWf σe
    rw [he]; exact h
  · show dbWf σe
    rw [he]; exact setTable_dbWf σ n td h

theorem insertRow_dbWf (σ : Snapshot) (t : String) (cols : List String) (vals : List Jv)
    (oa : Option OrAction) (h : dbWf σ) : dbWf (insertRow σ t cols vals oa).1 := by
  rcases hens : ensureTable σ t (inferColumnDefsFromInsert cols) with ⟨σe, td⟩
  have hE : dbWf σe := by
    rcases ensureTable_shape σ t _ σe td hens with ⟨he, _⟩ | ⟨he, _, _, _⟩
    · rw [he]; exact h
    · rw [he]; exact setTable_dbWf σ t td h
  rcases insertRow_shape σ t cols vals oa σe td hens with hres | ⟨row1, row2, a2, hP, hvar⟩
  · rw [hres]; exact hE
  · rcases hvar with ⟨hres, hconf⟩ | hres | hres
    · rw [hres]; exact setTable_dbWf σe t _ hE
    · rw [hres]; exact setTable_dbWf σe t _ hE
    · rw [hres]; exact setTable_dbWf σe t _ hE

/-- The VALUES loop preserves any snapshot property that each single-row
insertion preserves. -/
theorem insertLoop_pres (P : Snapshot → Prop) (t : String) (cols : List String)
    (oa : Option OrAction)
    (hstep : ∀ σ v, P σ → P (insertRow σ t cols v oa).1) :
    ∀ (vals : List (List Jv)) (σ : Snapshot) (changes : Nat) (acc : List Row),
      P σ → P (insertLoop t cols oa σ vals changes acc).1 := by
  intro vals
  induction vals with
  | nil => intro σ changes acc h; exact h
  | cons v rest ih =>
      intro σ changes acc h
      simp only [insertLoop]
      by_cases hlen : cols.length ≠ v.length
      · rw [if_pos hlen]; exact h
      · rw [if_neg hlen]
        rcases hI : insertRow σ t cols v oa with ⟨σ1, res⟩
        have h1 : P σ1 := by
          have hh := hstep σ v h
          rwa [hI] at hh
        cases res with
        | error e => exact h1
        | ok orow =>
            cases orow with
            | none => exact ih σ1 changes acc h1
            | some row => exact ih σ1 (changes + 1) (acc ++ [row]) h1

theorem insertLoop_dbWf (t : String) (cols : List String) (oa : Option OrAction) :
    ∀ (vals : List (List Jv)) (σ : Snapshot) (changes : Nat) (acc : List Row),
      dbWf σ → dbWf (insertLoop t cols oa σ vals changes acc).1 :=
  fun vals σ changes acc h =>
    insertLoop_pres dbWf t cols oa (fun σ0 v h0 => insertRow_dbWf σ0 t cols v oa h0)
      vals σ changes acc h

theorem createTable_dbWf (σ : Snapshot) (t : String) (cols : List ColumnDef)
    (pko : Option String) (ine : Bool) (ucs : List (List String))
    (checks : List WhereNode) (h : dbWf σ) :
    dbWf (createTable σ t cols pko ine ucs checks).1 := by
  rcases createTable_shape σ t cols pko ine ucs checks with hres | ⟨td, hres, _, _, _, _⟩
  · rw [hres]; exact h
  · rw [hres]; exact setTable_dbWf σ t td h

theorem updateTable_dbWf (σ : Snapshot) (t : String) (set : List (String × Jv))
    (w : Option WhereNode) (lim : Option Nat) (h : dbWf σ) :
    dbWf (updateTable σ t set w lim).1 := by
  simp only [updateTable]
  cases hg : getTable σ t with
  | none => exact h
  | some td =>
      simp only
      cases he : (updateLoop td.tdef t set w lim [] td.rows 0 []).err with
      | some e => exact setTable_dbWf σ t _ h
      | none => exact setTable_dbWf σ t _ h

theorem deleteFromTable_dbWf (σ : Snapshot) (t : String) (w : Option WhereNode)
    (lim : Option Nat) (h : dbWf σ) : dbWf (deleteFromTable σ t w lim).1 := by
  simp only [deleteFromTable]
  cases hg : getTable σ t with
  | none => exact h
  | some td => exact setTable_dbWf σ t _ h

theorem alterTableAddColumn_dbWf (σ : Snapshot) (t : String) (col : ColumnDef)
    (h : dbWf σ) : dbWf (alterTableAddColumn σ t col).1 := by
  rcases alterTableAddColumn_shape σ t col with hres | ⟨table, _, _, _, hres⟩
  · rw [hres]; exact h
  · rw [hres]; exact setTable_dbWf σ t _ h

theorem alterTableRenameColumn_dbWf (σ : Snapshot) (t fromName toName : String)
    (h : dbWf σ) : dbWf (alterTableRenameColumn σ t fromName toName).1 := by
  rcases alterTableRenameColumn_shape σ t fromName toName with hres | ⟨table, cf, _, _, _, hres⟩
  · rw [hres]; exact h
  · rw [hres]; exact setTable_dbWf σ t _ h

theorem alterTableDropColumn_dbWf (σ : Snapshot) (t colName : String)
    (h : dbWf σ) : dbWf (alterTableDropColumn σ t colName).1 := by
  rcases alterTableDropColumn_shape σ t colName with hres | ⟨table, idx, _, _, hres⟩
  · rw [hres]; exact h
  · rw [hres]; exact setTable_dbWf σ t _ h

theorem dropTable_dbWf (σ : Snapshot) (t : String) (ife : Bool) (h : dbWf σ) :
    dbWf (dropTable σ t ife).1 := by
  rcases dropTable_shape σ t ife with hres | hres
  · rw [hres]; exact h
  · rw [hres]; exact nodup_keys_eraseKey σ.tables t h

theorem createTableAsSelect_dbWf (σ : Snapshot) (t : String) (q : SelectQueryS)
    (ine : Bool) (h : dbWf σ) : dbWf (createTableAsSelect σ t q ine).1 := by
  rcases createTableAsSelect_shape σ t q ine with hres | ⟨cols, rows, hres⟩
  · rw [hres]; exact h
  · rw [hres]; exact setTable_dbWf σ t _ h

theorem dropTriggerS_dbWf (σ : Snapshot) (n : String) (ife : Bool) (h : dbWf σ) :
    dbWf (dropTriggerS σ n ife).1 := by
  unfold dbWf
  rw [dropTriggerS_tables]
  exact h

/-! ### Preservation of invariant 0 -/

theorem createTable_dbInv0 (σ : Snapshot) (t : String) (cols : List ColumnDef)
    (pko : Option String) (ine : Bool) (ucs : List (List String))
    (checks : List WhereNode) (h : dbInv0 σ) :
    dbInv0 (createTable σ t cols pko ine ucs checks).1 := by
  rcases createTable_shape σ t cols pko ine ucs checks with hres | ⟨td, hres, _, _, hcols, hpk⟩
  · rw [hres]; exact h
  · rw [hres]
    refine dbInv_setTable tableInv0 σ t td h ?_
    intro pk hp
    rw [hcols]
    exact hpk pk hp

theorem ensureTable_dbInv0 (σ : Snapshot) (n : String) (cols : List String)
    (h : dbInv0 σ) : dbInv0 (ensureTable σ n (inferColumnDefsFromInsert cols)).1 := by
  rcases hens : ensureTable σ n (inferColumnDefsFromInsert cols) with ⟨σe, td⟩
  rcases ensureTable_shape σ n _ σe td hens with ⟨he, _⟩ | ⟨he, _, _, hpk⟩
  · show dbInv0 σe
    rw [he]; exact h
  · show dbInv0 σe
    rw [he]
    refine dbInv_setTable tableInv0 σ n td h ?_
    intro pk hp
    rw [hpk, inferColumnDefs_no_pk] at hp
    simp at hp

theorem insertRow_dbInv0 (σ : Snapshot) (t : String) (cols : List String) (vals : List Jv)
    (oa : Option OrAction) (h : dbInv0 σ) : dbInv0 (insertRow σ t cols vals oa).1 := by
  rcases hens : ensureTable σ t (inferColumnDefsFromInsert cols) with ⟨σe, td⟩
  have hshape := ensureTable_shape σ t _ σe td hens
  have htd0 : tableInv0 td := by
    rcases hshape with ⟨he, hg⟩ | ⟨he, _, _, hpk⟩
    · exact h t td hg
    · intro pk hp
      rw [hpk, inferColumnDefs_no_pk] at hp
      simp at hp
  have hInvE : dbInv0 σe := by
    rcases hshape with ⟨he, hg⟩ | ⟨he, _, _, hpk⟩
    · rw [he]; exact h
    · rw [he]; exact dbInv_setTable tableInv0 σ t td h htd0
  rcases insertRow_shape σ t cols vals oa σe td hens with hres | ⟨row1, row2, a2, hP, hvar⟩
  · rw [hres]; exact hInvE
  · rcases hvar with ⟨hres, hconf⟩ | hres | hres
    · rw [hres]
      exact dbInv_setTable tableInv0 σe t _ hInvE (fun pk hp => htd0 pk hp)
    · rw [hres]
      exact dbInv_setTable tableInv0 σe t _ hInvE (fun pk hp => htd0 pk hp)
    · rw [hres]
      exact dbInv_setTable tableInv0 σe t _ hInvE (fun pk hp => htd0 pk hp)

theorem insertLoop_dbInv0 (t : String) (cols : List String) (oa : Option OrAction) :
    ∀ (vals : List (List Jv)) (σ : Snapshot) (changes : Nat) (acc : List Row),
      dbInv0 σ → dbInv0 (insertLoop t cols oa σ vals changes acc).1 :=
  fun vals σ changes acc h =>
    insertLoop_pres dbInv0 t cols oa (fun σ0 v h0 => insertRow_dbInv0 σ0 t cols v oa h0)
      vals σ changes acc h

theorem updateTable_dbInv0 (σ : Snapshot) (t : String) (set : List (String × Jv))
    (w : Option WhereNode) (lim : Option Nat) (h : dbInv0 σ) :
    dbInv0 (updateTable σ t set w lim).1 := by
  simp only [updateTable]
  cases hg : getTable σ t with
  | none => exact h
  | some td =>
      simp only
      have hinv : tableInv0 { td with
          rows := (updateLoop td.tdef t set w lim [] td.rows 0 []).rows } :=
        fun pk hp => h t td hg pk hp
      cases he : (updateLoop td.tdef t set w lim [] td.rows 0 []).err with
      | some e => exact dbInv_setTable tableInv0 σ t _ h hinv
      | none => exact dbInv_setTable tableInv0 σ t _ h hinv

theorem deleteFromTable_dbInv0 (σ : Snapshot) (t : String) (w : Option WhereNode)
    (lim : Option Nat) (h : dbInv0 σ) : dbInv0 (deleteFromTable σ t w lim).1 := by
  simp only [deleteFromTable]
  cases hg : getTable σ t with
  | none => exact h
  | some td =>
      exact dbInv_setTable tableInv0 σ t _ h (fun pk hp => h t td hg pk hp)

theorem alterTableAddColumn_dbInv0 (σ : Snapshot) (t : String) (col : ColumnDef)
    (h : dbInv0 σ) : dbInv0 (alterTableAddColumn σ t col).1 := by
  rcases alterTableAddColumn_shape σ t col with hres | ⟨table, hg, hfresh, hpkx, hres⟩
  · rw [hres]; exact h
  · rw [hres]
    exact dbInv_setTable tableInv0 σ t _ h (alterAddResult_inv0 table col (h t table hg))

theorem alterTableRenameColumn_dbInv0 (σ : Snapshot) (t fromName toName : String)
    (h : dbInv0 σ) : dbInv0 (alterTableRenameColumn σ t fromName toName).1 := by
  rcases alterTableRenameColumn_shape σ t fromName toName with
    hres | ⟨table, cf, hg, hto, hfind, hres⟩
  · rw [hres]; exact h
  · rw [hres]
    exact dbInv_setTable tableInv0 σ t _ h
      (alterRenameResult_inv0 table cf fromName toName (h t table hg) hto hfind)

theorem alterTableDropColumn_dbInv0 (σ : Snapshot) (t colName : String)
    (h : dbInv0 σ) : dbInv0 (alterTableDropColumn σ t colName).1 := by
  rcases alterTableDropColumn_shape σ t colName with hres | ⟨table, idx, hg, hfind, hres⟩
  · rw [hres]; exact h
  · rw [hres]
    exact dbInv_setTable tableInv0 σ t _ h
      (alterDropResult_inv0 table colName idx (h t table hg) hfind)

/-! ### The ALTER TABLE statements and invariants 1 and 2 -/

theorem alterTableAddColumn_dbInv1 (σ : Snapshot) (t : String) (col : ColumnDef)
    (h0 : dbInv0 σ) (h : dbInv1 σ)
    (hsafe : col.primaryKey = true → ∀ td, getTable σ t = some td → td.rows = []) :
    dbInv1 (alterTableAddColumn σ t col).1 := by
  rcases alterTableAddColumn_shape σ t col with hres | ⟨table, hg, hfresh, hpkx, hres⟩
  · rw [hres]; exact h
  · rw [hres]
    exact dbInv_setTable tableInv1 σ t _ h
      (alterAddResult_inv1 table col (h0 t table hg) (h t table hg) hfresh
        (fun hcp => hsafe hcp table hg))

theorem alterTableAddColumn_dbInv2 (σ : Snapshot) (t : String) (col : ColumnDef)
    (h0 : dbInv0 σ) (h : dbInv2 σ)
    (hsafe : col.primaryKey = true → ∀ td, getTable σ t = some td → td.rows = []) :
    dbInv2 (alterTableAddColumn σ t col).1 := by
  rcases alterTableAddColumn_shape σ t col with hres | ⟨table, hg, hfresh, hpkx, hres⟩
  · rw [hres]; exact h
  · rw [hres]
    exact dbInv_setTable tableInv2 σ t _ h
      (alterAddResult_inv2 table col (h0 t table hg) (h t table hg) hfresh
        (fun hcp => hsafe hcp table hg))

theorem alterTableRenameColumn_dbInv1 (σ : Snapshot) (t fromName toName : String)
    (h0 : dbInv0 σ) (h : dbInv1 σ) :
    dbInv1 (alterTableRenameColumn σ t fromName toName).1 := by
  rcases alterTableRenameColumn_shape σ t fromName toName with
    hres | ⟨table, cf, hg, hto, hfind, hres⟩
  · rw [hres]; exact h
  · rw [hres]
    exact dbInv_setTable tableInv1 σ t _ h
      (alterRenameResult_inv1 table cf fromName toName (h0 t table hg) (h t table hg)
        hto hfind)

theorem alterTableRenameColumn_dbInv2 (σ : Snapshot) (t fromName toName : String)
    (h0 : dbInv0 σ) (h : dbInv2 σ) :
    dbInv2 (alterTableRenameColumn σ t fromName toName).1 := by
  rcases alterTableRenameColumn_shape σ t fromName toName with
    hres | ⟨table, cf, hg, hto, hfind, hres⟩
  · rw [hres]; exact h
  · rw [hres]
    exact dbInv_setTable tableInv2 σ t _ h
      (alterRenameResult_inv2 table cf fromName toName (h0 t table hg) (h t table hg)
        hto hfind)

theorem alterTableDropColumn_dbInv1 (σ : Snapshot) (t colName : String)
    (h : dbInv1 σ) : dbInv1 (alterTableDropColumn σ t colName).1 := by
  rcases alterTableDropColumn_shape σ t colName with hres | ⟨table, idx, hg, hfind, hres⟩
  · rw [hres]; exact h
  · rw [hres]
    exact dbInv_setTable tableInv1 σ t _ h (alterDropResult_inv1 table colName idx (h t table hg))

theorem alterTableDropColumn_dbInv2 (σ : Snapshot) (t colName : String)
    (h : dbInv2 σ) : dbInv2 (alterTableDropColumn σ t colName).1 := by
  rcases alterTableDropColumn_shape σ t colName with hres | ⟨table, idx, hg, hfind, hres⟩
  · rw [hres]; exact h
  · rw [hres]
    exact dbInv_setTable tableInv2 σ t _ h
      (alterDropResult_inv2 table colName idx (h t table hg) hfind)

/-! ### Invariant preservation through whole statements -/

theorem insertLoop_dbInv1 (t : String) (cols : List String) (oa : Option OrAction) :
    ∀ (vals : List (List Jv)) (σ : Snapshot) (changes : Nat) (acc : List Row),
      dbInv1 σ → dbInv1 (insertLoop t cols oa σ vals changes acc).1 := by
  intro vals
  induction vals with
  | nil => intro σ changes acc h; exact h
  | cons v rest ih =>
      intro σ changes acc h
      simp only [insertLoop]
      by_cases hlen : cols.length ≠ v.length
      · rw [if_pos hlen]; exact h
      · rw [if_neg hlen]
        rcases hI : insertRow σ t cols v oa with ⟨σ1, res⟩
        have h1 : dbInv1 σ1 := by
          have := insertRow_dbInv1 σ t cols v oa h
          rwa [hI] at this
        cases res with
        | error e => exact h1
        | ok orow =>
            cases orow with
            | none => exact ih σ1 changes acc h1
            | some row => exact ih σ1 (changes + 1) (acc ++ [row]) h1

theorem insertLoop_dbInv2 (t : String) (cols : List String) (oa : Option OrAction) :
    ∀ (vals : List (List Jv)) (σ : Snapshot) (changes : Nat) (acc : List Row),
      dbInv2 σ → dbInv2 (insertLoop t cols oa σ vals changes acc).1 := by
  intro vals
  induction vals with
  | nil => intro σ changes acc h; exact h
  | cons v rest ih =>
      intro σ changes acc h
      simp only [insertLoop]
      by_cases hlen : cols.length ≠ v.length
      · rw [if_pos hlen]; exact h
      · rw [if_neg hlen]
        rcases hI : insertRow σ t cols v oa with ⟨σ1, res⟩
        have h1 : dbInv2 σ1 := by
          have := insertRow_dbInv2 σ t cols v oa h
          rwa [hI] at this
        cases res with
        | error e => exact h1
        | ok orow =>
            cases orow with
            | none => exact ih σ1 changes acc h1
            | some row => exact ih σ1 (changes + 1) (acc ++ [row]) h1

theorem execStmt_dbWf (σ : Snapshot) (s : Stmt) (h : dbWf σ) :
    dbWf (execStmt σ s).1 := by
  cases s with
  | createTable t cols pk ine ucs checks =>
      simp only [execStmt]
      rcases hC : createTable σ t cols pk ine ucs checks with ⟨σ1, res⟩
      have h1 : dbWf σ1 := by
        have hh := createTable_dbWf σ t cols pk ine ucs checks h
        rwa [hC] at hh
      cases res with
      | ok u => cases u; exact h1
      | error e => exact h1
  | insert t colsOpt valuesList orAction =>
      simp only [execStmt]
      cases hg : getTable σ t with
      | none =>
          cases colsOpt with
          | none => exact h
          | some cs =>
              cases cs with
              | nil => exact h
              | cons c cs2 =>
                  simp only
                  have hE : dbWf (ensureTable σ t (inferColumnDefsFromInsert (c :: cs2))).1 :=
                    ensureTable_dbWf σ t (c :: cs2) h
                  rcases hL : insertLoop t (c :: cs2) orAction
                      (ensureTable σ t (inferColumnDefsFromInsert (c :: cs2))).1
                      valuesList 0 [] with ⟨σ1, res⟩
                  have h1 : dbWf σ1 := by
                    have hh := insertLoop_dbWf t (c :: cs2) orAction valuesList
                      (ensureTable σ t (inferColumnDefsFromInsert (c :: cs2))).1 0 [] hE
                    rwa [hL] at hh
                  cases res with
                  | ok pr => exact h1
                  | error e => exact h1
      | some td =>
          cases colsOpt with
          | some cs =>
              simp only
              rcases hL : insertLoop t cs orAction σ valuesList 0 [] with ⟨σ1, res⟩
              have h1 : dbWf σ1 := by
                have hh := insertLoop_dbWf t cs orAction valuesList σ 0 [] h
                rwa [hL] at hh
              cases res with
              | ok pr => exact h1
              | error e => exact h1
          | none =>
              simp only
              rcases hL : insertLoop t (td.tdef.columns.map (fun c => c.name)) orAction σ
                  valuesList 0 [] with ⟨σ1, res⟩
              have h1 : dbWf σ1 := by
                have hh := insertLoop_dbWf t (td.tdef.columns.map (fun c => c.name))
                  orAction valuesList σ 0 [] h
                rwa [hL] at hh
              rw [hL]
              cases res with
              | ok pr => exact h1
              | error e => exact h1
  | update t set w lim =>
      simp only [execStmt]
      rcases hU : updateTable σ t set w lim with ⟨σ1, res⟩
      have h1 : dbWf σ1 := by
        have hh := updateTable_dbWf σ t set w lim h
        rwa [hU] at hh
      cases res with
      | ok pr => exact h1
      | error e => exact h1
  | delete t w lim =>
      simp only [execStmt]
      rcases hD : deleteFromTable σ t w lim with ⟨σ1, res⟩
      have h1 : dbWf σ1 := by
        have hh := deleteFromTable_dbWf σ t w lim h
        rwa [hD] at hh
      cases res with
      | ok pr => exact h1
      | error e => exact h1
  | alterAddColumn t col =>
      simp only [execStmt]
      rcases hA : alterTableAddColumn σ t col with ⟨σ1, res⟩
      have h1 : dbWf σ1 := by
        have hh := alterTableAddColumn_dbWf σ t col h
        rwa [hA] at hh
      cases res with
      | ok u => cases u; exact h1
      | error e => exact h1
  | alterRenameColumn t fromName toName =>
      simp only [execStmt]
      rcases hA : alterTableRenameColumn σ t fromName toName with ⟨σ1, res⟩
      have h1 : dbWf σ1 := by
        have hh := alterTableRenameColumn_dbWf σ t fromName toName h
        rwa [hA] at hh
      cases res with
      | ok u => cases u; exact h1
      | error e => exact h1
  | alterDropColumn t colName =>
      simp only [execStmt]
      rcases hA : alterTableDropColumn σ t colName with ⟨σ1, res⟩
      have h1 : dbWf σ1 := by
        have hh := alterTableDropColumn_dbWf σ t colName h
        rwa [hA] at hh
      cases res with
      | ok u => cases u; exact h1
      | error e => exact h1
  | dropTable t ife =>
      simp only [execStmt]
      rcases hD : dropTable σ t ife with ⟨σ1, res⟩
      have h1 : dbWf σ1 := by
        have hh := dropTable_dbWf σ t ife h
        rwa [hD] at hh
      cases res with
      | ok u => cases u; exact h1
      | error e => exact h1
  | createTableAs t q ine =>
      simp only [execStmt]
      rcases hC : createTableAsSelect σ t q ine with ⟨σ1, res⟩
      have h1 : dbWf σ1 := by
        have hh := createTableAsSelect_dbWf σ t q ine h
        rwa [hC] at hh
      cases res with
      | ok u => cases u; exact h1
      | error e => exact h1
  | dropTrigger n ife =>
      simp only [execStmt]
      rcases hD : dropTriggerS σ n ife with ⟨σ1, res⟩
      have h1 : dbWf σ1 := by
        have hh := dropTriggerS_dbWf σ n ife h
        rwa [hD] at hh
      cases res with
      | ok u => cases u; exact h1
      | error e => exact h1

theorem execStmt_dbInv0 (σ : Snapshot) (s : Stmt) (hwf : dbWf σ) (h : dbInv0 σ) :
    dbInv0 (execStmt σ s).1 := by
  cases s with
  | createTable t cols pk ine ucs checks =>
      simp only [execStmt]
      rcases hC : createTable σ t cols pk ine ucs checks with ⟨σ1, res⟩
      have h1 : dbInv0 σ1 := by
        have hh := createTable_dbInv0 σ t cols pk ine ucs checks h
        rwa [hC] at hh
      cases res with
      | ok u => cases u; exact h1
      | error e => exact h1
  | insert t colsOpt valuesList orAction =>
      simp only [execStmt]
      cases hg : getTable σ t with
      | none =>
          cases colsOpt with
          | none => exact h
          | some cs =>
              cases cs with
              | nil => exact h
              | cons c cs2 =>
                  simp only
                  have hE : dbInv0 (ensureTable σ t (inferColumnDefsFromInsert (c :: cs2))).1 :=
                    ensureTable_dbInv0 σ t (c :: cs2) h
                  rcases hL : insertLoop t (c :: cs2) orAction
                      (ensureTable σ t (inferColumnDefsFromInsert (c :: cs2))).1
                      valuesList 0 [] with ⟨σ1, res⟩
                  have h1 : dbInv0 σ1 := by
                    have hh := insertLoop_dbInv0 t (c :: cs2) orAction valuesList
                      (ensureTable σ t (inferColumnDefsFromInsert (c :: cs2))).1 0 [] hE
                    rwa [hL] at hh
                  cases res with
                  | ok pr => exact h1
                  | error e => exact h1
      | some td =>
          cases colsOpt with
          | some cs =>
              simp only
              rcases hL : insertLoop t cs orAction σ valuesList 0 [] with ⟨σ1, res⟩
              have h1 : dbInv0 σ1 := by
                have hh := insertLoop_dbInv0 t cs orAction valuesList σ 0 [] h
                rwa [hL] at hh
              cases res with
              | ok pr => exact h1
              | error e => exact h1
          | none =>
              simp only
              rcases hL : insertLoop t (td.tdef.columns.map (fun c => c.name)) orAction σ
                  valuesList 0 [] with ⟨σ1, res⟩
              have h1 : dbInv0 σ1 := by
                have hh := insertLoop_dbInv0 t (td.tdef.columns.map (fun c => c.name))
                  orAction valuesList σ 0 [] h
                rwa [hL] at hh
              rw [hL]
              cases res with
              | ok pr => exact h1
              | error e => exact h1
  | update t set w lim =>
      simp only [execStmt]
      rcases hU : updateTable σ t set w lim with ⟨σ1, res⟩
      have h1 : dbInv0 σ1 := by
        have hh := updateTable_dbInv0 σ t set w lim h
        rwa [hU] at hh
      cases res with
      | ok pr => exact h1
      | error e => exact h1
  | delete t w lim =>
      simp only [execStmt]
      rcases hD : deleteFromTable σ t w lim with ⟨σ1, res⟩
      have h1 : dbInv0 σ1 := by
        have hh := deleteFromTable_dbInv0 σ t w lim h
        rwa [hD] at hh
      cases res with
      | ok pr => exact h1
      | error e => exact h1
  | alterAddColumn t col =>
      simp only [execStmt]
      rcases hA : alterTableAddColumn σ t col with ⟨σ1, res⟩
      have h1 : dbInv0 σ1 := by
        have hh := alterTableAddColumn_dbInv0 σ t col h
        rwa [hA] at hh
      cases res with
      | ok u => cases u; exact h1
      | error e => exact h1
  | alterRenameColumn t fromName toName =>
      simp only [execStmt]
      rcases hA : alterTableRenameColumn σ t fromName toName with ⟨σ1, res⟩
      have h1 : dbInv0 σ1 := by
        have hh := alterTableRenameColumn_dbInv0 σ t fromName toName h
        rwa [hA] at hh
      cases res with
      | ok u => cases u; exact h1
      | error e => exact h1
  | alterDropColumn t colName =>
      simp only [execStmt]
      rcases hA : alterTableDropColumn σ t colName with ⟨σ1, res⟩
      have h1 : dbInv0 σ1 := by
        have hh := alterTableDropColumn_dbInv0 σ t colName h
        rwa [hA] at hh
      cases res with
      | ok u => cases u; exact h1
      | error e => exact h1
  | dropTable t ife =>
      simp only [execStmt]
      rcases hD : dropTable σ t ife with ⟨σ1, res⟩
      have h1 : dbInv0 σ1 := by
        have hh : dbInv0 (dropTable σ t ife).1 := dropTable_dbInvP tableInv0 σ t ife hwf h
        rwa [hD] at hh
      cases res with
      | ok u => cases u; exact h1
      | error e => exact h1
  | createTableAs t q ine =>
      simp only [execStmt]
      rcases hC : createTableAsSelect σ t q ine with ⟨σ1, res⟩
      have h1 : dbInv0 σ1 := by
        have hh : dbInv0 (createTableAsSelect σ t q ine).1 :=
          createTableAsSelect_dbInvP tableInv0 σ t q ine h
            (fun cols rows => ctas_inv0 t cols rows)
        rwa [hC] at hh
      cases res with
      | ok u => cases u; exact h1
      | error e => exact h1
  | dropTrigger n ife =>
      simp only [execStmt]
      rcases hD : dropTriggerS σ n ife with ⟨σ1, res⟩
      have h1 : dbInv0 σ1 := by
        have hh : dbInv0 (dropTriggerS σ n ife).1 := dropTriggerS_dbInvP tableInv0 σ n ife h
        rwa [hD] at hh
      cases res with
      | ok u => cases u; exact h1
      | error e => exact h1

theorem execStmt_dbInv1 (σ : Snapshot) (s : Stmt) (hw : stmtWf s)
    (hd : stmtDistinctSafe σ s) (hwf : dbWf σ) (h0 : dbInv0 σ) (h : dbInv1 σ) :
    dbInv1 (execStmt σ s).1 := by
  cases s with
  | createTable t cols pk ine ucs checks =>
      simp only [execStmt]
      rcases hC : createTable σ t cols pk ine ucs checks with ⟨σ1, res⟩
      have h1 : dbInv1 σ1 := by
        have hh := createTable_dbInv1 σ t cols pk ine ucs checks h
        rwa [hC] at hh
      cases res with
      | ok u => cases u; exact h1
      | error e => exact h1
  | insert t colsOpt valuesList orAction =>
      simp only [execStmt]
      cases hg : getTable σ t with
      | none =>
          cases colsOpt with
          | none => exact h
          | some cs =>
              cases cs with
              | nil => exact h
              | cons c cs2 =>
                  simp only
                  have hE : dbInv1
                      (ensureTable σ t (inferColumnDefsFromInsert (c :: cs2))).1 :=
                    ensureTable_dbInv1 σ t (c :: cs2) h
                  rcases hL : insertLoop t (c :: cs2) orAction
                      (ensureTable σ t (inferColumnDefsFromInsert (c :: cs2))).1
                      valuesList 0 [] with ⟨σ1, res⟩
                  have h1 : dbInv1 σ1 := by
                    have hh := insertLoop_dbInv1 t (c :: cs2) orAction valuesList
                      (ensureTable σ t (inferColumnDefsFromInsert (c :: cs2))).1 0 [] hE
                    rwa [hL] at hh
                  cases res with
                  | ok pr => exact h1
                  | error e => exact h1
      | some td =>
          cases colsOpt with
          | some cs =>
              simp only
              rcases hL : insertLoop t cs orAction σ valuesList 0 [] with ⟨σ1, res⟩
              have h1 : dbInv1 σ1 := by
                have hh := insertLoop_dbInv1 t cs orAction valuesList σ 0 [] h
                rwa [hL] at hh
              cases res with
              | ok pr => exact h1
              | error e => exact h1
          | none =>
              simp only
              rcases hL : insertLoop t (td.tdef.columns.map (fun c => c.name)) orAction σ
                  valuesList 0 [] with ⟨σ1, res⟩
              have h1 : dbInv1 σ1 := by
                have hh := insertLoop_dbInv1 t (td.tdef.columns.map (fun c => c.name))
                  orAction valuesList σ 0 [] h
                rwa [hL] at hh
              rw [hL]
              cases res with
              | ok pr => exact h1
              | error e => exact h1
  | update t set w lim =>
      simp only [execStmt]
      rcases hU : updateTable σ t set w lim with ⟨σ1, res⟩
      have h1 : dbInv1 σ1 := by
        have hh := updateTable_dbInv1 σ t set w lim hw h
        rwa [hU] at hh
      cases res with
      | ok pr => exact h1
      | error e => exact h1
  | delete t w lim =>
      simp only [execStmt]
      rcases hD : deleteFromTable σ t w lim with ⟨σ1, res⟩
      have h1 : dbInv1 σ1 := by
        have hh := deleteFromTable_dbInv1 σ t w lim h
        rwa [hD] at hh
      cases res with
      | ok pr => exact h1
      | error e => exact h1
  | alterAddColumn t col =>
      simp only [execStmt]
      rcases hA : alterTableAddColumn σ t col with ⟨σ1, res⟩
      have h1 : dbInv1 σ1 := by
        have hh := alterTableAddColumn_dbInv1 σ t col h0 h hd
        rwa [hA] at hh
      cases res with
      | ok u => cases u; exact h1
      | error e => exact h1
  | alterRenameColumn t fromName toName =>
      simp only [execStmt]
      rcases hA : alterTableRenameColumn σ t fromName toName with ⟨σ1, res⟩
      have h1 : dbInv1 σ1 := by
        have hh := alterTableRenameColumn_dbInv1 σ t fromName toName h0 h
        rwa [hA] at hh
      cases res with
      | ok u => cases u; exact h1
      | error e => exact h1
  | alterDropColumn t colName =>
      simp only [execStmt]
      rcases hA : alterTableDropColumn σ t colName with ⟨σ1, res⟩
      have h1 : dbInv1 σ1 := by
        have hh := alterTableDropColumn_dbInv1 σ t colName h
        rwa [hA] at hh
      cases res with
      | ok u => cases u; exact h1
      | error e => exact h1
  | dropTable t ife =>
      simp only [execStmt]
      rcases hD : dropTable σ t ife with ⟨σ1, res⟩
      have h1 : dbInv1 σ1 := by
        have hh : dbInv1 (dropTable σ t ife).1 := dropTable_dbInvP tableInv1 σ t ife hwf h
        rwa [hD] at hh
      cases res with
      | ok u => cases u; exact h1
      | error e => exact h1
  | createTableAs t q ine =>
      simp only [execStmt]
      rcases hC : createTableAsSelect σ t q ine with ⟨σ1, res⟩
      have h1 : dbInv1 σ1 := by
        have hh : dbInv1 (createTableAsSelect σ t q ine).1 :=
          createTableAsSelect_dbInvP tableInv1 σ t q ine h
            (fun cols rows => ctas_inv1 t cols rows)
        rwa [hC] at hh
      cases res with
      | ok u => cases u; exact h1
      | error e => exact h1
  | dropTrigger n ife =>
      simp only [execStmt]
      rcases hD : dropTriggerS σ n ife with ⟨σ1, res⟩
      have h1 : dbInv1 σ1 := by
        have hh : dbInv1 (dropTriggerS σ n ife).1 := dropTriggerS_dbInvP tableInv1 σ n ife h
        rwa [hD] at hh
      cases res with
      | ok u => cases u; exact h1
      | error e => exact h1

theorem execStmt_dbInv2 (σ : Snapshot) (s : Stmt) (hd : stmtDistinctSafe σ s)
    (hs : stmtPkSafe σ s) (hwf : dbWf σ) (h0 : dbInv0 σ) (h : dbInv2 σ) :
    dbInv2 (execStmt σ s).1 := by
  cases s with
  | createTable t cols pk ine ucs checks =>
      simp only [execStmt]
      rcases hC : createTable σ t cols pk ine ucs checks with ⟨σ1, res⟩
      have h1 : dbInv2 σ1 := by
        have hh := createTable_dbInv2 σ t cols pk ine ucs checks h
        rwa [hC] at hh
      cases res with
      | ok u => cases u; exact h1
      | error e => exact h1
  | insert t colsOpt valuesList orAction =>
      simp only [execStmt]
      cases hg : getTable σ t with
      | none =>
          cases colsOpt with
          | none => exact h
          | some cs =>
              cases cs with
              | nil => exact h
              | cons c cs2 =>
                  simp only
                  have hE : dbInv2
                      (ensureTable σ t (inferColumnDefsFromInsert (c :: cs2))).1 :=
                    ensureTable_dbInv2 σ t (c :: cs2) h
                  rcases hL : insertLoop t (c :: cs2) orAction
                      (ensureTable σ t (inferColumnDefsFromInsert (c :: cs2))).1
                      valuesList 0 [] with ⟨σ1, res⟩
                  have h1 : dbInv2 σ1 := by
                    have hh := insertLoop_dbInv2 t (c :: cs2) orAction valuesList
                      (ensureTable σ t (inferColumnDefsFromInsert (c :: cs2))).1 0 [] hE
                    rwa [hL] at hh
                  cases res with
                  | ok pr => exact h1
                  | error e => exact h1
      | some td =>
          cases colsOpt with
          | some cs =>
              simp only
              rcases hL : insertLoop t cs orAction σ valuesList 0 [] with ⟨σ1, res⟩
              have h1 : dbInv2 σ1 := by
                have hh := insertLoop_dbInv2 t cs orAction valuesList σ 0 [] h
                rwa [hL] at hh
              cases res with
              | ok pr => exact h1
              | error e => exact h1
          | none =>
              simp only
              rcases hL : insertLoop t (td.tdef.columns.map (fun c => c.name)) orAction σ
                  valuesList 0 [] with ⟨σ1, res⟩
              have h1 : dbInv2 σ1 := by
                have hh := insertLoop_dbInv2 t (td.tdef.columns.map (fun c => c.name))
                  orAction valuesList σ 0 [] h
                rwa [hL] at hh
              rw [hL]
              cases res with
              | ok pr => exact h1
              | error e => exact h1
  | update t set w lim =>
      simp only [execStmt]
      rcases hU : updateTable σ t set w lim with ⟨σ1, res⟩
      have h1 : dbInv2 σ1 := by
        have hh := updateTable_dbInv2 σ t set w lim hs h
        rwa [hU] at hh
      cases res with
      | ok pr => exact h1
      | error e => exact h1
  | delete t w lim =>
      simp only [execStmt]
      rcases hD : deleteFromTable σ t w lim with ⟨σ1, res⟩
      have h1 : dbInv2 σ1 := by
        have hh := deleteFromTable_dbInv2 σ t w lim h
        rwa [hD] at hh
      cases res with
      | ok pr => exact h1
      | error e => exact h1
  | alterAddColumn t col =>
      simp only [execStmt]
      rcases hA : alterTableAddColumn σ t col with ⟨σ1, res⟩
      have h1 : dbInv2 σ1 := by
        have hh := alterTableAddColumn_dbInv2 σ t col h0 h hd
        rwa [hA] at hh
      cases res with
      | ok u => cases u; exact h1
      | error e => exact h1
  | alterRenameColumn t fromName toName =>
      simp only [execStmt]
      rcases hA : alterTableRenameColumn σ t fromName toName with ⟨σ1, res⟩
      have h1 : dbInv2 σ1 := by
        have hh := alterTableRenameColumn_dbInv2 σ t fromName toName h0 h
        rwa [hA] at hh
      cases res with
      | ok u => cases u; exact h1
      | error e => exact h1
  | alterDropColumn t colName =>
      simp only [execStmt]
      rcases hA : alterTableDropColumn σ t colName with ⟨σ1, res⟩
      have h1 : dbInv2 σ1 := by
        have hh := alterTableDropColumn_dbInv2 σ t colName h
        rwa [hA] at hh
      cases res with
      | ok u => cases u; exact h1
      | error e => exact h1
  | dropTable t ife =>
      simp only [execStmt]
      rcases hD : dropTable σ t ife with ⟨σ1, res⟩
      have h1 : dbInv2 σ1 := by
        have hh : dbInv2 (dropTable σ t ife).1 := dropTable_dbInvP tableInv2 σ t ife hwf h
        rwa [hD] at hh
      cases res with
      | ok u => cases u; exact h1
      | error e => exact h1
  | createTableAs t q ine =>
      simp only [execStmt]
      rcases hC : createTableAsSelect σ t q ine with ⟨σ1, res⟩
      have h1 : dbInv2 σ1 := by
        have hh : dbInv2 (createTableAsSelect σ t q ine).1 :=
          createTableAsSelect_dbInvP tableInv2 σ t q ine h
            (fun cols rows => ctas_inv2 t cols rows)
        rwa [hC] at hh
      cases res with
      | ok u => cases u; exact h1
      | error e => exact h1
  | dropTrigger n ife =>
      simp only [execStmt]
      rcases hD : dropTriggerS σ n ife with ⟨σ1, res⟩
      have h1 : dbInv2 σ1 := by
        have hh : dbInv2 (dropTriggerS σ n ife).1 := dropTriggerS_dbInvP tableInv2 σ n ife h
        rwa [hD] at hh
      cases res with
      | ok u => cases u; exact h1
      | error e => exact h1

/-- The distinctness-safe reachable states carry table-name
well-formedness, the key-names-a-column invariant and key
distinctness. -/
theorem reachesDistinct_inv (σ : Snapshot) (h : ReachesDistinct σ) :
    dbWf σ ∧ dbInv0 σ ∧ dbInv1 σ := by
  induction h with
  | init =>
      refine ⟨by simp [dbWf, emptySnapshot], ?_, ?_⟩
      · intro name td hg
        simp [getTable, emptySnapshot, lookupKey] at hg
      · intro name td hg
        simp [getTable, emptySnapshot, lookupKey] at hg
  | step σ0 s h0 hw hd ih =>
      exact ⟨execStmt_dbWf σ0 s ih.1, execStmt_dbInv0 σ0 s ih.1 ih.2.1,
        execStmt_dbInv1 σ0 s hw hd ih.1 ih.2.1 ih.2.2⟩

/-- The pk-safe reachable states additionally carry the autoincrement
bound. -/
theorem reachesSafe_inv (σ : Snapshot) (h : ReachesSafe σ) :
    dbWf σ ∧ dbInv0 σ ∧ dbInv2 σ := by
  induction h with
  | init =>
      refine ⟨by simp [dbWf, emptySnapshot], ?_, ?_⟩
      · intro name td hg
        simp [getTable, emptySnapshot, lookupKey] at hg
      · intro name td hg
        simp [getTable, emptySnapshot, lookupKey] at hg
  | step σ0 s h0 hw hd hs ih =>
      exact ⟨execStmt_dbWf σ0 s ih.1, execStmt_dbInv0 σ0 s ih.1 ih.2.1,
        execStmt_dbInv2 σ0 s hd hs ih.1 ih.2.1 ih.2.2⟩

theorem reaches_runProg (prog : List Stmt) (hw : ∀ s ∈ prog, stmtWf s) :
    ∀ σ, Reaches σ → Reaches (runProg σ prog).1 := by
  induction prog with
  | nil => intro σ h; exact h
  | cons s rest ih =>
      intro σ h
      simp only [runProg]
      rcases hE : execStmt σ s with ⟨σ1, res⟩
      have h1 : Reaches σ1 := by
        have hh := Reaches.step σ s h (hw s (List.mem_cons_self s rest))
        rwa [hE] at hh
      cases res with
      | ok r => exact ih (fun x hx => hw x (List.mem_cons_of_mem s hx)) σ1 h1
      | error e => exact h1

theorem reachesDistinct_runProg (prog : List Stmt) (hw : ∀ s ∈ prog, stmtWf s)
    (hd : ∀ s ∈ prog, ∀ σ0, stmtDistinctSafe σ0 s) :
    ∀ σ, ReachesDistinct σ → ReachesDistinct (runProg σ prog).1 := by
  induction prog with
  | nil => intro σ h; exact h
  | cons s rest ih =>
      intro σ h
      simp only [runProg]
      rcases hE : execStmt σ s with ⟨σ1, res⟩
      have h1 : ReachesDistinct σ1 := by
        have hh := ReachesDistinct.step σ s h (hw s (List.mem_cons_self s rest))
          (hd s (List.mem_cons_self s rest) σ)
        rwa [hE] at hh
      cases res with
      | ok r =>
          exact ih (fun x hx => hw x (List.mem_cons_of_mem s hx))
            (fun x hx => hd x (List.mem_cons_of_mem s hx)) σ1 h1
      | error e => exact h1

theorem reachesSafe_runProg (prog : List Stmt) (hw : ∀ s ∈ prog, stmtWf s)
    (hd : ∀ s ∈ prog, ∀ σ0, stmtDistinctSafe σ0 s)
    (hs : ∀ s ∈ prog, ∀ σ0, stmtPkSafe σ0 s) :
    ∀ σ, ReachesSafe σ → ReachesSafe (runProg σ prog).1 := by
  induction prog with
  | nil => intro σ h; exact h
  | cons s rest ih =>
      intro σ h
      simp only [runProg]
      rcases hE : execStmt σ s with ⟨σ1, res⟩
      have h1 : ReachesSafe σ1 := by
        have hh := ReachesSafe.step σ s h (hw s (List.mem_cons_self s rest))
          (hd s (List.mem_cons_self s rest) σ) (hs s (List.mem_cons_self s rest) σ)
        rwa [hE] at hh
      cases res with
      | ok r =>
          exact ih (fun x hx => hw x (List.mem_cons_of_mem s hx))
            (fun x hx => hd x (List.mem_cons_of_mem s hx))
            (fun x hx => hs x (List.mem_cons_of_mem s hx)) σ1 h1
      | error e => exact h1

def c6Col : ColumnDef :=
  { name := "id", type := .integer, notNull := false, primaryKey := true,
    unique := false, dflt := none, check := none }

def c6Tdef : TableDef :=
  { name := "t", columns := [c6Col], primaryKey := some "id",
    autoIncrement := true, uniqueConstraints := [], checks := [] }

/-- CREATE TABLE t(id INTEGER PRIMARY KEY); INSERT id = 1;
UPDATE t SET id = 100. -/
def c6Prog : List Stmt :=
  [.createTable "t" [c6Col] (some "id") false [] [],
   .insert "t" (some ["id"]) [[Jv.num 1]] none,
   .update "t" [("id", Jv.num 100)] none none]

def c6BadState : Snapshot := (runProg emptySnapshot c6Prog).1

def c6BadTable : TableData :=
  { tdef := c6Tdef, rows := [[("id", Jv.num 100)]], autoInc := 2 }

def c6ColA : ColumnDef :=
  { name := "a", type := .integer, notNull := false, primaryKey := false,
    unique := false, dflt := none, check := none }

/-- CREATE TABLE t(a INTEGER); INSERT a = 1; INSERT a = 2;
ALTER TABLE t ADD COLUMN id INTEGER PRIMARY KEY. -/
def c6AlterProg : List Stmt :=
  [.createTable "t" [c6ColA] none false [] [],
   .insert "t" (some ["a"]) [[Jv.num 1], [Jv.num 2]] none,
   .alterAddColumn "t" c6Col]

def c6AlterState : Snapshot := (runProg emptySnapshot c6AlterProg).1

def c6Row1 : Row := [("a", Jv.num 1), ("id", Jv.null)]

def c6Row2 : Row := [("a", Jv.num 2), ("id", Jv.null)]

def c6AlterTdef : TableDef :=
  { name := "t", columns := [c6ColA, c6Col], primaryKey := some "id",
    autoIncrement := true, uniqueConstraints := [], checks := [] }

def c6AlterTable : TableData :=
  { tdef := c6AlterTdef, rows := [c6Row1, c6Row2], autoInc := 1 }

unseal Rat.add in
/-- C6 counterexample: two reachable catalogs refute the claimed
invariants over the full statement language.  After CREATE TABLE t(id
INTEGER PRIMARY KEY); INSERT id=1; UPDATE t SET id=100 the stored key
100 exceeds the autoincrement counter 2, because the update path never
raises the counter.  After CREATE TABLE t(a INTEGER); INSERT a=1;
INSERT a=2; ALTER TABLE t ADD COLUMN id INTEGER PRIMARY KEY the
backfill stores the same null key in both rows, so the stored keys are
not pairwise distinct even in the Object.is sense. -/
theorem pk_invariants_refuted :
    (Reaches c6BadState ∧ getTable c6BadState "t" = some c6BadTable ∧
      c6BadTable.tdef.primaryKey = some "id" ∧
      primaryKeyColumn c6BadTable.tdef = some c6Col ∧
      c6Col.type.isNumeric = true ∧
      lookupKey [("id", Jv.num 100)] "id" = some (Jv.num 100) ∧
      [("id", Jv.num 100)] ∈ c6BadTable.rows ∧
      c6BadTable.autoInc < (100 : ℚ) ∧ ¬ dbInv2 c6BadState) ∧
    (Reaches c6AlterState ∧ getTable c6AlterState "t" = some c6AlterTable ∧
      c6AlterTable.tdef.primaryKey = some "id" ∧
      c6AlterTable.rows = [c6Row1, c6Row2] ∧ c6Row1 ≠ c6Row2 ∧
      objectIs (lookupKey c6Row1 "id") (lookupKey c6Row2 "id") = true ∧
      ¬ dbInv1 c6AlterState) := by
  constructor
  · refine ⟨?_, by decide, by decide, by decide, by decide, by decide, by decide,
      by decide, ?_⟩
    · exact reaches_runProg c6Prog
        (by intro s hs; fin_cases hs <;> simp [stmtWf]) emptySnapshot Reaches.init
    · intro hinv
      rcases hinv "t" c6BadTable (by decide) "id" c6Col (by decide) (by decide) (by decide)
        [("id", Jv.num 100)] (by decide) with ⟨p, hp, hlt⟩
      have h4 : some (Jv.num 100) = some (Jv.num p) := by
        rw [← hp]; decide
      have h6 : (100 : ℚ) = p := Jv.num.inj (Option.some.inj h4)
      have hlt2 : p < (2 : ℚ) := hlt
      rw [← h6] at hlt2
      norm_num at hlt2
  · refine ⟨?_, by decide, by decide, by decide, by decide, by decide, ?_⟩
    · exact reaches_runProg c6AlterProg
        (by intro s hs; fin_cases hs <;> simp [stmtWf]) emptySnapshot Reaches.init
    · intro hinv
      have hpair : ([c6Row1, c6Row2] : List Row).Pairwise (pkDistinct "id") :=
        (hinv "t" c6AlterTable (by decide) "id" (by decide)).2
      have hrel : pkDistinct "id" c6Row1 c6Row2 :=
        (List.pairwise_cons.mp hpair).1 c6Row2 (List.mem_cons_self _ _)
      have hrel2 : objectIs (lookupKey c6Row1 "id") (lookupKey c6Row2 "id") = false := hrel
      have htrue : objectIs (lookupKey c6Row1 "id") (lookupKey c6Row2 "id") = true := by
        decide
      rw [htrue] at hrel2
      cases hrel2

/-- C6 (amended): over the catalog-mutating statement language, in
every catalog reachable without ALTER TABLE ADD COLUMN statements that
install a primary key on a table already holding rows, every table's
stored primary keys are present and pairwise distinct in the Object.is
sense the engine enforces; and in every catalog additionally reached
without UPDATE statements assigning a primary-key column, every table
with a numeric primary-key column stores only numeric keys strictly
below its autoincrement counter. -/
theorem pk_invariants (σ1 σ2 : Snapshot) (h1 : ReachesDistinct σ1)
    (h2 : ReachesSafe σ2) : dbInv1 σ1 ∧ dbInv2 σ2 :=
  ⟨(reachesDistinct_inv σ1 h1).2.2, (reachesSafe_inv σ2 h2).2.2⟩

/-- CREATE TABLE t(id INTEGER PRIMARY KEY); INSERT id = 1. -/
def c6GoodProg : List Stmt :=
  [.createTable "t" [c6Col] (some "id") false [] [],
   .insert "t" (some ["id"]) [[Jv.num 1]] none]

def c6GoodState : Snapshot := (runProg emptySnapshot c6GoodProg).1

theorem pk_invariants_witness : dbInv1 c6GoodState ∧ dbInv2 c6GoodState :=
  pk_invariants c6GoodState c6GoodState
    (reachesDistinct_runProg c6GoodProg
      (by intro s hs; fin_cases hs <;> simp [stmtWf])
      (by intro s hs; fin_cases hs <;> exact fun σ0 => trivial)
      emptySnapshot ReachesDistinct.init)
    (reachesSafe_runProg c6GoodProg
      (by intro s hs; fin_cases hs <;> simp [stmtWf])
      (by intro s hs; fin_cases hs <;> exact fun σ0 => trivial)
      (by intro s hs; fin_cases hs <;> exact fun σ0 => trivial)
      emptySnapshot ReachesSafe.init)
